import Mathlib

/-!
# Replicated write path: insert sink and cache core

Shallow embedding of

* `src/Storages/MergeTree/ReplicatedMergeTreeSink.cpp`
  (`DelayedChunk::Partition`, `testSelfDeduplicate`, the quorum helpers and the
  asynchronous `finishDelayedChunk`), and
* `src/Common/CacheBase.h` (`CacheBase::getOrSet` with its insert tokens),

followed by the theorems that settle the specification claims about them.
-/

namespace DB

/-! ## Error codes -/

/-- The members of `namespace ErrorCodes` that the sink refers to. -/
inductive ErrorCode where
  | TOO_FEW_LIVE_REPLICAS
  | UNSATISFIED_QUORUM_FOR_PREVIOUS_WRITE
  | UNEXPECTED_ZOOKEEPER_ERROR
  | NO_ZOOKEEPER
  | READONLY
  | UNKNOWN_STATUS_OF_INSERT
  | INSERT_WAS_DEDUPLICATED
  | TIMEOUT_EXCEEDED
  | NO_ACTIVE_REPLICAS
  | DUPLICATE_DATA_PART
  | PART_IS_TEMPORARILY_LOCKED
  | LOGICAL_ERROR
  | TABLE_IS_READ_ONLY
  | QUERY_WAS_CANCELLED
  deriving DecidableEq, Repr

/-! ## Quorum configuration of the sink -/

/-- The quorum related members of `ReplicatedMergeTreeSinkImpl`:
`std::optional<size_t> required_quorum_size` and `bool quorum_parallel`. -/
structure QuorumConfig where
  required_quorum_size : Option Nat
  quorum_parallel : Bool
  deriving DecidableEq, Repr

/-- The constructor `ReplicatedMergeTreeSinkImpl::ReplicatedMergeTreeSinkImpl`, restricted to
the quorum members: `required_quorum_size(majority_quorum ? std::nullopt : quorum_size)`,
then `if (required_quorum_size == 1) required_quorum_size = 0;`. -/
def QuorumConfig.construct (quorum_size : Nat) (quorum_parallel_ : Bool)
    (majority_quorum : Bool) : QuorumConfig :=
  let required : Option Nat := if majority_quorum then none else some quorum_size
  { required_quorum_size := if required = some 1 then some 0 else required
    quorum_parallel := quorum_parallel_ }

/-- Method `ReplicatedMergeTreeSinkImpl::isQuorumEnabled`:
`!required_quorum_size.has_value() || required_quorum_size.value() > 1`. -/
def QuorumConfig.isQuorumEnabled (s : QuorumConfig) : Bool :=
  match s.required_quorum_size with
  | none => true
  | some q => decide (q > 1)

/-- Method `ReplicatedMergeTreeSinkImpl::getQuorumSize`. -/
def QuorumConfig.getQuorumSize (s : QuorumConfig) (replicas_num : Nat) : Nat :=
  if !s.isQuorumEnabled then 0
  else
    match s.required_quorum_size with
    | some q => q
    | none => replicas_num / 2 + 1

/-! ## `DelayedChunk::Partition` (asynchronous inserts) -/

/-- Number of values of `size_t` (64 bit). -/
def sizeModulus : Nat := 2 ^ 64

/-- Addition of two `size_t` values. -/
def sizeAdd (a b : Nat) : Nat := (a + b) % sizeModulus

/-- Subtraction of two `size_t` values (wraps around below zero). -/
def sizeSub (a b : Nat) : Nat := (a + (sizeModulus - b % sizeModulus)) % sizeModulus

/-- The call `std::filesystem::path(raw_path).filename()` on a POSIX system: the text after the last
`/` of the path, the whole text when it has no `/`. -/
def filename (raw_path : String) : String :=
  String.mk (raw_path.toList.reverse.takeWhile (fun c => c != '/')).reverse

/-- The type of `block_id_to_offset_idx`, `std::unordered_map<String, std::vector<size_t>>`,
as the list of its entries (keys pairwise different). -/
abbrev BlockIdMap := List (String × List Nat)

/-- The call `m.find(k)`: the mapped vector, `none` for `m.end()`. -/
def BlockIdMap.find : BlockIdMap → String → Option (List Nat)
  | [], _ => none
  | (k', v) :: m, k => if k' = k then some v else BlockIdMap.find m k

/-- The statement `m[k].push_back(i)`: `operator[]` creates an empty vector for a new key. -/
def BlockIdMap.pushBack : BlockIdMap → String → Nat → BlockIdMap
  | [], k, i => [(k, [i])]
  | (k', v) :: m, k, i =>
    if k' = k then (k', v ++ [i]) :: m else (k', v) :: BlockIdMap.pushBack m k i

/-- The loop of `initBlockIDMap`, from index `i` on: `rest` holds `block_id[i], ...`. -/
def initBlockIDMapFrom : List String → Nat → BlockIdMap → BlockIdMap
  | [], _, m => m
  | id :: rest, i, m => initBlockIDMapFrom rest (i + 1) (m.pushBack id i)

/-- The struct `BlockWithPartition`: the block as the list of its columns (all of the same size), and the
row offsets at which the sub-blocks end. -/
structure BlockWithPartition (α : Type) where
  block : List (List α)
  offsets : List Nat

/-- Method `Block::rows()`: the size of the first column, `0` without columns. -/
def blockRows {α : Type} (block : List (List α)) : Nat :=
  match block with
  | [] => 0
  | col :: _ => col.length

/-- The struct `DelayedChunk::Partition` of `ReplicatedMergeTreeSinkImpl<true>`. The temporary part is
always written from `block_with_partition` (in `consume` and after each filter in
`finishDelayedChunk`), so it is represented by that block; logger, timer and counters are left
out. -/
structure Partition (α : Type) where
  block_id : List String
  block_with_partition : BlockWithPartition α
  block_id_to_offset_idx : BlockIdMap

/-- Method `Partition::initBlockIDMap`. -/
def Partition.initBlockIDMap {α : Type} (p : Partition α) : Partition α :=
  { p with block_id_to_offset_idx := initBlockIDMapFrom p.block_id 0 [] }

/-- The constructor of `Partition`: stores the members and calls `initBlockIDMap`. -/
def Partition.construct {α : Type} (block_id_ : List String) (block_ : BlockWithPartition α) :
    Partition α :=
  Partition.initBlockIDMap
    { block_id := block_id_, block_with_partition := block_, block_id_to_offset_idx := [] }

/-- First loop of `filterBlockDuplicate`: for every conflict path look its file name up in the
map (`LOGICAL_ERROR` when unknown) and append its indexes, all but the first when
`self_dedup`. -/
def collectOffsetIdx (m : BlockIdMap) (self_dedup : Bool) :
    List String → List Nat → Except ErrorCode (List Nat)
  | [], offset_idx => .ok offset_idx
  | raw_path :: rest, offset_idx =>
    match m.find (filename raw_path) with
    | none => .error ErrorCode.LOGICAL_ERROR
    | some idxs =>
      collectOffsetIdx m self_dedup rest (offset_idx ++ idxs.drop (if self_dedup then 1 else 0))

/-- The inner `while (start_pos < end_pos)` loop, `k` iterations left: writes `0` into the
filter at `start_pos` and advances (a write past the end of the filter is dropped). -/
def zeroRange : Nat → Nat → List Bool → List Bool
  | 0, _, vec => vec
  | k + 1, start_pos, vec => zeroRange k (start_pos + 1) (vec.set start_pos false)

/-- Local variables of the second loop of `filterBlockDuplicate`; `it` is the part of the sorted
`offset_idx` from the iterator to the end, `vec` the filter column (`true` for `1`). -/
structure FilterLoopState where
  idx : Nat
  remove_count : Nat
  it : List Nat
  new_offsets : List Nat
  new_block_ids : List String
  vec : List Bool
  deriving DecidableEq, Repr

/-- One iteration of `for (auto & offset : offsets)` in `filterBlockDuplicate`. -/
def filterStep (offsets : List Nat) (block_id : List String) (st : FilterLoopState)
    (offset : Nat) : FilterLoopState :=
  if st.it.head? = some st.idx then
    let start_pos := if st.idx > 0 then offsets.getD (st.idx - 1) 0 else 0
    let end_pos := offset
    { st with
      remove_count := sizeAdd st.remove_count (sizeSub end_pos start_pos)
      vec := zeroRange (end_pos - start_pos) start_pos st.vec
      it := st.it.tail
      idx := st.idx + 1 }
  else
    { st with
      new_offsets := st.new_offsets ++ [sizeSub offset st.remove_count]
      new_block_ids := st.new_block_ids ++ [block_id.getD st.idx ""]
      idx := st.idx + 1 }

/-- Method `IColumn::filter(vec, hint)`: the values whose filter byte is not `0`. -/
def filterColumn {α : Type} : List α → List Bool → List α
  | x :: xs, b :: bs => if b then x :: filterColumn xs bs else filterColumn xs bs
  | _, _ => []

/-- Method `Partition::filterBlockDuplicate` (`async_insert` branch). -/
def Partition.filterBlockDuplicate {α : Type} (p : Partition α) (block_paths : List String)
    (self_dedup : Bool) : Except ErrorCode (Partition α) :=
  match collectOffsetIdx p.block_id_to_offset_idx self_dedup block_paths [] with
  | .error e => .error e
  | .ok unsorted =>
    let offset_idx := unsorted.insertionSort (fun a b => a ≤ b)
    let offsets := p.block_with_partition.offsets
    let rows := blockRows p.block_with_partition.block
    let st := offsets.foldl (filterStep offsets p.block_id)
      { idx := 0, remove_count := 0, it := offset_idx, new_offsets := [], new_block_ids := [],
        vec := List.replicate rows true }
    .ok (Partition.initBlockIDMap
      { block_id := st.new_block_ids
        block_with_partition :=
          { block := p.block_with_partition.block.map (fun col => filterColumn col st.vec)
            offsets := st.new_offsets }
        block_id_to_offset_idx := p.block_id_to_offset_idx })

/-- The partition after a call of `filterBlockDuplicate`, together with the error code if the
call raised: the only `throw` is in the first loop, before the first write to a member, so a
call that raises leaves the partition as it was. -/
def Partition.filterBlockDuplicateRun {α : Type} (p : Partition α) (block_paths : List String)
    (self_dedup : Bool) : Option ErrorCode × Partition α :=
  match p.filterBlockDuplicate block_paths self_dedup with
  | .error e => (some e, p)
  | .ok q => (none, q)

/-- Method `Partition::filterSelfDuplicate`. The standard leaves the order in which the range-for
visits an `std::unordered_map` open: `visit` gives it, as a rearrangement of the entries. -/
def Partition.filterSelfDuplicate {α : Type} (visit : BlockIdMap → BlockIdMap)
    (p : Partition α) : Except ErrorCode (Bool × Partition α) :=
  let dup_block_ids :=
    ((visit p.block_id_to_offset_idx).filter (fun e => decide (e.2.length > 1))).map Prod.fst
  if dup_block_ids.isEmpty then .ok (false, p)
  else
    match p.filterBlockDuplicate dup_block_ids true with
    | .error e => .error e
    | .ok q => .ok (true, q)

/-- The function `testSelfDeduplicate`: one `Int64` column built from `data`, a partition built from it,
`filterSelfDuplicate`, and the values of column `0` read back. -/
def testSelfDeduplicate (visit : BlockIdMap → BlockIdMap) (data : List Int)
    (offsets : List Nat) (hashes : List String) : Except ErrorCode (List Int) :=
  let block1 : BlockWithPartition Int := { block := [data], offsets := offsets }
  let part := Partition.construct hashes block1
  match part.filterSelfDuplicate visit with
  | .error e => .error e
  | .ok (_, part') => .ok (part'.block_with_partition.block.getD 0 [])

/-! ### Views used to state the properties of the filters -/

/-- The sub-blocks of a block, from row `start` on: sub-block `i` has the id `block_id[i]` and,
of every column, the rows from the previous offset (`start` for the first one) up to
`offsets[i]`. -/
def subBlocksFrom {α : Type} (block : List (List α)) : Nat → List String → List Nat →
    List (String × List (List α))
  | start, id :: ids, off :: offs =>
    (id, block.map (fun col => (col.drop start).take (off - start))) ::
      subBlocksFrom block off ids offs
  | _, _, _ => []

/-- The sub-blocks of a partition: the ids with their rows, in order. -/
def Partition.subBlocks {α : Type} (p : Partition α) : List (String × List (List α)) :=
  subBlocksFrom p.block_with_partition.block 0 p.block_id p.block_with_partition.offsets

/-- The partition is well formed: one id per offset, non-decreasing offsets the last of which is
the number of rows (a `size_t`), and columns of that size. -/
def Partition.WellFormed {α : Type} (p : Partition α) : Prop :=
  p.block_id.length = p.block_with_partition.offsets.length ∧
  List.Chain (fun a b => a ≤ b) 0 p.block_with_partition.offsets ∧
  p.block_with_partition.offsets.getLastD 0 = blockRows p.block_with_partition.block ∧
  (∀ col ∈ p.block_with_partition.block, col.length = blockRows p.block_with_partition.block) ∧
  blockRows p.block_with_partition.block < sizeModulus

/-- Which iterations of the second loop of `filterBlockDuplicate` take the removing branch:
`n` iterations from index `idx` on, with iterator `it`. -/
def removedFlags : Nat → Nat → List Nat → List Bool
  | 0, _, _ => []
  | n + 1, idx, it =>
    if it.head? = some idx then true :: removedFlags n (idx + 1) it.tail
    else false :: removedFlags n (idx + 1) it

/-- The elements of a list whose flag is `false`. -/
def keepBy {β : Type} : List Bool → List β → List β
  | f :: fs, x :: xs => if f then keepBy fs xs else x :: keepBy fs xs
  | _, _ => []

/-- The filter column that the flags describe: sub-block by sub-block, `true` for the rows of
a sub-block that stays. -/
def maskOf : List Bool → Nat → List Nat → List Bool
  | f :: fs, start, off :: offs => List.replicate (off - start) (!f) ++ maskOf fs off offs
  | _, _, _ => []

/-- The offsets of the sub-blocks that stay, `kept` rows having been kept before row `start`. -/
def keptOffsets : List Bool → Nat → Nat → List Nat → List Nat
  | f :: fs, start, kept, off :: offs =>
    if f then keptOffsets fs off kept offs
    else (kept + (off - start)) :: keptOffsets fs off (kept + (off - start)) offs
  | _, _, _, _ => []

/-- The indexes at which `id` occurs, for a list whose first element has index `i`. -/
def indexesFrom (id : String) : List String → Nat → List Nat
  | [], _ => []
  | x :: rest, i =>
    if x = id then i :: indexesFrom id rest (i + 1) else indexesFrom id rest (i + 1)

/-- Scanning from left to right with the ids `seen` so far: the flag of an element says that its
id has been seen before. -/
def seenFlags : List String → List String → List Bool
  | _, [] => []
  | seen, x :: xs => decide (x ∈ seen) :: seenFlags (seen ++ [x]) xs

/-- The list without the elements whose id (given by `key`) occurs earlier in the list or in
`seen`: of the elements with the same id, the first one stays. -/
def firstOccurrences {β : Type} (key : β → String) : List String → List β → List β
  | _, [] => []
  | seen, x :: xs =>
    if key x ∈ seen then firstOccurrences key (seen ++ [key x]) xs
    else x :: firstOccurrences key (seen ++ [key x]) xs

/-- The indexes that `filterBlockDuplicate` collects in `offset_idx` for conflict paths whose
file names are ids of the partition. -/
def conflictIdx (ids : List String) (block_paths : List String) (self_dedup : Bool) : List Nat :=
  block_paths.flatMap (fun raw_path =>
    (indexesFrom (filename raw_path) ids 0).drop (if self_dedup then 1 else 0))

/-- For every index of `ids`, whether it is among the collected indexes. -/
def removalFlags (ids : List String) (block_paths : List String) (self_dedup : Bool) :
    List Bool :=
  (List.range' 0 ids.length).map (fun i => decide (i ∈ conflictIdx ids block_paths self_dedup))

/-- The rows that the specification expects from `testSelfDeduplicate`: the rows of the
sub-blocks that are the first occurrence of their hash, concatenated in the original order. -/
def firstOccurrenceRows (data : List Int) (offsets : List Nat) (hashes : List String) :
    List Int :=
  (firstOccurrences Prod.fst [] (subBlocksFrom [data] 0 hashes offsets)).flatMap
    (fun sb => sb.2.getD 0 [])

/-- The sizes of the sub-blocks that the offsets describe, the first one starting at row
`start`: the differences of consecutive offsets. -/
def subBlockSizes : Nat → List Nat → List Nat
  | _, [] => []
  | start, off :: offs => (off - start) :: subBlockSizes off offs

/-! ## `ReplicatedMergeTreeSinkImpl<true>::finishDelayedChunk` -/

/-- The struct `DelayedChunk`. -/
structure DelayedChunk (α : Type) where
  replicas_num : Nat
  partitions : List (Partition α)

/-- What `commitPart` reads and writes besides its arguments: the member `cache_version` of the
sink, and `world` for the storage, the coordinator and the recent-ids cache, which are defined
in other components (`StorageReplicatedMergeTree`, `ZooKeeperWithFaultInjection`,
`AsyncBlockIDsCache`). -/
structure SinkState (σ : Type) where
  cache_version : Nat
  world : σ

/-- The call `commitPart(zookeeper, part, block_id, replicas_num, false)` as `finishDelayedChunk` sees
it: it is given the partition (its temporary part and its block ids) and the number of
replicas, and returns the conflicting block-id paths, or raises. Its outcome depends on the
coordinator, so it is a parameter here. -/
abbrev CommitPart (σ α : Type) :=
  SinkState σ → Partition α → Nat → Except ErrorCode (List String × SinkState σ)

/-- A partition when the loop of `finishDelayedChunk` leaves it: its state, the local
`retry_times`, the number of calls of `commitPart`, and whether the loop was left because
`commitPart` returned no conflict (the part is committed then). -/
structure FinishedPartition (α : Type) where
  partition : Partition α
  retry_times : Nat
  commit_calls : Nat
  committed : Bool

/-- The `while (true)` loop of the asynchronous `finishDelayedChunk`, with `fuel` iterations
at most: `none` when they do not suffice. -/
def conflictLoop {σ α : Type} (commitPart : CommitPart σ α) (replicas_num : Nat) :
    Nat → SinkState σ → Partition α → Nat → Nat →
      Option (Except ErrorCode (SinkState σ × FinishedPartition α))
  | 0, _, _, _, _ => none
  | fuel + 1, s, partition, retry_times, calls =>
    match commitPart s partition replicas_num with
    | .error e => some (.error e)
    | .ok (conflict_block_ids, s') =>
      if conflict_block_ids.isEmpty then
        some (.ok (s', { partition := partition, retry_times := retry_times,
                         commit_calls := calls + 1, committed := true }))
      else
        match partition.filterBlockDuplicate conflict_block_ids false with
        | .error e => some (.error e)
        | .ok partition' =>
          if partition'.block_id.isEmpty then
            some (.ok (s', { partition := partition', retry_times := retry_times + 1,
                             commit_calls := calls + 1, committed := false }))
          else
            conflictLoop commitPart replicas_num fuel s' partition' (retry_times + 1)
              (calls + 1)

/-- The body of `for (auto & partition : delayed_chunk->partitions)`. -/
def finishPartition {σ α : Type} (visit : BlockIdMap → BlockIdMap)
    (commitPart : CommitPart σ α) (fuel : Nat) (replicas_num : Nat) (s : SinkState σ)
    (partition : Partition α) : Option (Except ErrorCode (SinkState σ × FinishedPartition α)) :=
  match partition.filterSelfDuplicate visit with
  | .error e => some (.error e)
  | .ok (_, partition') =>
    conflictLoop commitPart replicas_num fuel { s with cache_version := 0 } partition' 0 0

/-- The `for` loop over the partitions of the delayed chunk. -/
def finishPartitions {σ α : Type} (visit : BlockIdMap → BlockIdMap)
    (commitPart : CommitPart σ α) (fuel : Nat) (replicas_num : Nat) :
    SinkState σ → List (Partition α) →
      Option (Except ErrorCode (SinkState σ × List (FinishedPartition α)))
  | s, [] => some (.ok (s, []))
  | s, partition :: rest =>
    match finishPartition visit commitPart fuel replicas_num s partition with
    | none => none
    | some (.error e) => some (.error e)
    | some (.ok (s1, done)) =>
      match finishPartitions visit commitPart fuel replicas_num s1 rest with
      | none => none
      | some (.error e) => some (.error e)
      | some (.ok (s2, dones)) => some (.ok (s2, done :: dones))

/-- The members of the asynchronous sink that `finishDelayedChunk` uses:
`std::unique_ptr<DelayedChunk> delayed_chunk` and the state that `commitPart` works on. -/
structure AsyncSink (σ α : Type) where
  delayed_chunk : Option (DelayedChunk α)
  state : SinkState σ

/-- Method `ReplicatedMergeTreeSinkImpl<true>::finishDelayedChunk`: the sink afterwards, and the
partitions as the loop left them (`delayed_chunk.reset()` destroys them). -/
def finishDelayedChunk {σ α : Type} (visit : BlockIdMap → BlockIdMap)
    (commitPart : CommitPart σ α) (fuel : Nat) (sink : AsyncSink σ α) :
    Option (Except ErrorCode (AsyncSink σ α × List (FinishedPartition α))) :=
  match sink.delayed_chunk with
  | none => some (.ok (sink, []))
  | some chunk =>
    match finishPartitions visit commitPart fuel chunk.replicas_num sink.state
        chunk.partitions with
    | none => none
    | some (.error e) => some (.error e)
    | some (.ok (s', dones)) => some (.ok ({ delayed_chunk := none, state := s' }, dones))

/-- The operations of `ICachePolicy` that `getOrSet` and `reset` call. The policies are defined
in their own headers (`ICachePolicy.h`, `LRUCachePolicy.h`, `SLRUCachePolicy.h`) and `CacheBase`
works with any of them, so the policy is a parameter: `P` is its state, a `MappedPtr` is `none`
for a null pointer, and `get` may change the state (an LRU policy reorders its queue). -/
structure CachePolicy (P K M : Type) where
  get : P → K → Option M × P
  set : P → K → Option M → P
  reset : P → P

/-- The struct `CacheBase::InsertToken` (its mutex is free whenever a single caller runs). -/
structure InsertToken (M : Type) where
  cleaned_up : Bool
  value : Option M
  refcount : Nat

/-- The members of `CacheBase`. `insert_tokens` maps a key to the address of its token, the
shared pointers into `tokens`; `next_token` is the address that `std::make_shared` returns
next. The counters `hits` and `misses` count events and are natural numbers here. -/
structure CacheBase (P K M : Type) where
  cache_policy : P
  hits : Nat
  misses : Nat
  insert_tokens : List (K × Nat)
  tokens : Nat → InsertToken M
  next_token : Nat

/-- The call `insert_tokens.find(key)`: the address of the token of `key`. -/
def tokenFind {K : Type} [DecidableEq K] : List (K × Nat) → K → Option Nat
  | [], _ => none
  | (k', a) :: m, k => if k' = k then some a else tokenFind m k

/-- The call `insert_tokens.erase(key)`. -/
def tokenErase {K : Type} [DecidableEq K] (m : List (K × Nat)) (k : K) : List (K × Nat) :=
  m.filter (fun e => decide (e.1 ≠ k))

/-- Assignment to the token at address `a`. -/
def CacheBase.withToken {P K M : Type} (c : CacheBase P K M) (a : Nat)
    (f : InsertToken M → InsertToken M) : CacheBase P K M :=
  { c with tokens := fun b => if b = a then f (c.tokens b) else c.tokens b }

/-- Method `InsertTokenHolder::cleanup`: erases the key from `insert_tokens` and marks the token. -/
def CacheBase.cleanup {P K M : Type} [DecidableEq K] (c : CacheBase P K M) (key : K)
    (a : Nat) : CacheBase P K M :=
  { c with insert_tokens := tokenErase c.insert_tokens key }.withToken a
    (fun t => { t with cleaned_up := true })

/-- The destructor `~InsertTokenHolder` of a holder that acquired the token at `a`;
`holder_cleaned_up` is the member `cleaned_up` of the holder. -/
def CacheBase.releaseHolder {P K M : Type} [DecidableEq K] (c : CacheBase P K M) (key : K)
    (a : Nat) (holder_cleaned_up : Bool) : CacheBase P K M :=
  if holder_cleaned_up then c
  else if (c.tokens a).cleaned_up then c
  else
    let c1 := c.withToken a (fun t => { t with refcount := sizeSub t.refcount 1 })
    if (c1.tokens a).refcount = 0 then c1.cleanup key a else c1

/-- The end of the first critical section of `getOrSet` on a miss:
`auto & token = insert_tokens[key]; if (!token) token = std::make_shared<InsertToken>(*this);`
and `token_holder.acquire(&key, token, cache_lock)`. Returns the address of the token. -/
def CacheBase.acquireToken {P K M : Type} [DecidableEq K] (c : CacheBase P K M) (key : K) :
    Nat × CacheBase P K M :=
  match tokenFind c.insert_tokens key with
  | some a => (a, c.withToken a (fun t => { t with refcount := t.refcount + 1 }))
  | none =>
    let a := c.next_token
    let c1 : CacheBase P K M :=
      { c with
        insert_tokens := c.insert_tokens ++ [(key, a)]
        tokens := fun b =>
          if b = a then { cleaned_up := false, value := none, refcount := 0 } else c.tokens b
        next_token := a + 1 }
    (a, c1.withToken a (fun t => { t with refcount := t.refcount + 1 }))

/-- What a call of `getOrSet` leaves: the pair it returns or the exception that reaches the
caller, the number of times it invoked `load_func`, and the cache afterwards. -/
structure GetOrSetOutcome (P K M E : Type) where
  result : Except E (Option M × Bool)
  load_calls : Nat
  cache : CacheBase P K M

/-- Method `CacheBase::getOrSet` for a caller that finds the token mutex free. `load_func` runs
without the cache mutex and may call into the cache, so it takes the cache and returns it
together with its value or exception. -/
def CacheBase.getOrSet {P K M E : Type} [DecidableEq K] (policy : CachePolicy P K M)
    (c : CacheBase P K M) (key : K)
    (load_func : CacheBase P K M → Except E (Option M) × CacheBase P K M) :
    GetOrSetOutcome P K M E :=
  match policy.get c.cache_policy key with
  | (some v, pol1) =>
    { result := .ok (some v, false), load_calls := 0
      cache := { c with cache_policy := pol1, hits := c.hits + 1 } }
  | (none, pol1) =>
    let (token, c1) := CacheBase.acquireToken { c with cache_policy := pol1 } key
    let holder_cleaned_up := (c1.tokens token).cleaned_up
    match (c1.tokens token).value with
    | some v =>
      { result := .ok (some v, false), load_calls := 0
        cache := CacheBase.releaseHolder { c1 with hits := c1.hits + 1 } key token
          holder_cleaned_up }
    | none =>
      match load_func { c1 with misses := c1.misses + 1 } with
      | (.error e, c2) =>
        { result := .error e, load_calls := 1
          cache := CacheBase.releaseHolder c2 key token holder_cleaned_up }
      | (.ok value, c2) =>
        let c3 := c2.withToken token (fun t => { t with value := value })
        let result := decide (tokenFind c3.insert_tokens key = some token)
        let c4 := if result then { c3 with cache_policy := policy.set c3.cache_policy key value }
          else c3
        let cleaned := !(c4.tokens token).cleaned_up
        let c5 := if cleaned then c4.cleanup key token else c4
        { result := .ok ((c5.tokens token).value, result), load_calls := 1
          cache := CacheBase.releaseHolder c5 key token (cleaned || holder_cleaned_up) }

/-- Method `CacheBase::reset`. -/
def CacheBase.reset {P K M : Type} (policy : CachePolicy P K M) (c : CacheBase P K M) :
    CacheBase P K M :=
  { c with insert_tokens := [], hits := 0, misses := 0
           cache_policy := policy.reset c.cache_policy }

/-- A cache policy without eviction, for examples: the entries in a list, newest first. -/
def listPolicy : CachePolicy (List (Nat × Option Nat)) Nat Nat where
  get := fun p k => (match p.find? (fun e => e.1 == k) with
    | some e => e.2
    | none => none, p)
  set := fun p k v => (k, v) :: p.filter (fun e => e.1 != k)
  reset := fun _ => []

/-- An empty cache over `listPolicy`. -/
def emptyCache : CacheBase (List (Nat × Option Nat)) Nat Nat :=
  { cache_policy := [], hits := 0, misses := 0, insert_tokens := []
    tokens := fun _ => { cleaned_up := false, value := none, refcount := 0 }, next_token := 0 }

/-! ## Coordinator errors -/

/-- The enumeration `Coordination::Error`, restricted to the codes the sink names (`ZOK`,
`ZNONODE`, `ZNODEEXISTS`); `other code` stands for every further code of the enumeration. -/
inductive Coordination.Error where
  | ZOK
  | ZNONODE
  | ZNODEEXISTS
  | other (code : Int)
  deriving DecidableEq, Repr

/-- The classification functions `Coordination::isHardwareError` and
`Coordination::isUserError`, which the sink calls and whose tables are declared with the
enumeration; they are taken as parameters. -/
structure ErrorClasses where
  isHardwareError : Coordination.Error → Bool
  isUserError : Coordination.Error → Bool

/-- A classification used in the examples: connection loss (`other (-4)`), operation timeout
(`other (-7)`) and session expiry (`other (-112)`) are hardware errors; `ZNONODE`,
`ZNODEEXISTS` and bad version (`other (-103)`) are user errors. -/
def keeperErrorClasses : ErrorClasses where
  isHardwareError := fun e =>
    decide (e = .other (-4)) || decide (e = .other (-7)) || decide (e = .other (-112))
  isUserError := fun e =>
    decide (e = .ZNONODE) || decide (e = .ZNODEEXISTS) || decide (e = .other (-103))

/-- What leaves a function that does not return: a `DB::Exception` carrying one of the error
codes the sink names, a `zkutil::KeeperException` (`Coordination::Exception`) carrying a
coordinator error, a `DB::Exception` with some other error code raised by a callee, or the
dereference of an empty `std::optional` (no exception: undefined behaviour). -/
inductive Failure where
  | exception (code : ErrorCode)
  | keeperException (code : Coordination.Error)
  | otherException (code : Int)
  | emptyOptionalDereference
  deriving DecidableEq, Repr

/-! ## Quorum precondition -/

/-- The members `zookeeper_path`, `replica_path` and `replica_name` of
`StorageReplicatedMergeTree` that the sink reads. -/
structure StorageNames where
  zookeeper_path : String
  replica_path : String
  replica_name : String
  deriving DecidableEq, Repr

/-- The member `quorum_info` of the sink (`QuorumInfo`). -/
structure QuorumInfo where
  status_path : String
  is_active_node_version : Int
  host_node_version : Int
  deriving DecidableEq, Repr

/-- One response of the batched `zookeeper->get`: its `error` and `stat.version`. -/
structure KeeperGetResult where
  error : Coordination.Error
  version : Int
  deriving DecidableEq, Repr

/-- The answers of the coordinator to the requests of `checkQuorumPrecondition`:
`getChildren(<zookeeper_path>/replicas)` (the throwing variant), the error of the response of
the batched `exists` for a path, the two responses of the batched `get` for
`<replica_path>/is_active` and `<replica_path>/host`, and `tryGet(quorum_info.status_path)`
(`none` when the node is absent; it throws on every error but `ZNONODE`). -/
structure QuorumCheckAnswers where
  replicas : Except Coordination.Error (List String)
  exists_error : String → Coordination.Error
  is_active : KeeperGetResult
  host : KeeperGetResult
  quorum_status : Except Coordination.Error (Option String)

/-- The paths `exists_paths` of `checkQuorumPrecondition`:
`<zookeeper_path>/replicas/<replica>/is_active` for every `replica != storage.replica_name`. -/
def existsPaths (storage : StorageNames) (replicas : List String) : List String :=
  (replicas.filter (fun replica => replica != storage.replica_name)).map
    (fun replica => storage.zookeeper_path ++ "/replicas/" ++ replica ++ "/is_active")

/-- The counting loop of `checkQuorumPrecondition` over `exists_result`; the state is
`(keeper_error, active_replicas)`. -/
def countActiveStep (cls : ErrorClasses) (acc : Coordination.Error × Nat)
    (error : Coordination.Error) : Coordination.Error × Nat :=
  if error = .ZOK then (acc.1, acc.2 + 1)
  else if cls.isHardwareError error then (error, acc.2)
  else acc

/-- The loop starts from `keeper_error = ZOK` and `active_replicas = 1`
("Assume current replica is active (will check below)"). -/
def countActiveReplicas (cls : ErrorClasses) (exists_result : List Coordination.Error) :
    Coordination.Error × Nat :=
  exists_result.foldl (countActiveStep cls) (.ZOK, 1)

/-- Method `ReplicatedMergeTreeSinkImpl::checkQuorumPrecondition`; it returns
`replicas_number` (0 when quorum is not enabled) together with the updated `quorum_info`. -/
def checkQuorumPrecondition (cls : ErrorClasses) (s : QuorumConfig) (storage : StorageNames)
    (zookeeper : QuorumCheckAnswers) (quorum_info : QuorumInfo) :
    Except Failure (Nat × QuorumInfo) :=
  if !s.isQuorumEnabled then .ok (0, quorum_info)
  else
    let status_path := storage.zookeeper_path ++ "/quorum/status"
    match zookeeper.replicas with
    | .error e => .error (.keeperException e)
    | .ok replicas =>
      let exists_paths := existsPaths storage replicas
      let exists_result := exists_paths.map zookeeper.exists_error
      let counted := countActiveReplicas cls exists_result
      let keeper_error := counted.1
      let active_replicas := counted.2
      let replicas_number := replicas.length
      let quorum_size := s.getQuorumSize replicas_number
      if active_replicas < quorum_size then
        if cls.isHardwareError keeper_error then .error (.keeperException keeper_error)
        else .error (.exception .TOO_FEW_LIVE_REPLICAS)
      else
        match (if s.quorum_parallel then Except.ok none else zookeeper.quorum_status) with
        | .error e => .error (.keeperException e)
        | .ok (some _) => .error (.exception .UNSATISFIED_QUORUM_FOR_PREVIOUS_WRITE)
        | .ok none =>
          if zookeeper.is_active.error = .ZNONODE || zookeeper.host.error = .ZNONODE then
            .error (.exception .READONLY)
          else
            .ok (replicas_number,
              { status_path := status_path
                is_active_node_version := zookeeper.is_active.version
                host_node_version := zookeeper.host.version })

/-- The number `alive` of replicas other than this one whose `is_active` existence check
succeeded. -/
def aliveOthers (storage : StorageNames) (zookeeper : QuorumCheckAnswers)
    (replicas : List String) : Nat :=
  ((existsPaths storage replicas).filter
    (fun path => decide (zookeeper.exists_error path = .ZOK))).length

/-! ## Waiting for the quorum -/

/-- One round of the `while (true)` loop of `waitForQuorum`: the answer of
`tryGet(quorum_path, value, nullptr, event)` (it throws on every error but `ZNONODE`; `none`
when the node is absent, otherwise the `part_name` of the `ReplicatedMergeTreeQuorumEntry`
read from the value), and whether `event->tryWait(quorum_timeout_ms)` returned true, that is
whether the watch fired within `quorum_timeout_ms`. -/
structure QuorumPoll where
  node : Except Coordination.Error (Option String)
  fired : Bool

/-- The `while (true)` loop of `waitForQuorum`. Each round consumes one `QuorumPoll`; the
result is `none` when the rounds given are used up before the loop ends. -/
def waitForQuorumLoop (part_name : String) : List QuorumPoll → Option (Except Failure Unit)
  | [] => none
  | poll :: rest =>
    match poll.node with
    | .error e => some (.error (.keeperException e))
    | .ok none => some (.ok ())
    | .ok (some entry_part_name) =>
      if entry_part_name != part_name then some (.ok ())
      else if !poll.fired then some (.error (.exception .TIMEOUT_EXCEEDED))
      else waitForQuorumLoop part_name rest

/-- The body of the `try` block of `waitForQuorum`: the loop, then the check of
`<replica_path>/is_active` (`is_active` is the answer of `tryGet` with the version of the
node, `none` when the node is absent). -/
def waitForQuorumTry (part_name : String) (is_active_node_version : Int)
    (polls : List QuorumPoll) (is_active : Except Coordination.Error (Option Int)) :
    Option (Except Failure Unit) :=
  match waitForQuorumLoop part_name polls with
  | none => none
  | some (.error f) => some (.error f)
  | some (.ok ()) =>
    match is_active with
    | .error e => some (.error (.keeperException e))
    | .ok none => some (.error (.exception .NO_ACTIVE_REPLICAS))
    | .ok (some version) =>
      if version != is_active_node_version then some (.error (.exception .NO_ACTIVE_REPLICAS))
      else some (.ok ())

/-- Method `ReplicatedMergeTreeSinkImpl::waitForQuorum`: the `try` block, and
`catch (...) { throw Exception(ErrorCodes::UNKNOWN_STATUS_OF_INSERT, ...); }`. -/
def waitForQuorum (part_name : String) (is_active_node_version : Int)
    (polls : List QuorumPoll) (is_active : Except Coordination.Error (Option Int)) :
    Option (Except Failure Unit) :=
  match waitForQuorumTry part_name is_active_node_version polls is_active with
  | none => none
  | some (.error _) => some (.error (.exception .UNKNOWN_STATUS_OF_INSERT))
  | some (.ok ()) => some (.ok ())

/-! ## Parts, coordinator requests and effects of `commitPart` -/

/-- The fields of `MergeTreePartInfo` that `commitPart` writes. -/
structure MergeTreePartInfo where
  partition_id : String
  min_block : Int
  max_block : Int
  level : Nat
  mutation : Int
  deriving DecidableEq, Repr

/-- The members of the data part (`MergeTreeData::MutableDataPartPtr`) that `commitPart`
reads and writes; `checksum` stands for `checksums.getTotalChecksumHex()`. -/
structure DataPart where
  name : String
  info : MergeTreePartInfo
  is_duplicate : Bool
  is_temp : Bool
  checksum : String
  deriving DecidableEq, Repr

/-- The type `BlockIDsType`: a `String` for the synchronous sink (`single`), a
`std::vector<String>` for the asynchronous sink (`many`). The constructor tells which
instance of the template `ReplicatedMergeTreeSinkImpl<async_insert>` runs. -/
inductive BlockIDsType where
  | single (block_id : String)
  | many (block_ids : List String)
  deriving DecidableEq, Repr

/-- The template parameter `async_insert`. -/
def BlockIDsType.async_insert : BlockIDsType → Bool
  | .single _ => false
  | .many _ => true

/-- Method `empty()` of the string or of the vector. -/
def BlockIDsType.empty : BlockIDsType → Bool
  | .single block_id => block_id == ""
  | .many block_ids => block_ids.isEmpty

/-- The lambda `contains` of `commitPart`. -/
def contains (block_ids : BlockIDsType) (path : String) : Bool :=
  match block_ids with
  | .many ids => ids.any (fun local_block_id => local_block_id == path)
  | .single id => id == path

/-- The type of the log entry: `GET_PART` or `ATTACH_PART`. -/
inductive LogEntryType where
  | GET_PART
  | ATTACH_PART
  deriving DecidableEq, Repr

/-- The fields of `StorageReplicatedMergeTree::LogEntry` that `commitPart` fills from its
inputs (`create_time` and `new_part_format` are left out). -/
structure LogEntry where
  type : LogEntryType
  part_checksum : Option String
  source_replica : String
  new_part_name : String
  quorum : Nat
  block_id : String
  deriving DecidableEq, Repr

/-- The fields of `ReplicatedMergeTreeQuorumEntry` that `commitPart` fills. -/
structure QuorumEntry where
  part_name : String
  required_number_of_replicas : Nat
  replicas : List String
  deriving DecidableEq, Repr

/-- The requests of the multi-op transaction (`Coordination::Requests`): the creation of the
log entry (`PersistentSequential`), the removal of the block-number lock node, the creation
of the quorum tracker node, a version check, and the creations added by
`getCommitPartOps`. -/
inductive Request where
  | createLog (path : String) (entry : LogEntry)
  | remove (path : String)
  | createQuorum (path : String) (entry : QuorumEntry)
  | check (path : String) (version : Int)
  | create (path : String) (data : String)
  deriving DecidableEq, Repr

/-- Method `getPath()` of a request. -/
def Request.getPath : Request → String
  | .createLog path _ => path
  | .remove path => path
  | .createQuorum path _ => path
  | .check path _ => path
  | .create path _ => path

/-- The block-number lock `EphemeralLockInZooKeeper` returned by `allocateBlockNumber`:
`getNumber()`, `getPath()` and `getConflictPath()`. -/
structure BlockNumberLock where
  number : Int
  path : String
  conflict_path : String
  deriving DecidableEq, Repr

/-- The calls by which `commitPart` acts on the storage, the file system and the coordinator,
in the order in which they are made. -/
inductive CommitEvent where
  | existsPart (path : String)
  | detectConflicts
  | allocateBlockNumber (block_id_path : BlockIDsType)
  | getExistingPartName (path : String)
  | waitForQuorum (part_name : String) (quorum_path : String)
  | renameTempPartAndAdd (part_name : String)
  | lockSharedData
  | unlockSharedData
  | tryMultiNoThrow (ops : List Request)
  | transactionCommit
  | transactionRollback
  | renamePartToTemporary
  | scheduleMergeSelecting
  | assumeUnlocked
  | enqueuePartForCheck (part_name : String)
  | updateQuorum (part_name : String) (is_parallel : Bool)
  | cleanupEphemeralNodes
  deriving DecidableEq, Repr

/-- The functions of the part and of the storage whose result depends only on their
arguments: `part->getNewName(info)`, `MergeTreePartInfo::fromPartName(name, format_version)`
and the requests that `storage.getCommitPartOps(ops, part, block_id_path)` appends. -/
structure PartFunctions where
  getNewName : MergeTreePartInfo → String
  fromPartName : String → MergeTreePartInfo
  getCommitPartOps : DataPart → BlockIDsType → List Request

/-! ## Retry controller -/

/-- Modelled from the spec: the record `ZooKeeperRetriesInfo` shared by the retry controllers
of one `consume` call (section 4.3: "a maximum attempt count", "exponential backoff between
`initial_backoff_ms` and `max_backoff_ms`"); the sink builds it from `insert_keeper_max_retries`,
`insert_keeper_retry_initial_backoff_ms` and `insert_keeper_retry_max_backoff_ms`. -/
structure ZooKeeperRetriesInfo where
  max_retries : Nat
  retry_count : Nat
  curr_backoff_ms : Nat
  max_backoff_ms : Nat
  deriving DecidableEq, Repr

/-- Modelled from the spec: the state of the retry helper `ZooKeeperRetriesControl`
(section 4.3), which `commitPart` drives through `retryLoop`, `isRetry`, `setUserError`,
`stopRetries`, `requestUnconditionalRetry`, `actionAfterLastFailedRetry` and
`callAndCatchAll`. `error` is the error recorded for the current iteration, and
`action_after_last_failed_retry` the calls of the registered "action after last failure"
hook. -/
structure ZooKeeperRetriesControl where
  retries_info : ZooKeeperRetriesInfo
  started : Bool
  iteration_succeeded : Bool
  unconditional_retry : Bool
  stop_retries : Bool
  error : Option Failure
  action_after_last_failed_retry : List CommitEvent
  deriving DecidableEq, Repr

/-- Modelled from the spec: a new controller over the shared `ZooKeeperRetriesInfo`
(`ZooKeeperRetriesControl retries_ctl("commitPart", zookeeper_retries_info)`). -/
def ZooKeeperRetriesControl.create (retries_info : ZooKeeperRetriesInfo) :
    ZooKeeperRetriesControl :=
  { retries_info := retries_info
    started := false
    iteration_succeeded := true
    unconditional_retry := false
    stop_retries := false
    error := none
    action_after_last_failed_retry := [] }

/-- Modelled from the spec: `isRetry()` of the retry helper, true once a retry was counted. -/
def ZooKeeperRetriesControl.isRetry (ctl : ZooKeeperRetriesControl) : Bool :=
  decide (ctl.retries_info.retry_count > 0)

/-- Modelled from the spec: `setUserError` and `setKeeperError` of the retry helper record
the error of the current iteration and mark the iteration as failed; the first error of an
iteration is kept. -/
def ZooKeeperRetriesControl.setError (ctl : ZooKeeperRetriesControl) (f : Failure) :
    ZooKeeperRetriesControl :=
  if !ctl.iteration_succeeded then ctl
  else { ctl with iteration_succeeded := false, error := some f }

/-- Modelled from the spec: `stopRetries()` of the retry helper. -/
def ZooKeeperRetriesControl.stopRetries (ctl : ZooKeeperRetriesControl) :
    ZooKeeperRetriesControl :=
  { ctl with stop_retries := true }

/-- Modelled from the spec: `requestUnconditionalRetry()` of the retry helper ("we want one
more iteration w/o counting it as a try and timeout"). -/
def ZooKeeperRetriesControl.requestUnconditionalRetry (ctl : ZooKeeperRetriesControl) :
    ZooKeeperRetriesControl :=
  { ctl with unconditional_retry := true }

/-- Modelled from the spec: `actionAfterLastFailedRetry(f)` of the retry helper registers the
hook that runs after the final failed attempt. -/
def ZooKeeperRetriesControl.actionAfterLastFailedRetry (ctl : ZooKeeperRetriesControl)
    (action : List CommitEvent) : ZooKeeperRetriesControl :=
  { ctl with action_after_last_failed_retry := action }

/-- Modelled from the spec: the verdict of the retry helper `ZooKeeperRetriesControl` before
an iteration (section 4.3): run the closure, leave the loop, or leave the loop raising the
recorded error. -/
inductive TryDecision where
  | proceed
  | finish
  | raise (f : Failure)
  deriving DecidableEq, Repr

/-- Modelled from the spec: the decision the retry helper `ZooKeeperRetriesControl` takes
before each iteration of `retryLoop` (section 4.3). The first iteration always runs; a
requested unconditional retry runs without being counted; an iteration that recorded no
error ends the loop; after a failed iteration the loop retries while retries are left and
were not stopped, counting the retry and doubling the backoff up to `max_backoff_ms`;
otherwise the "action after last failure" hook runs and the recorded error is raised. The
result carries the new controller and the calls made by the hook. -/
def ZooKeeperRetriesControl.canTry (ctl : ZooKeeperRetriesControl) :
    TryDecision × ZooKeeperRetriesControl × List CommitEvent :=
  if !ctl.started then (.proceed, { ctl with started := true }, [])
  else if ctl.unconditional_retry then (.proceed, { ctl with unconditional_retry := false }, [])
  else if ctl.iteration_succeeded then (.finish, ctl, [])
  else if ctl.stop_retries || decide (ctl.retries_info.retry_count ≥ ctl.retries_info.max_retries) then
    match ctl.error with
    | some f => (.raise f, ctl, ctl.action_after_last_failed_retry)
    | none => (.finish, ctl, ctl.action_after_last_failed_retry)
  else
    (.proceed,
      { ctl with
        retries_info :=
          { ctl.retries_info with
            retry_count := ctl.retries_info.retry_count + 1
            curr_backoff_ms := min (ctl.retries_info.curr_backoff_ms * 2) ctl.retries_info.max_backoff_ms }
        iteration_succeeded := true },
      [])

/-! ## One iteration of the retry loop of `commitPart` -/

/-- The answers of the storage and of the coordinator to the calls made in one iteration of
the closure that `commitPart` passes to `retryLoop`: `storage.is_readonly`,
`storage.shutdown_called`, `zookeeper->exists(<replica_path>/parts/<part name>)`,
`async_block_ids_cache.detectConflicts(block_id, cache_version)` with the value it leaves in
`cache_version`, `storage.allocateBlockNumber(...)`, `zookeeper->get(<zookeeper_path>/blocks/<block_id>)`,
whether `storage.getActiveContainingPart(existing_part_name)` finds a part, the outcome of
the call of `waitForQuorum` for the existing part, the result of
`storage.renameTempPartAndAdd(...)`, the outcome of `storage.lockSharedData(...)`, the code
returned by `zookeeper->tryMultiNoThrow(ops, responses)`, the value of
`zkutil::getFailedOpIndex(multi_code, responses)`, and the outcome of
`storage.unlockSharedData(...)`. -/
structure CommitAnswers where
  is_readonly : Bool
  shutdown_called : Bool
  part_exists : Except Failure Bool
  detected_conflicts : List String
  detected_cache_version : Nat
  block_number_lock : Except Failure (Option BlockNumberLock)
  existing_part_name : Except Failure String
  active_containing_part : Bool
  wait_for_quorum : Except Failure Unit
  renamed : Except Failure Bool
  lock_shared_data : Except Failure Unit
  multi_code : Coordination.Error
  failed_op_index : Except Failure Nat
  unlock_shared_data : Except Failure Unit

/-- The variables that the closure of `commitPart` captures by reference (`part`,
`loop_counter`, `is_already_existing_part`, `part_committed_locally_but_zookeeper`,
`write_part_info_keeper_error`, `conflict_block_ids`, `retries_ctl`), the members
`quorum_info` and `cache_version` of the sink, and the calls made so far. -/
structure CommitState where
  part : DataPart
  loop_counter : Nat
  is_already_existing_part : Bool
  part_committed_locally_but_zookeeper : Bool
  write_part_info_keeper_error : Coordination.Error
  conflict_block_ids : List String
  retries_ctl : ZooKeeperRetriesControl
  quorum_info : QuorumInfo
  cache_version : Nat
  events : List CommitEvent
  deriving DecidableEq, Repr

/-- Records a call. -/
def CommitState.log (st : CommitState) (e : CommitEvent) : CommitState :=
  { st with events := st.events ++ [e] }

/-- The call `retries_ctl.setUserError(code, ...)`. -/
def CommitState.setUserError (st : CommitState) (code : ErrorCode) : CommitState :=
  { st with retries_ctl := st.retries_ctl.setError (.exception code) }

/-- How an iteration of the closure ends: it returns (`thrown = none`) or throws. -/
structure IterationResult where
  thrown : Option Failure
  state : CommitState
  deriving DecidableEq, Repr

/-- The local variables of the closure that are live when the transaction is submitted. -/
structure SubmitContext where
  ops : List Request
  block_unlock_op_idx : Nat
  block_number_lock : Option BlockNumberLock
  block_id_path : BlockIDsType
  deduplicate_block : Bool
  deriving DecidableEq, Repr

/-- The constant `max_iterations` of `commitPart`. -/
def max_iterations : Nat := 10

/-- The lambda `rename_part_to_temporary` of `commitPart`:
`transaction.rollbackPartsToTemporaryState(); part->is_temp = true;
part->renameTo(temporary_part_relative_path, false);`. -/
def rename_part_to_temporary (st : CommitState) : CommitState :=
  { st with part := { st.part with is_temp := true }
            events := st.events ++ [.renamePartToTemporary] }

/-- The head of the closure: the read-only guard and, on a retry, the check whether the part
committed locally on a previous iteration reached the coordinator. `some` is the end of the
iteration, `none` means the closure goes on. -/
def commitGuard (storage : StorageNames) (writing_existing_part : Bool)
    (answers : CommitAnswers) (st : CommitState) : Option IterationResult :=
  if answers.is_readonly && answers.shutdown_called then
    some ⟨some (.exception .TABLE_IS_READ_ONLY), st⟩
  else if answers.is_readonly && !writing_existing_part then
    some ⟨none, st.setUserError .TABLE_IS_READ_ONLY⟩
  else if st.retries_ctl.isRetry && st.part_committed_locally_but_zookeeper then
    let st1 := st.log (.existsPart (storage.replica_path ++ "/parts/" ++ st.part.name))
    match answers.part_exists with
    | .error f => some ⟨some f, st1⟩
    | .ok true => some ⟨none, { st1 with retries_ctl := st1.retries_ctl.stopRetries }⟩
    | .ok false =>
      some ⟨none,
        { st1 with
          retries_ctl :=
            (st1.retries_ctl.setError (.exception .UNEXPECTED_ZOOKEEPER_ERROR)).stopRetries }⟩
  else none

/-- The prefilter by the cache (asynchronous sink) and the computation of `block_id_path`. -/
def commitPrefilter (storage : StorageNames) (block_id : BlockIDsType)
    (answers : CommitAnswers) (st : CommitState) :
    Sum IterationResult (BlockIDsType × CommitState) :=
  match block_id with
  | .many ids =>
    let st1 : CommitState :=
      { st with conflict_block_ids := answers.detected_conflicts
                cache_version := answers.detected_cache_version
                events := st.events ++ [.detectConflicts] }
    if !answers.detected_conflicts.isEmpty then .inl ⟨none, { st1 with cache_version := 0 }⟩
    else
      .inr (.many (ids.map (fun single_block_id =>
        storage.zookeeper_path ++ "/async_blocks/" ++ single_block_id)), st1)
  | .single id =>
    if !block_id.empty then .inr (.single (storage.zookeeper_path ++ "/blocks/" ++ id), st)
    else .inr (.single "", st)

/-- The branch `if (block_number_lock)`: the part gets its block number and name, and the
requests for the log entry, for the removal of the lock (`getUnlockOp` appends the removal
of the lock node at index `block_unlock_op_idx`) and, with quorum enabled, for the quorum
tracker and the two version checks are put together. -/
def commitWithLock (s : QuorumConfig) (storage : StorageNames) (fns : PartFunctions)
    (is_attach : Bool) (block_id : BlockIDsType) (replicas_num : Nat)
    (block_id_path : BlockIDsType) (lock : BlockNumberLock) (st : CommitState) :
    Sum IterationResult (SubmitContext × CommitState) :=
  if block_id.async_insert && lock.conflict_path != "" then
    .inl ⟨none, { st with conflict_block_ids := st.conflict_block_ids ++ [lock.conflict_path] }⟩
  else
    let info : MergeTreePartInfo :=
      { st.part.info with min_block := lock.number, max_block := lock.number
                          level := 0, mutation := 0 }
    let part : DataPart := { st.part with info := info, name := fns.getNewName info }
    let log_entry : LogEntry :=
      { type := if is_attach then .ATTACH_PART else .GET_PART
        part_checksum := if is_attach then some part.checksum else none
        source_replica := storage.replica_name
        new_part_name := part.name
        quorum := s.getQuorumSize replicas_num
        block_id := match block_id with
          | .single id => id
          | .many _ => "" }
    let ops0 : List Request := [.createLog (storage.zookeeper_path ++ "/log/log-") log_entry]
    let block_unlock_op_idx := ops0.length
    let ops1 := ops0 ++ [.remove lock.path]
    let status_path :=
      if s.isQuorumEnabled && s.quorum_parallel then
        storage.zookeeper_path ++ "/quorum/parallel/" ++ part.name
      else st.quorum_info.status_path
    let ops2 :=
      if s.isQuorumEnabled then
        ops1 ++
          [.createQuorum status_path
              { part_name := part.name
                required_number_of_replicas := s.getQuorumSize replicas_num
                replicas := [storage.replica_name] },
            .check (storage.replica_path ++ "/is_active") st.quorum_info.is_active_node_version,
            .check (storage.replica_path ++ "/host") st.quorum_info.host_node_version]
      else ops1
    .inr
      ({ ops := ops2
         block_unlock_op_idx := block_unlock_op_idx
         block_number_lock := some lock
         block_id_path := block_id_path
         deduplicate_block := !block_id.empty },
       { st with is_already_existing_part := false
                 part := part
                 quorum_info := { st.quorum_info with status_path := status_path } })

/-- The branch `else if constexpr (!async_insert)`: the block was already written; its part
name is read, and either the part is here (duplicate, wait for its quorum) or it is written
locally under the existing name. `block_unlock_op_idx` keeps
`std::numeric_limits<size_t>::max()`. -/
def commitWithoutLock (s : QuorumConfig) (storage : StorageNames) (fns : PartFunctions)
    (block_id : BlockIDsType) (answers : CommitAnswers) (st : CommitState) :
    Sum IterationResult (SubmitContext × CommitState) :=
  match block_id with
  | .many _ => .inl ⟨some (.exception .LOGICAL_ERROR), st⟩
  | .single id =>
    let st1 : CommitState :=
      { st with is_already_existing_part := true
                events := st.events ++
                  [.getExistingPartName (storage.zookeeper_path ++ "/blocks/" ++ id)] }
    match answers.existing_part_name with
    | .error f => .inl ⟨some f, st1⟩
    | .ok existing_part_name =>
      if answers.active_containing_part then
        let st2 : CommitState := { st1 with part := { st1.part with is_duplicate := true } }
        if s.isQuorumEnabled then
          let quorum_path :=
            if s.quorum_parallel then
              storage.zookeeper_path ++ "/quorum/parallel/" ++ existing_part_name
            else storage.zookeeper_path ++ "/quorum/status"
          let st3 := st2.log (.waitForQuorum existing_part_name quorum_path)
          match answers.wait_for_quorum with
          | .ok () => .inl ⟨none, st3⟩
          | .error f => .inl ⟨none, { st3 with retries_ctl := st3.retries_ctl.setError f }⟩
        else .inl ⟨none, st2⟩
      else
        .inr
          ({ ops := []
             block_unlock_op_idx := sizeModulus - 1
             block_number_lock := none
             block_id_path := .single ""
             deduplicate_block := !block_id.empty },
           { st1 with
             part := { st1.part with name := existing_part_name
                                     info := fns.fromPartName existing_part_name } })

/-- The allocation of the block number and the branches on its result. -/
def commitAllocate (s : QuorumConfig) (storage : StorageNames) (fns : PartFunctions)
    (is_attach : Bool) (block_id : BlockIDsType) (replicas_num : Nat)
    (block_id_path : BlockIDsType) (answers : CommitAnswers) (st : CommitState) :
    Sum IterationResult (SubmitContext × CommitState) :=
  let st1 := st.log (.allocateBlockNumber block_id_path)
  match answers.block_number_lock with
  | .error f => .inl ⟨some f, st1⟩
  | .ok (some lock) =>
    commitWithLock s storage fns is_attach block_id replicas_num block_id_path lock st1
  | .ok none => commitWithoutLock s storage fns block_id answers st1

/-- The part of the closure from `getCommitPartOps` to `lockSharedData`: the requests of the
part are appended, the temporary part is renamed into the working set, and the shared data
is locked. -/
def commitRename (fns : PartFunctions) (answers : CommitAnswers) (ctx : SubmitContext)
    (st : CommitState) : Sum IterationResult (SubmitContext × CommitState) :=
  let ctx1 := { ctx with ops := ctx.ops ++ fns.getCommitPartOps st.part ctx.block_id_path }
  let st1 := st.log (.renameTempPartAndAdd st.part.name)
  let renamed : Except Failure Bool :=
    match answers.renamed with
    | .ok b => .ok b
    | .error (.exception .DUPLICATE_DATA_PART) => .ok false
    | .error (.exception .PART_IS_TEMPORARILY_LOCKED) => .ok false
    | .error f => .error f
  match renamed with
  | .error f => .inl ⟨some f, st1⟩
  | .ok false =>
    if st1.is_already_existing_part then .inl ⟨none, st1⟩
    else .inl ⟨some (.exception .LOGICAL_ERROR), st1⟩
  | .ok true =>
    let st2 := st1.log .lockSharedData
    match answers.lock_shared_data with
    | .error f => .inl ⟨some f, rename_part_to_temporary st2⟩
    | .ok () => .inr (ctx1, st2)

/-- The closure up to the point where the transaction is about to be submitted: `.inl` when
the iteration ended before, `.inr` with the local variables and the state otherwise. -/
def commitPrepare (s : QuorumConfig) (storage : StorageNames) (fns : PartFunctions)
    (is_attach : Bool) (block_id : BlockIDsType) (replicas_num : Nat)
    (writing_existing_part : Bool) (answers : CommitAnswers) (st : CommitState) :
    Sum IterationResult (SubmitContext × CommitState) :=
  match commitGuard storage writing_existing_part answers st with
  | some r => .inl r
  | none =>
    match commitPrefilter storage block_id answers st with
    | .inl r => .inl r
    | .inr (block_id_path, st1) =>
      match commitAllocate s storage fns is_attach block_id replicas_num block_id_path
          answers st1 with
      | .inl r => .inl r
      | .inr (ctx, st2) => commitRename fns answers ctx st2

/-- The expression `ops[failed_op_index]->getPath()`, the path of the failed request. -/
def failedOpPath (ops : List Request) (failed_op_index : Nat) : String :=
  ((ops.get? failed_op_index).map Request.getPath).getD ""

/-- The branches of the closure for a transaction that failed with a user error
(`Coordination::isUserError(multi_code)`). -/
def commitUserError (ctx : SubmitContext) (answers : CommitAnswers) (st : CommitState) :
    IterationResult :=
  match answers.failed_op_index with
  | .error f => ⟨some f, st⟩
  | .ok failed_op_index =>
    let failed_op_path := failedOpPath ctx.ops failed_op_index
    if decide (answers.multi_code = .ZNODEEXISTS) && ctx.deduplicate_block
        && contains ctx.block_id_path failed_op_path then
      let st1 := rename_part_to_temporary st
      if ctx.block_id_path.async_insert then
        ⟨none, { st1 with conflict_block_ids := [failed_op_path] }⟩
      else
        let st2 : CommitState := { st1 with loop_counter := st1.loop_counter + 1 }
        if st2.loop_counter = max_iterations then
          ⟨some (.exception .DUPLICATE_DATA_PART),
            { st2 with part := { st2.part with is_duplicate := true } }⟩
        else
          ⟨none, { st2 with retries_ctl := st2.retries_ctl.requestUnconditionalRetry }⟩
    else if decide (answers.multi_code = .ZNODEEXISTS)
        && failed_op_path == st.quorum_info.status_path then
      let st1 := st.log .unlockSharedData
      match answers.unlock_shared_data with
      | .error (.keeperException _) =>
        ⟨some (.exception .UNSATISFIED_QUORUM_FOR_PREVIOUS_WRITE), rename_part_to_temporary st1⟩
      | .error f => ⟨some f, st1⟩
      | .ok () =>
        ⟨some (.exception .UNSATISFIED_QUORUM_FOR_PREVIOUS_WRITE), rename_part_to_temporary st1⟩
    else
      let st1 := st.log .unlockSharedData
      match answers.unlock_shared_data with
      | .error f => ⟨some f, st1⟩
      | .ok () => ⟨some (.exception .UNEXPECTED_ZOOKEEPER_ERROR), st1.log .transactionRollback⟩

/-- The branches of the closure that follow the test for `QUERY_WAS_CANCELLED`: hardware
error, user error, any other code. -/
def commitFailure (cls : ErrorClasses) (ctx : SubmitContext) (answers : CommitAnswers)
    (st : CommitState) : IterationResult :=
  if cls.isHardwareError answers.multi_code then
    let st1 : CommitState :=
      { st with write_part_info_keeper_error := answers.multi_code
                part_committed_locally_but_zookeeper := true
                events := st.events ++ [.transactionCommit]
                retries_ctl := st.retries_ctl.actionAfterLastFailedRetry
                  [.enqueuePartForCheck st.part.name] }
    ⟨none, st1.setUserError .UNKNOWN_STATUS_OF_INSERT⟩
  else if cls.isUserError answers.multi_code then commitUserError ctx answers st
  else
    let st1 := st.log .unlockSharedData
    match answers.unlock_shared_data with
    | .error f => ⟨some f, st1⟩
    | .ok () => ⟨some (.exception .UNEXPECTED_ZOOKEEPER_ERROR), st1.log .transactionRollback⟩

/-- The submission of the transaction (`tryMultiNoThrow`) and the branches on its result. In
the branch for `QUERY_WAS_CANCELLED` the message reads `block_number_lock->getPath()`, which
dereferences the optional lock. -/
def commitSubmit (cls : ErrorClasses) (ctx : SubmitContext) (answers : CommitAnswers)
    (st : CommitState) : IterationResult :=
  let st1 := st.log (.tryMultiNoThrow ctx.ops)
  if answers.multi_code = .ZOK then
    let st2 := (st1.log .transactionCommit).log .scheduleMergeSelecting
    ⟨none, if ctx.block_number_lock.isSome then st2.log .assumeUnlocked else st2⟩
  else if answers.multi_code = .ZNONODE then
    match answers.failed_op_index with
    | .error f => ⟨some f, st1⟩
    | .ok failed_op_index =>
      if failed_op_index = ctx.block_unlock_op_idx then
        match ctx.block_number_lock with
        | some _ => ⟨some (.exception .QUERY_WAS_CANCELLED), st1⟩
        | none => ⟨some .emptyOptionalDereference, st1⟩
      else commitFailure cls ctx answers st1
  else commitFailure cls ctx answers st1

/-- The closure that `commitPart` passes to `retries_ctl.retryLoop`. -/
def commitPartIteration (cls : ErrorClasses) (s : QuorumConfig) (storage : StorageNames)
    (fns : PartFunctions) (is_attach : Bool) (block_id : BlockIDsType) (replicas_num : Nat)
    (writing_existing_part : Bool) (answers : CommitAnswers) (st : CommitState) :
    IterationResult :=
  match commitPrepare s storage fns is_attach block_id replicas_num writing_existing_part
      answers st with
  | .inl r => r
  | .inr (ctx, st1) => commitSubmit cls ctx answers st1

/-! ## The retry loops and `commitPart` -/

/-- Modelled from the spec: the loop `retryLoop(f, iteration_cleanup)` of the retry helper
`ZooKeeperRetriesControl` (section 4.3), run on the closure of `commitPart`. An iteration
that returns is followed by the decision of `canTry`; a coordinator exception with a hardware
code is recorded and retried ("Hardware errors retry"); every other exception leaves the loop
at once ("User and logical errors terminate immediately"). Each iteration consumes one
`CommitAnswers`; the result is `none` when the answers given are used up before the loop
ends. -/
def commitRetryLoop (cls : ErrorClasses) (s : QuorumConfig) (storage : StorageNames)
    (fns : PartFunctions) (is_attach : Bool) (block_id : BlockIDsType) (replicas_num : Nat)
    (writing_existing_part : Bool) :
    List CommitAnswers → CommitState → Option IterationResult
  | answers_list, st =>
    match st.retries_ctl.canTry with
    | (.finish, ctl, hook) => some ⟨none, { st with retries_ctl := ctl, events := st.events ++ hook }⟩
    | (.raise f, ctl, hook) =>
      some ⟨some f, { st with retries_ctl := ctl, events := st.events ++ hook }⟩
    | (.proceed, ctl, _) =>
      match answers_list with
      | [] => none
      | answers :: rest =>
        let r := commitPartIteration cls s storage fns is_attach block_id replicas_num
          writing_existing_part answers { st with retries_ctl := ctl }
        let st1 := r.state.log .cleanupEphemeralNodes
        match r.thrown with
        | none =>
          commitRetryLoop cls s storage fns is_attach block_id replicas_num
            writing_existing_part rest st1
        | some (.keeperException e) =>
          if cls.isHardwareError e then
            commitRetryLoop cls s storage fns is_attach block_id replicas_num
              writing_existing_part rest
              { st1 with retries_ctl := st1.retries_ctl.setError (.keeperException e) }
          else some ⟨some (.keeperException e), st1⟩
        | some f => some ⟨some f, st1⟩

/-- The answers of the storage and of the coordinator in one iteration of the second closure
of `commitPart` (the wait for the quorum): `storage.is_readonly`, `storage.shutdown_called`,
`zookeeper->exists(<zookeeper_path>/quorum/parallel/<part name>)`,
`zookeeper->exists(<zookeeper_path>/quorum/status)` and the outcome of the call of
`waitForQuorum`. -/
structure QuorumWaitAnswers where
  is_readonly : Bool
  shutdown_called : Bool
  exists_parallel : Except Failure Bool
  exists_status : Except Failure Bool
  wait_for_quorum : Except Failure Unit

/-- The closure that `commitPart` passes to `quorum_retries_ctl.retryLoop`. -/
def quorumWaitIteration (answers : QuorumWaitAnswers) (st : CommitState) :
    IterationResult :=
  if answers.is_readonly && answers.shutdown_called then
    ⟨some (.exception .TABLE_IS_READ_ONLY), st⟩
  else if answers.is_readonly then ⟨none, st.setUserError .TABLE_IS_READ_ONLY⟩
  else
    let updated : Except Failure CommitState :=
      if st.is_already_existing_part then
        match answers.exists_parallel with
        | .error f => .error f
        | .ok true => .ok (st.log (.updateQuorum st.part.name true))
        | .ok false =>
          match answers.exists_status with
          | .error f => .error f
          | .ok true => .ok (st.log (.updateQuorum st.part.name false))
          | .ok false => .ok st
      else .ok st
    match updated with
    | .error f => ⟨some f, st⟩
    | .ok st1 =>
      let st2 := st1.log (.waitForQuorum st1.part.name st1.quorum_info.status_path)
      match answers.wait_for_quorum with
      | .ok () => ⟨none, st2⟩
      | .error f => ⟨none, { st2 with retries_ctl := st2.retries_ctl.setError f }⟩

/-- Modelled from the spec: the loop `retryLoop(f)` of the retry helper
`ZooKeeperRetriesControl` (section 4.3), run on the second closure of `commitPart`; see
`commitRetryLoop`. -/
def quorumRetryLoop (cls : ErrorClasses) :
    List QuorumWaitAnswers → CommitState → Option IterationResult
  | answers_list, st =>
    match st.retries_ctl.canTry with
    | (.finish, ctl, hook) => some ⟨none, { st with retries_ctl := ctl, events := st.events ++ hook }⟩
    | (.raise f, ctl, hook) =>
      some ⟨some f, { st with retries_ctl := ctl, events := st.events ++ hook }⟩
    | (.proceed, ctl, _) =>
      match answers_list with
      | [] => none
      | answers :: rest =>
        let r := quorumWaitIteration answers { st with retries_ctl := ctl }
        match r.thrown with
        | none => quorumRetryLoop cls rest r.state
        | some (.keeperException e) =>
          if cls.isHardwareError e then
            quorumRetryLoop cls rest
              { r.state with retries_ctl := r.state.retries_ctl.setError (.keeperException e) }
          else some ⟨some (.keeperException e), r.state⟩
        | some f => some ⟨some f, r.state⟩

/-- The members of the sink that `commitPart` reads and writes: `quorum_info`,
`cache_version` and the shared `zookeeper_retries_info`. -/
structure SinkMembers where
  quorum_info : QuorumInfo
  cache_version : Nat
  zookeeper_retries_info : ZooKeeperRetriesInfo
  deriving DecidableEq, Repr

/-- The state at the start of `commitPart`: `loop_counter = 0`,
`is_already_existing_part = false`, `part_committed_locally_but_zookeeper = false`,
`write_part_info_keeper_error = ZOK`, no conflict, a new retry controller. -/
def commitPartStart (sink : SinkMembers) (part : DataPart) : CommitState :=
  { part := part
    loop_counter := 0
    is_already_existing_part := false
    part_committed_locally_but_zookeeper := false
    write_part_info_keeper_error := .ZOK
    conflict_block_ids := []
    retries_ctl := ZooKeeperRetriesControl.create sink.zookeeper_retries_info
    quorum_info := sink.quorum_info
    cache_version := sink.cache_version
    events := [] }

/-- What `commitPart` does after the first retry loop has ended in state `st`: it returns the
conflicts if there are any, otherwise waits for the quorum when quorum is enabled (with a new
controller over the shared `zookeeper_retries_info`) and returns the empty list. -/
def commitPartFinish (cls : ErrorClasses) (s : QuorumConfig)
    (quorum_answers : List QuorumWaitAnswers) (st : CommitState) :
    Option (Except Failure (List String) × CommitState) :=
  if !st.conflict_block_ids.isEmpty then some (.ok st.conflict_block_ids, st)
  else if s.isQuorumEnabled then
    match quorumRetryLoop cls quorum_answers
        { st with retries_ctl := ZooKeeperRetriesControl.create st.retries_ctl.retries_info } with
    | none => none
    | some ⟨some f, st1⟩ => some (.error f, st1)
    | some ⟨none, st1⟩ => some (.ok [], st1)
  else some (.ok [], st)

/-- Method `ReplicatedMergeTreeSinkImpl::commitPart`, started in state `st` (see
`commitPartStart`). The result is the returned conflict list or the failure, with the final
state; it is `none` when the answers given are used up before a loop ends. -/
def commitPartFrom (cls : ErrorClasses) (s : QuorumConfig) (storage : StorageNames)
    (fns : PartFunctions) (is_attach : Bool) (block_id : BlockIDsType) (replicas_num : Nat)
    (writing_existing_part : Bool) (commit_answers : List CommitAnswers)
    (quorum_answers : List QuorumWaitAnswers) (st : CommitState) :
    Option (Except Failure (List String) × CommitState) :=
  match commitRetryLoop cls s storage fns is_attach block_id replicas_num
      writing_existing_part commit_answers st with
  | none => none
  | some ⟨some f, st1⟩ => some (.error f, st1)
  | some ⟨none, st1⟩ => commitPartFinish cls s quorum_answers st1

/-- Method `ReplicatedMergeTreeSinkImpl::commitPart`. -/
def commitPart (cls : ErrorClasses) (s : QuorumConfig) (storage : StorageNames)
    (fns : PartFunctions) (is_attach : Bool) (sink : SinkMembers) (part : DataPart)
    (block_id : BlockIDsType) (replicas_num : Nat) (writing_existing_part : Bool)
    (commit_answers : List CommitAnswers) (quorum_answers : List QuorumWaitAnswers) :
    Option (Except Failure (List String) × CommitState) :=
  commitPartFrom cls s storage fns is_attach block_id replicas_num writing_existing_part
    commit_answers quorum_answers (commitPartStart sink part)

/-- Whether one of the callees of the closure raised `f` in this iteration: the existence
check of the part, `allocateBlockNumber`, the read of the existing part name,
`renameTempPartAndAdd`, `lockSharedData`, `getFailedOpIndex` or `unlockSharedData`. -/
def CommitAnswers.calleeRaises (answers : CommitAnswers) (f : Failure) : Prop :=
  answers.part_exists = .error f ∨ answers.block_number_lock = .error f ∨
  answers.existing_part_name = .error f ∨ answers.renamed = .error f ∨
  answers.lock_shared_data = .error f ∨ answers.failed_op_index = .error f ∨
  answers.unlock_shared_data = .error f

/-- The failure with which a call of `commitPart` ended, if it failed. -/
def thrownBy (r : Option (Except Failure (List String) × CommitState)) : Option Failure :=
  match r with
  | some (.error f, _) => some f
  | _ => none

/-- The conflict list that a call of `commitPart` returned, if it returned. -/
def returnedBy (r : Option (Except Failure (List String) × CommitState)) :
    Option (List String) :=
  match r with
  | some (.ok conflicts, _) => some conflicts
  | _ => none

/-- The state in which a call of `commitPart` ended. -/
def finalState (r : Option (Except Failure (List String) × CommitState)) : Option CommitState :=
  r.map Prod.snd

/-- The iterations that `commitRetryLoop` runs, in order: for each one the answers it consumed
and the state in which the closure started. The branches are those of `commitRetryLoop`. -/
def commitRetryLoopRuns (cls : ErrorClasses) (s : QuorumConfig) (storage : StorageNames)
    (fns : PartFunctions) (is_attach : Bool) (block_id : BlockIDsType) (replicas_num : Nat)
    (writing_existing_part : Bool) :
    List CommitAnswers → CommitState → List (CommitAnswers × CommitState)
  | answers_list, st =>
    match st.retries_ctl.canTry with
    | (.finish, _, _) => []
    | (.raise _, _, _) => []
    | (.proceed, ctl, _) =>
      match answers_list with
      | [] => []
      | answers :: rest =>
        let r := commitPartIteration cls s storage fns is_attach block_id replicas_num
          writing_existing_part answers { st with retries_ctl := ctl }
        let st1 := r.state.log .cleanupEphemeralNodes
        (answers, { st with retries_ctl := ctl }) ::
          match r.thrown with
          | none =>
            commitRetryLoopRuns cls s storage fns is_attach block_id replicas_num
              writing_existing_part rest st1
          | some (.keeperException e) =>
            if cls.isHardwareError e then
              commitRetryLoopRuns cls s storage fns is_attach block_id replicas_num
                writing_existing_part rest
                { st1 with retries_ctl := st1.retries_ctl.setError (.keeperException e) }
            else []
          | some _ => []

/-- What it means that the iteration of the closure of `commitPart` that runs with the answers
`answers` from the state `st` detects the conflicts `conflicts`: the sink is the asynchronous
one, the guard at the head of the closure lets the iteration pass, and either the cache
prefilter `detectConflicts` returns the non-empty list `conflicts`; or the prefilter returns
no conflict and `allocateBlockNumber` returns a lock whose `conflict_path` is not empty,
`conflicts` being that one path; or the iteration reaches the submission of the transaction,
the transaction fails with `ZNODEEXISTS`, the path of the failed op is one of the submitted
async block-id paths, and `conflicts` is that one path. -/
def conflictDetected (s : QuorumConfig) (storage : StorageNames) (fns : PartFunctions)
    (is_attach : Bool) (block_id : BlockIDsType) (replicas_num : Nat)
    (writing_existing_part : Bool) (answers : CommitAnswers) (st : CommitState)
    (conflicts : List String) : Prop :=
  ∃ ids : List String, block_id = .many ids ∧
    commitGuard storage writing_existing_part answers st = none ∧
    ((answers.detected_conflicts ≠ [] ∧ conflicts = answers.detected_conflicts) ∨
      (answers.detected_conflicts = [] ∧
        ∃ lock : BlockNumberLock, answers.block_number_lock = .ok (some lock) ∧
          lock.conflict_path ≠ "" ∧ conflicts = [lock.conflict_path]) ∨
      (∃ (ctx : SubmitContext) (st1 : CommitState) (failed_op_index : Nat),
        commitPrepare s storage fns is_attach block_id replicas_num writing_existing_part
          answers st = .inr (ctx, st1) ∧
        answers.multi_code = .ZNODEEXISTS ∧
        answers.failed_op_index = .ok failed_op_index ∧
        failedOpPath ctx.ops failed_op_index ∈
          ids.map (fun single_block_id =>
            storage.zookeeper_path ++ "/async_blocks/" ++ single_block_id) ∧
        conflicts = [failedOpPath ctx.ops failed_op_index]))

/-! ## Example inputs -/

/-- Example functions of the part: the new name is made of the partition id and the block
number, a part name is read back as a part of partition `all`, and `getCommitPartOps`
appends the creation of every block-id node of `block_id_path` and of the node of the part. -/
def examplePartFunctions : PartFunctions where
  getNewName := fun info => info.partition_id ++ "_" ++ toString info.min_block
  fromPartName := fun _ => ⟨"all", 0, 0, 0, 0⟩
  getCommitPartOps := fun part block_id_path =>
    (match block_id_path with
      | .single path => if path == "" then [] else [Request.create path part.name]
      | .many paths => paths.map (fun path => Request.create path part.name))
    ++ [Request.create ("/t/replicas/r1/parts/" ++ part.name) ""]

/-- Example storage names. -/
def exampleStorage : StorageNames := ⟨"/t", "/t/replicas/r1", "r1"⟩

/-- Example temporary part of partition `all`. -/
def examplePart : DataPart := ⟨"tmp_insert_all_1_1_0", ⟨"all", 1, 1, 0, 0⟩, false, false, "c"⟩

/-- Example members of the sink: at most `max_retries` retries, none counted so far. -/
def exampleSink (max_retries : Nat) : SinkMembers :=
  ⟨⟨"/t/quorum/status", 5, 7⟩, 0, ⟨max_retries, 0, 100, 10000⟩⟩

/-- Example answers of an iteration: the table is writable, a block-number lock with number
`7` is obtained, the part is renamed and the shared data locked; the transaction returns
`multi_code` with failed op `failed_op_index`; on a retry the part is found under the
replica iff `part_exists`. -/
def exampleAnswers (multi_code : Coordination.Error) (failed_op_index : Nat)
    (part_exists : Bool) : CommitAnswers where
  is_readonly := false
  shutdown_called := false
  part_exists := .ok part_exists
  detected_conflicts := []
  detected_cache_version := 1
  block_number_lock := .ok (some ⟨7, "/t/block_numbers/all/block-0000000007", ""⟩)
  existing_part_name := .ok "all_3_3_0"
  active_containing_part := false
  wait_for_quorum := .ok ()
  renamed := .ok true
  lock_shared_data := .ok ()
  multi_code := multi_code
  failed_op_index := .ok failed_op_index
  unlock_shared_data := .ok ()

/-- Example answers of an iteration of the wait for the quorum, with the outcome of
`waitForQuorum`. -/
def exampleQuorumAnswers (wait_for_quorum : Except Failure Unit) : QuorumWaitAnswers where
  is_readonly := false
  shutdown_called := false
  exists_parallel := .ok false
  exists_status := .ok false
  wait_for_quorum := wait_for_quorum

/-! ## `ReplicatedMergeTreeSinkImpl<false>::finishDelayedChunk` -/

/-- The struct `DelayedChunk::Partition` as `consume` queues it and the synchronous
`finishDelayedChunk` commits it: the part of `temp_part` (never null in a queued partition),
the number `temp_part.streams.size()` of its write streams, the block id, and the block
`block_with_partition` (of a type `β` that is left open); logger, timer and counters are
left out. -/
structure QueuedPartition (β : Type) where
  part : DataPart
  streams : Nat
  block_id : BlockIDsType
  block : β

/-- The struct `DelayedChunk` with such partitions. -/
structure QueuedChunk (β : Type) where
  replicas_num : Nat
  partitions : List (QueuedPartition β)

/-- The members of the synchronous sink that `finishDelayedChunk` reads and writes:
`delayed_chunk`, `last_block_is_duplicate`, and the members that `commitPart` works on. -/
structure SyncSink (β : Type) where
  delayed_chunk : Option (QueuedChunk β)
  last_block_is_duplicate : Bool
  members : SinkMembers

/-- The members of the sink after a call of `commitPart` that ended in state `st`. -/
def membersAfter (st : CommitState) : SinkMembers :=
  { quorum_info := st.quorum_info
    cache_version := st.cache_version
    zookeeper_retries_info := st.retries_ctl.retries_info }

/-- The loop `for (auto & partition : delayed_chunk->partitions)` of the synchronous
`finishDelayedChunk`: `commitPart` for the part of each partition, then
`last_block_is_duplicate = last_block_is_duplicate || part->is_duplicate`; an exception of
`commitPart` is rethrown. The answers of storage and coordinator are given per partition;
the state is the members of the sink, the flag, and the parts as `commitPart` left them
(the writes to the part log and to the vector indices are left out). The result is `none`
when the answers for a call of `commitPart` are used up before it ends. -/
def commitQueued {β : Type} (cls : ErrorClasses) (s : QuorumConfig) (storage : StorageNames)
    (fns : PartFunctions) (is_attach : Bool) (replicas_num : Nat) :
    List (QueuedPartition β) → List (List CommitAnswers × List QuorumWaitAnswers) →
      SinkMembers × Bool × List DataPart →
      Option (Option Failure × SinkMembers × Bool × List DataPart)
  | [], _, acc => some (none, acc)
  | partition :: rest, answers, (members, last_block_is_duplicate, parts) =>
    match commitPart cls s storage fns is_attach members partition.part partition.block_id
        replicas_num false (answers.headD ([], [])).1 (answers.headD ([], [])).2 with
    | none => none
    | some (.error f, st) =>
      some (some f, membersAfter st, last_block_is_duplicate, parts ++ [st.part])
    | some (.ok _, st) =>
      commitQueued cls s storage fns is_attach replicas_num rest answers.tail
        (membersAfter st, last_block_is_duplicate || st.part.is_duplicate, parts ++ [st.part])

/-- Method `ReplicatedMergeTreeSinkImpl<false>::finishDelayedChunk`: the failure if an
exception left it, the sink afterwards, and the parts as `commitPart` left them, in the order
of the partitions. -/
def finishDelayedChunkSync {β : Type} (cls : ErrorClasses) (s : QuorumConfig)
    (storage : StorageNames) (fns : PartFunctions) (is_attach : Bool)
    (answers : List (List CommitAnswers × List QuorumWaitAnswers)) (sink : SyncSink β) :
    Option (Option Failure × SyncSink β × List DataPart) :=
  match sink.delayed_chunk with
  | none => some (none, sink, [])
  | some chunk =>
    match commitQueued cls s storage fns is_attach chunk.replicas_num chunk.partitions answers
        (sink.members, false, []) with
    | none => none
    | some (some f, members, last_block_is_duplicate, parts) =>
      some (some f,
        { sink with members := members, last_block_is_duplicate := last_block_is_duplicate },
        parts)
    | some (none, members, last_block_is_duplicate, parts) =>
      some (none,
        { delayed_chunk := none
          last_block_is_duplicate := last_block_is_duplicate
          members := members },
        parts)

/-! ## `StorageSnapshot::getColumns` -/

/-- Type `NamesAndTypesList`: the columns as pairs of a name and a type, in order. The data
types themselves are not in the sources at hand and stay a type parameter. -/
abbrev NamesAndTypesList (τ : Type) := List (String × τ)

/-- The fields of `GetColumnsOptions` that `StorageSnapshot::getColumns` reads; `kind`, the set
of column kinds asked for, is read only by `ColumnsDescription::get`. -/
structure GetColumnsOptions where
  kind : Nat
  with_subcolumns : Bool
  with_virtuals : Bool
  with_extended_objects : Bool
  with_system_columns : Bool
  deriving DecidableEq, Repr

/-- What `StorageSnapshot::init` asks of the storage. -/
structure StorageColumns (τ : Type) where
  getVirtuals : NamesAndTypesList τ
  hasLightweightDeletedMask : Bool

/-- The members of `StorageSnapshot` that `init` and `getColumns` use. The two maps are kept as
lists of entries with different keys; `columns_get` is
`getMetadataForQuery()->getColumns().get(options)` and `extendObjectColumns` is the function of
that name with the snapshot's `object_columns` passed, both from files that are not at hand. -/
structure StorageSnapshot (τ : Type) where
  columns_get : GetColumnsOptions → NamesAndTypesList τ
  extendObjectColumns : NamesAndTypesList τ → Bool → NamesAndTypesList τ
  virtual_columns : List (String × τ)
  system_columns : List (String × τ)

/-- The assignment `map[name] = type`: the entry of that key is overwritten, or a new entry is
made. -/
def setColumn {τ : Type} (map : List (String × τ)) (name : String) (type : τ) :
    List (String × τ) :=
  if map.any (fun entry => entry.1 == name) then
    map.map (fun entry => if entry.1 == name then (name, type) else entry)
  else map ++ [(name, type)]

/-- Method `StorageSnapshot::init`. `FILTER_COLUMN` is
`LightweightDeleteDescription::FILTER_COLUMN`, a constant that is not in the sources at hand. -/
def StorageSnapshot.init {τ : Type} (storage : StorageColumns τ) (FILTER_COLUMN : String × τ)
    (snapshot : StorageSnapshot τ) : StorageSnapshot τ :=
  { snapshot with
    virtual_columns :=
      storage.getVirtuals.foldl (fun map column => setColumn map column.1 column.2)
        snapshot.virtual_columns
    system_columns :=
      if storage.hasLightweightDeletedMask then
        setColumn snapshot.system_columns FILTER_COLUMN.1 FILTER_COLUMN.2
      else snapshot.system_columns }

/-- The loop `for ([name, type] : map) if (!column_names.contains(name))
all_columns.emplace_back(name, type)` over the entries in the order they are visited. -/
def appendMissing {τ : Type} (column_names : List String) (entries : List (String × τ))
    (all_columns : NamesAndTypesList τ) : NamesAndTypesList τ :=
  entries.foldl
    (fun columns entry => if column_names.contains entry.1 then columns else columns ++ [entry])
    all_columns

/-- Method `StorageSnapshot::getColumns`. The set `column_names` is used through `contains` and
`empty` only, so a list of the inserted names stands for it; `visit` is the order in which a map
is iterated. -/
def StorageSnapshot.getColumns {τ : Type} (visit : List (String × τ) → List (String × τ))
    (snapshot : StorageSnapshot τ) (options : GetColumnsOptions) : NamesAndTypesList τ :=
  let all_columns := snapshot.columns_get options
  let all_columns :=
    if options.with_extended_objects then
      snapshot.extendObjectColumns all_columns options.with_subcolumns
    else all_columns
  let column_names : List String := []
  let (all_columns, column_names) :=
    if options.with_virtuals && !snapshot.virtual_columns.isEmpty then
      let column_names := all_columns.map Prod.fst
      (appendMissing column_names (visit snapshot.virtual_columns) all_columns, column_names)
    else (all_columns, column_names)
  if options.with_system_columns then
    let column_names :=
      if !snapshot.system_columns.isEmpty && column_names.isEmpty then
        all_columns.map Prod.fst
      else column_names
    appendMissing column_names (visit snapshot.system_columns) all_columns
  else all_columns

/-- A snapshot of a table with the ordinary columns `ordinary`, made by `init` for a storage
whose virtual columns and lightweight-delete mask column both have the name `_row_exists`. -/
def exampleSnapshot (ordinary : NamesAndTypesList String) : StorageSnapshot String :=
  StorageSnapshot.init
    { getVirtuals := [("_part", "String"), ("_row_exists", "UInt8")],
      hasLightweightDeletedMask := true }
    ("_row_exists", "UInt8")
    { columns_get := fun _ => ordinary, extendObjectColumns := fun columns _ => columns,
      virtual_columns := [], system_columns := [] }

/-! ## `ReplicatedMergeTreeSinkImpl<false>::consume` -/

/-- The settings that the loop of `consume` reads; the last but one field is the flag
`changed` of the setting `max_insert_delayed_streams_for_parallel_write`. -/
structure InsertSettings where
  insert_deduplication_token : String
  max_insert_delayed_streams_for_parallel_write : Nat
  max_insert_delayed_streams_for_parallel_write_changed : Bool
  deduplicate_blocks_in_dependent_materialized_views : Bool
  deriving DecidableEq, Repr

/-- The struct `MergeTreeDataWriter::TemporaryPart` as `consume` reads it: the part, null when
no part was made, and the number `streams.size()` of its write streams. -/
structure TemporaryPart where
  part : Option DataPart
  streams : Nat
  deriving DecidableEq, Repr

/-- Modelled from the spec: `IMergeTreeDataPart::getZeroLevelPartBlockID`, whose code is not in
the sources at hand. The spec gives the block identifier of a synchronous insert as the
content-addressed string `partition_id + "_" + H128(rows)`, in which a deduplication token,
if present, replaces the content hash; `H128` of the rows of the part is a parameter. -/
def getZeroLevelPartBlockID (H128 : DataPart → String) (part : DataPart) (token : String) :
    String :=
  part.info.partition_id ++ "_" ++ (if token != "" then token else H128 part)

/-- The member `chunk_dedup_seqnum` and the local variables of `consume` that its loop reads
and writes, with the members of the sink that `finishDelayedChunk` works on. -/
structure ConsumeState (β : Type) where
  sink : SyncSink β
  chunk_dedup_seqnum : Nat
  partitions : List (QueuedPartition β)
  streams : Nat
  support_parallel_write : Bool

/-- The branches of `consume` that give the block id of a written part in the synchronous sink
(`async_insert = false`): with `deduplicate`, the token `fmt::format("{}_{}", dedup_token,
chunk_dedup_seqnum)` is made and the number incremented when the setting
`insert_deduplication_token` is not empty, and the id is
`getZeroLevelPartBlockID(block_dedup_token)`; without `deduplicate` the id stays the empty
string. The result is the id and the new `chunk_dedup_seqnum`. -/
def consumeBlockId (deduplicate : Bool) (settings : InsertSettings)
    (getZeroLevelPartBlockID : DataPart → String → String) (part : DataPart)
    (chunk_dedup_seqnum : Nat) : String × Nat :=
  if deduplicate then
    let dedup_token := settings.insert_deduplication_token
    if dedup_token != "" then
      (getZeroLevelPartBlockID part (dedup_token ++ "_" ++ toString chunk_dedup_seqnum),
        sizeAdd chunk_dedup_seqnum 1)
    else (getZeroLevelPartBlockID part "", chunk_dedup_seqnum)
  else ("", chunk_dedup_seqnum)

/-- One iteration of the loop `for (auto & current_block : part_blocks)` of `consume`. The
functions `writeTempPart`, `getZeroLevelPartBlockID` and `finishDelayedChunk` (which gives the
exception, if one left it, and the sink afterwards) and the constant
`DEFAULT_DELAYED_STREAMS_FOR_PARALLEL_WRITE` are parameters. The result is the exception that
ended the iteration, if any, and the state. -/
def consumeStep {β : Type} (deduplicate : Bool) (settings : InsertSettings)
    (DEFAULT_DELAYED_STREAMS_FOR_PARALLEL_WRITE : Nat) (writeTempPart : β → TemporaryPart)
    (getZeroLevelPartBlockID : DataPart → String → String)
    (finishDelayedChunk : SyncSink β → Option Failure × SyncSink β) (replicas_num : Nat)
    (st : ConsumeState β) (current_block : β) : Option Failure × ConsumeState β :=
  let temp_part := writeTempPart current_block
  match temp_part.part with
  | none => (none, st)
  | some part =>
    let (block_id, chunk_dedup_seqnum) :=
      consumeBlockId deduplicate settings getZeroLevelPartBlockID part st.chunk_dedup_seqnum
    let max_insert_delayed_streams_for_parallel_write :=
      if !st.support_parallel_write ||
          settings.max_insert_delayed_streams_for_parallel_write_changed then
        settings.max_insert_delayed_streams_for_parallel_write
      else DEFAULT_DELAYED_STREAMS_FOR_PARALLEL_WRITE
    let streams := sizeAdd st.streams temp_part.streams
    let partition : QueuedPartition β :=
      { part := part, streams := temp_part.streams, block_id := .single block_id,
        block := current_block }
    if streams > max_insert_delayed_streams_for_parallel_write then
      match finishDelayedChunk st.sink with
      | (some f, sink1) =>
        (some f, { st with sink := sink1, chunk_dedup_seqnum := chunk_dedup_seqnum,
                           streams := streams })
      | (none, sink1) =>
        match finishDelayedChunk
            { sink1 with delayed_chunk := some ⟨replicas_num, st.partitions⟩ } with
        | (some f, sink2) =>
          (some f, { st with sink := sink2, chunk_dedup_seqnum := chunk_dedup_seqnum,
                             streams := streams, partitions := [] })
        | (none, sink2) =>
          (none, { sink := sink2, chunk_dedup_seqnum := chunk_dedup_seqnum,
                   partitions := [partition], streams := 0, support_parallel_write := false })
    else
      (none, { st with chunk_dedup_seqnum := chunk_dedup_seqnum, streams := streams,
                       partitions := st.partitions ++ [partition] })

/-- The loop `for (auto & current_block : part_blocks)` of `consume`, left at once by an
exception. -/
def consumeParts {β : Type} (deduplicate : Bool) (settings : InsertSettings)
    (DEFAULT_DELAYED_STREAMS_FOR_PARALLEL_WRITE : Nat) (writeTempPart : β → TemporaryPart)
    (getZeroLevelPartBlockID : DataPart → String → String)
    (finishDelayedChunk : SyncSink β → Option Failure × SyncSink β) (replicas_num : Nat) :
    List β → ConsumeState β → Option Failure × ConsumeState β
  | [], st => (none, st)
  | current_block :: rest, st =>
    match consumeStep deduplicate settings DEFAULT_DELAYED_STREAMS_FOR_PARALLEL_WRITE
        writeTempPart getZeroLevelPartBlockID finishDelayedChunk replicas_num st
        current_block with
    | (some f, st1) => (some f, st1)
    | (none, st1) =>
      consumeParts deduplicate settings DEFAULT_DELAYED_STREAMS_FOR_PARALLEL_WRITE
        writeTempPart getZeroLevelPartBlockID finishDelayedChunk replicas_num rest st1

/-- The local variables of `consume` before its loop. -/
def consumeStart {β : Type} (sink : SyncSink β) (chunk_dedup_seqnum : Nat) : ConsumeState β :=
  { sink := sink, chunk_dedup_seqnum := chunk_dedup_seqnum, partitions := [], streams := 0,
    support_parallel_write := false }

/-- Method `ReplicatedMergeTreeSinkImpl<false>::consume` from its loop on, for the number
`replicas_num` that `checkQuorumPrecondition` gave and the blocks `part_blocks` that
`splitBlockIntoParts` made: after the loop the delayed chunk is finished, the queued
partitions become the new delayed chunk (made with `DelayedChunk()`, so with
`replicas_num = 0`), and this is finished at once unless
`deduplicate_blocks_in_dependent_materialized_views` is set. The result is the exception, if
one left the method, the sink and `chunk_dedup_seqnum`. -/
def consume {β : Type} (deduplicate : Bool) (settings : InsertSettings)
    (DEFAULT_DELAYED_STREAMS_FOR_PARALLEL_WRITE : Nat) (writeTempPart : β → TemporaryPart)
    (getZeroLevelPartBlockID : DataPart → String → String)
    (finishDelayedChunk : SyncSink β → Option Failure × SyncSink β) (replicas_num : Nat)
    (part_blocks : List β) (sink : SyncSink β) (chunk_dedup_seqnum : Nat) :
    Option Failure × SyncSink β × Nat :=
  match consumeParts deduplicate settings DEFAULT_DELAYED_STREAMS_FOR_PARALLEL_WRITE
      writeTempPart getZeroLevelPartBlockID finishDelayedChunk replicas_num part_blocks
      (consumeStart sink chunk_dedup_seqnum) with
  | (some f, st) => (some f, st.sink, st.chunk_dedup_seqnum)
  | (none, st) =>
    match finishDelayedChunk st.sink with
    | (some f, sink1) => (some f, sink1, st.chunk_dedup_seqnum)
    | (none, sink1) =>
      let sink2 : SyncSink β := { sink1 with delayed_chunk := some ⟨0, st.partitions⟩ }
      if !settings.deduplicate_blocks_in_dependent_materialized_views then
        ((finishDelayedChunk sink2).1, (finishDelayedChunk sink2).2, st.chunk_dedup_seqnum)
      else (none, sink2, st.chunk_dedup_seqnum)

/-- Example settings: the deduplication token `token` and the cap `cap` on delayed streams. -/
def exampleSettings (token : String) (cap : Nat) : InsertSettings :=
  { insert_deduplication_token := token
    max_insert_delayed_streams_for_parallel_write := cap
    max_insert_delayed_streams_for_parallel_write_changed := true
    deduplicate_blocks_in_dependent_materialized_views := false }

/-- Example writer for blocks that are numbers: block `0` gives no part, every other block `n`
gives a part of partition `all` with `n` write streams. -/
def exampleWriteTempPart (current_block : Nat) : TemporaryPart :=
  if current_block = 0 then ⟨none, 0⟩ else ⟨some examplePart, current_block⟩

/-- Example of `finishDelayedChunk` that commits every queued partition without failure and
resets the delayed chunk. -/
def exampleFinish (sink : SyncSink Nat) : Option Failure × SyncSink Nat :=
  (none, { sink with delayed_chunk := none })

/-- Example sink before the first call of `consume`. -/
def exampleSyncSink : SyncSink Nat :=
  { delayed_chunk := none, last_block_is_duplicate := false, members := exampleSink 0 }

/-- The total number of write streams of queued partitions. -/
def queuedStreams {β : Type} (partitions : List (QueuedPartition β)) : Nat :=
  (partitions.map (fun partition => partition.streams)).sum

/-! # Properties

Everything below is proved about the definitions above. -/
/-! ## Lemmas on the second loop of `filterBlockDuplicate` -/

theorem sizeSub_of_le {a b : Nat} (hb : b ≤ a) (ha : a < sizeModulus) : sizeSub a b = a - b := by
  unfold sizeSub
  have hb' : b % sizeModulus = b := Nat.mod_eq_of_lt (lt_of_le_of_lt hb ha)
  rw [hb']
  have h1 : a + (sizeModulus - b) = (a - b) + sizeModulus := by omega
  rw [h1, Nat.add_mod_right]
  exact Nat.mod_eq_of_lt (by omega)

theorem sizeAdd_of_lt {a b : Nat} (h : a + b < sizeModulus) : sizeAdd a b = a + b := by
  unfold sizeAdd
  exact Nat.mod_eq_of_lt h

theorem getD_append_cons {β : Type} (pre : List β) (x : β) (rest : List β) (d : β) :
    (pre ++ x :: rest).getD pre.length d = x := by
  rw [List.getD_eq_getElem?_getD, List.getElem?_append_right (le_refl _)]
  simp

theorem filterStep_removed (offsets : List Nat) (ids : List String) (st : FilterLoopState)
    (offset : Nat) (h : st.it.head? = some st.idx) :
    filterStep offsets ids st offset =
      { st with
        remove_count := sizeAdd st.remove_count
          (sizeSub offset (if st.idx > 0 then offsets.getD (st.idx - 1) 0 else 0))
        vec := zeroRange (offset - (if st.idx > 0 then offsets.getD (st.idx - 1) 0 else 0))
          (if st.idx > 0 then offsets.getD (st.idx - 1) 0 else 0) st.vec
        it := st.it.tail
        idx := st.idx + 1 } := by
  simp [filterStep, h]

theorem filterStep_kept (offsets : List Nat) (ids : List String) (st : FilterLoopState)
    (offset : Nat) (h : ¬ st.it.head? = some st.idx) :
    filterStep offsets ids st offset =
      { st with
        new_offsets := st.new_offsets ++ [sizeSub offset st.remove_count]
        new_block_ids := st.new_block_ids ++ [ids.getD st.idx ""]
        idx := st.idx + 1 } := by
  simp [filterStep, h]

theorem foldl_filterStep_ids (offsets : List Nat) (ids : List String) :
    ∀ (rem : List Nat) (remIds preIds : List String) (st : FilterLoopState),
      ids = preIds ++ remIds → st.idx = preIds.length → remIds.length = rem.length →
      (rem.foldl (filterStep offsets ids) st).new_block_ids =
        st.new_block_ids ++ keepBy (removedFlags rem.length st.idx st.it) remIds := by
  intro rem
  induction rem with
  | nil =>
    intro remIds preIds st _ _ hlen
    have : remIds = [] := List.length_eq_zero.mp hlen
    subst this
    simp [removedFlags, keepBy]
  | cons off rem ih =>
    intro remIds preIds st hids hidx hlen
    cases remIds with
    | nil => simp at hlen
    | cons id remIds =>
      have hlen' : remIds.length = rem.length := by simpa using hlen
      have hids' : ids = (preIds ++ [id]) ++ remIds := by simp [hids]
      rw [List.foldl_cons]
      by_cases h : st.it.head? = some st.idx
      · rw [filterStep_removed offsets ids st off h]
        rw [ih remIds (preIds ++ [id]) _ hids' (by simp [hidx]) hlen']
        simp [removedFlags, h, keepBy]
      · have hget : ids.getD st.idx "" = id := by
          rw [hids, hidx]; exact getD_append_cons preIds id remIds ""
        rw [filterStep_kept offsets ids st off h, hget]
        rw [ih remIds (preIds ++ [id]) _ hids' (by simp [hidx]) hlen']
        simp [removedFlags, h, keepBy]

theorem zeroRange_replicate : ∀ (k : Nat) (vpre : List Bool) (m : Nat), k ≤ m →
    zeroRange k vpre.length (vpre ++ List.replicate m true) =
      vpre ++ List.replicate k false ++ List.replicate (m - k) true := by
  intro k
  induction k with
  | zero => intro vpre m _; simp [zeroRange]
  | succ k ih =>
    intro vpre m hm
    obtain ⟨m', rfl⟩ : ∃ m', m = m' + 1 := ⟨m - 1, by omega⟩
    have hset : (vpre ++ List.replicate (m' + 1) true).set vpre.length false =
        (vpre ++ [false]) ++ List.replicate m' true := by
      rw [List.set_append_right _ _ (le_refl _)]
      simp [List.replicate_succ]
    have hlen : (vpre ++ [false]).length = vpre.length + 1 := by simp
    rw [zeroRange, hset, ← hlen, ih (vpre ++ [false]) m' (by omega)]
    simp [List.replicate_succ]

theorem chain_le_getLastD : ∀ (l : List Nat) (a : Nat), List.Chain (fun x y => x ≤ y) a l →
    a ≤ l.getLastD a := by
  intro l
  induction l with
  | nil => intro a _; simp
  | cons b l ih =>
    intro a h
    rw [List.chain_cons] at h
    rw [List.getLastD_cons]
    exact le_trans h.1 (ih b h.2)

theorem foldl_filterStep_rows (offsets : List Nat) (ids : List String) (rows : Nat)
    (hrows : rows < sizeModulus) :
    ∀ (rem pre : List Nat) (st : FilterLoopState) (vpre : List Bool) (kept start : Nat),
      offsets = pre ++ rem → st.idx = pre.length →
      (if st.idx > 0 then offsets.getD (st.idx - 1) 0 else 0) = start →
      List.Chain (fun x y => x ≤ y) start rem → rem.getLastD start ≤ rows →
      st.vec = vpre ++ List.replicate (rows - start) true → vpre.length = start →
      st.remove_count + kept = start →
      (rem.foldl (filterStep offsets ids) st).new_offsets =
          st.new_offsets ++ keptOffsets (removedFlags rem.length st.idx st.it) start kept rem ∧
        (rem.foldl (filterStep offsets ids) st).vec =
          vpre ++ maskOf (removedFlags rem.length st.idx st.it) start rem ++
            List.replicate (rows - rem.getLastD start) true := by
  intro rem
  induction rem with
  | nil =>
    intro pre st vpre kept start _ _ _ _ _ hvec _ _
    simp [removedFlags, keptOffsets, maskOf, hvec]
  | cons off rem ih =>
    intro pre st vpre kept start hoffs hidx hstart hchain hlast hvec hvlen hrc
    rw [List.chain_cons] at hchain
    obtain ⟨hle, hchain'⟩ := hchain
    rw [List.getLastD_cons] at hlast
    have hoff_le : off ≤ rows := le_trans (chain_le_getLastD rem off hchain') hlast
    have hoffs' : offsets = (pre ++ [off]) ++ rem := by simp [hoffs]
    have hstart' : ∀ (i : Nat), i = st.idx + 1 →
        (if i > 0 then offsets.getD (i - 1) 0 else 0) = off := by
      intro i hi
      subst hi
      simp only [Nat.add_sub_cancel, gt_iff_lt, Nat.zero_lt_succ, if_true]
      rw [hoffs, hidx]; exact getD_append_cons pre off rem 0
    rw [List.foldl_cons, List.getLastD_cons]
    by_cases h : st.it.head? = some st.idx
    · rw [filterStep_removed offsets ids st off h, hstart]
      have hsub : sizeSub off start = off - start := sizeSub_of_le hle (by omega)
      have hadd : sizeAdd st.remove_count (off - start) = st.remove_count + (off - start) :=
        sizeAdd_of_lt (by omega)
      have hvec' : zeroRange (off - start) start st.vec =
          (vpre ++ List.replicate (off - start) false) ++ List.replicate (rows - off) true := by
        subst hvlen
        rw [hvec, zeroRange_replicate (off - vpre.length) vpre (rows - vpre.length) (by omega)]
        congr 2
        omega
      have := ih (pre ++ [off])
        { st with
          remove_count := sizeAdd st.remove_count (sizeSub off start)
          vec := zeroRange (off - start) start st.vec
          it := st.it.tail
          idx := st.idx + 1 }
        (vpre ++ List.replicate (off - start) false) kept off hoffs' (by simp [hidx])
        (hstart' _ rfl) hchain' hlast hvec' (by simp; omega) (by simp [hsub, hadd]; omega)
      simp only at this
      rw [this.1, this.2]
      simp [removedFlags, h, keptOffsets, maskOf]
    · rw [filterStep_kept offsets ids st off h]
      have hsub : sizeSub off st.remove_count = kept + (off - start) := by
        rw [sizeSub_of_le (by omega) (by omega)]; omega
      have hvec' : st.vec =
          (vpre ++ List.replicate (off - start) true) ++ List.replicate (rows - off) true := by
        rw [hvec, List.append_assoc, ← List.replicate_add]
        congr 2
        omega
      have := ih (pre ++ [off])
        { st with
          new_offsets := st.new_offsets ++ [sizeSub off st.remove_count]
          new_block_ids := st.new_block_ids ++ [ids.getD st.idx ""]
          idx := st.idx + 1 }
        (vpre ++ List.replicate (off - start) true) (kept + (off - start)) off hoffs'
        (by simp [hidx]) (hstart' _ rfl) hchain' hlast hvec' (by simp; omega)
        (by simp; omega)
      simp only at this
      rw [this.1, this.2, hsub]
      simp [removedFlags, h, keptOffsets, maskOf]

/-! ## Lemmas on `block_id_to_offset_idx` -/

theorem find_pushBack (m : BlockIdMap) (k : String) (i : Nat) (id : String) :
    (m.pushBack k i).find id =
      if k = id then some ((m.find id).getD [] ++ [i]) else m.find id := by
  induction m with
  | nil =>
    by_cases h : k = id <;> simp [BlockIdMap.pushBack, BlockIdMap.find, h]
  | cons e m ih =>
    obtain ⟨k', v⟩ := e
    by_cases hk : k' = k
    · subst hk
      by_cases h : k' = id <;> simp [BlockIdMap.pushBack, BlockIdMap.find, h]
    · by_cases h' : k' = id
      · subst h'
        have hne : ¬ k = k' := fun h => hk h.symm
        simp [BlockIdMap.pushBack, BlockIdMap.find, hk, hne]
      · simp [BlockIdMap.pushBack, BlockIdMap.find, hk, h', ih]

theorem find_initBlockIDMapFrom (id : String) : ∀ (rest : List String) (i : Nat) (m : BlockIdMap),
    (initBlockIDMapFrom rest i m).find id =
      if (m.find id).isSome ∨ id ∈ rest then
        some ((m.find id).getD [] ++ indexesFrom id rest i)
      else none := by
  intro rest
  induction rest with
  | nil =>
    intro i m
    cases h : m.find id <;> simp [initBlockIDMapFrom, indexesFrom, h]
  | cons x rest ih =>
    intro i m
    rw [initBlockIDMapFrom, ih, find_pushBack]
    by_cases hx : x = id
    · subst hx
      simp [indexesFrom]
    · have hx' : ¬ id = x := fun h => hx h.symm
      simp [indexesFrom, hx, hx']

theorem find_initBlockIDMap (ids : List String) (id : String) :
    (initBlockIDMapFrom ids 0 []).find id =
      if id ∈ ids then some (indexesFrom id ids 0) else none := by
  rw [find_initBlockIDMapFrom]
  simp [BlockIdMap.find]

theorem mem_indexesFrom (id : String) : ∀ (rest : List String) (k i : Nat),
    i ∈ indexesFrom id rest k ↔ k ≤ i ∧ rest[i - k]? = some id := by
  intro rest
  induction rest with
  | nil => intro k i; simp [indexesFrom]
  | cons x rest ih =>
    intro k i
    by_cases hx : x = id
    · simp only [indexesFrom, hx, if_true, List.mem_cons, ih]
      constructor
      · rintro (h | ⟨h1, h2⟩)
        · subst h; simp
        · refine ⟨by omega, ?_⟩
          obtain ⟨j, hj⟩ : ∃ j, i - k = j + 1 := ⟨i - k - 1, by omega⟩
          rw [hj, List.getElem?_cons_succ]
          have : i - (k + 1) = j := by omega
          rw [← this]; exact h2
      · rintro ⟨h1, h2⟩
        by_cases hik : i = k
        · exact Or.inl hik
        · right
          refine ⟨by omega, ?_⟩
          obtain ⟨j, hj⟩ : ∃ j, i - k = j + 1 := ⟨i - k - 1, by omega⟩
          rw [hj, List.getElem?_cons_succ] at h2
          have : i - (k + 1) = j := by omega
          rw [this]; exact h2
    · simp only [indexesFrom, hx, if_false, ih]
      constructor
      · rintro ⟨h1, h2⟩
        refine ⟨by omega, ?_⟩
        obtain ⟨j, hj⟩ : ∃ j, i - k = j + 1 := ⟨i - k - 1, by omega⟩
        rw [hj, List.getElem?_cons_succ]
        have : i - (k + 1) = j := by omega
        rw [← this]; exact h2
      · rintro ⟨h1, h2⟩
        have hik : i ≠ k := by
          intro h; subst h
          simp at h2
          exact hx h2
        refine ⟨by omega, ?_⟩
        obtain ⟨j, hj⟩ : ∃ j, i - k = j + 1 := ⟨i - k - 1, by omega⟩
        rw [hj, List.getElem?_cons_succ] at h2
        have : i - (k + 1) = j := by omega
        rw [this]; exact h2

theorem indexesFrom_sorted (id : String) : ∀ (rest : List String) (k : Nat),
    List.Sorted (fun a b => a < b) (indexesFrom id rest k) := by
  intro rest
  induction rest with
  | nil => intro k; simp [indexesFrom]
  | cons x rest ih =>
    intro k
    by_cases hx : x = id
    · simp only [indexesFrom, hx, if_true, List.sorted_cons]
      refine ⟨?_, ih (k + 1)⟩
      intro b hb
      rw [mem_indexesFrom] at hb
      omega
    · simp only [indexesFrom, hx, if_false]
      exact ih (k + 1)

theorem mem_drop_one_indexesFrom (id : String) : ∀ (rest : List String) (k i : Nat),
    i ∈ (indexesFrom id rest k).drop 1 ↔
      k ≤ i ∧ rest[i - k]? = some id ∧ id ∈ rest.take (i - k) := by
  intro rest
  induction rest with
  | nil => intro k i; simp [indexesFrom]
  | cons x rest ih =>
    intro k i
    by_cases hik : i ≤ k
    · have hzero : i - k = 0 := by omega
      by_cases hx : x = id
      · simp only [indexesFrom, hx, if_true, List.drop_succ_cons, List.drop_zero,
          mem_indexesFrom, hzero]
        simp
        omega
      · simp only [indexesFrom, hx, if_false, ih, hzero]
        simp
        intro h1
        omega
    · obtain ⟨j, hj⟩ : ∃ j, i - k = j + 1 := ⟨i - k - 1, by omega⟩
      have hj' : i - (k + 1) = j := by omega
      by_cases hx : x = id
      · simp only [indexesFrom, hx, if_true, List.drop_succ_cons, List.drop_zero,
          mem_indexesFrom, hj, hj', List.getElem?_cons_succ, List.take_succ_cons]
        simp
        omega
      · have hx' : ¬ id = x := fun h => hx h.symm
        simp only [indexesFrom, hx, if_false, ih, hj, hj', List.getElem?_cons_succ,
          List.take_succ_cons, List.mem_cons, hx', false_or]
        constructor
        · rintro ⟨_, h2, h3⟩; exact ⟨by omega, h2, h3⟩
        · rintro ⟨_, h2, h3⟩; exact ⟨by omega, h2, h3⟩

theorem removedFlags_sorted : ∀ (n idx : Nat) (it : List Nat),
    List.Sorted (fun a b => a < b) it → (∀ x ∈ it, idx ≤ x) →
    removedFlags n idx it = (List.range' idx n).map (fun i => decide (i ∈ it)) := by
  intro n
  induction n with
  | zero => intro idx it _ _; simp [removedFlags]
  | succ n ih =>
    intro idx it hs hge
    rw [List.range'_succ, List.map_cons]
    cases it with
    | nil =>
      simp only [removedFlags, List.head?_nil]
      rw [ih (idx + 1) [] hs (by simp)]
      simp
    | cons h t =>
      rw [List.sorted_cons] at hs
      by_cases hh : h = idx
      · subst hh
        simp only [removedFlags, List.head?_cons, if_true, List.tail_cons]
        rw [ih (h + 1) t hs.2 (fun x hx => hs.1 x hx)]
        simp only [List.mem_cons, true_or, decide_True, List.cons.injEq, true_and]
        apply List.map_congr_left
        intro a ha
        rw [List.mem_range'_1] at ha
        have : a ≠ h := by omega
        simp [this]
      · have hlt : idx < h := lt_of_le_of_ne (hge h (List.mem_cons_self _ _)) (Ne.symm hh)
        have hne : ¬ (some h = some idx) := by simpa using hh
        simp only [removedFlags, List.head?_cons, hne, if_false]
        rw [ih (idx + 1) (h :: t) (List.sorted_cons.mpr hs) (by
          intro x hx
          rcases List.mem_cons.mp hx with rfl | hx
          · omega
          · have := hs.1 x hx; omega)]
        have hnot : idx ∉ h :: t := by
          intro hx
          rcases List.mem_cons.mp hx with rfl | hx
          · exact hh rfl
          · have := hs.1 idx hx; omega
        simp [hnot]

theorem collectOffsetIdx_ok (m : BlockIdMap) (self_dedup : Bool) (g : String → List Nat) :
    ∀ (paths : List String) (acc : List Nat),
      (∀ path ∈ paths, m.find (filename path) = some (g (filename path))) →
      collectOffsetIdx m self_dedup paths acc =
        .ok (acc ++ paths.flatMap (fun path =>
          (g (filename path)).drop (if self_dedup then 1 else 0))) := by
  intro paths
  induction paths with
  | nil => intro acc _; simp [collectOffsetIdx]
  | cons path paths ih =>
    intro acc h
    rw [collectOffsetIdx, h path (List.mem_cons_self _ _)]
    simp only
    rw [ih _ (fun q hq => h q (List.mem_cons_of_mem _ hq))]
    simp [List.flatMap_cons]

theorem collectOffsetIdx_error (m : BlockIdMap) (self_dedup : Bool) :
    ∀ (paths : List String) (acc : List Nat),
      (∃ path ∈ paths, m.find (filename path) = none) →
      collectOffsetIdx m self_dedup paths acc = .error ErrorCode.LOGICAL_ERROR := by
  intro paths
  induction paths with
  | nil => intro acc h; simp at h
  | cons path paths ih =>
    intro acc h
    cases hv : m.find (filename path) with
    | none => simp [collectOffsetIdx, hv]
    | some v =>
      rw [collectOffsetIdx, hv]
      simp only
      apply ih
      obtain ⟨q, hq, hn⟩ := h
      rcases List.mem_cons.mp hq with rfl | hq
      · rw [hv] at hn; cases hn
      · exact ⟨q, hq, hn⟩

theorem collectOffsetIdx_conflictIdx (ids : List String) (paths : List String)
    (self_dedup : Bool) (hknown : ∀ path ∈ paths, filename path ∈ ids) :
    collectOffsetIdx (initBlockIDMapFrom ids 0 []) self_dedup paths [] =
      .ok (conflictIdx ids paths self_dedup) := by
  rw [collectOffsetIdx_ok _ self_dedup (fun id => indexesFrom id ids 0) paths []]
  · simp [conflictIdx]
  · intro path hp
    rw [find_initBlockIDMap, if_pos (hknown path hp)]

theorem indexesFrom_top_mem {id : String} {ids : List String} {i : Nat}
    (h : i ∈ indexesFrom id ids 0) : ids[i]? = some id := by
  have := (mem_indexesFrom id ids 0 i).mp h
  simpa using this.2

theorem conflictIdx_nodup (ids : List String) (paths : List String) (self_dedup : Bool)
    (hnodup : (paths.map filename).Nodup) : (conflictIdx ids paths self_dedup).Nodup := by
  unfold conflictIdx
  rw [List.nodup_flatMap]
  constructor
  · intro path _
    exact ((indexesFrom_sorted (filename path) ids 0).nodup).sublist (List.drop_sublist _ _)
  · rw [List.Nodup, List.pairwise_map] at hnodup
    refine hnodup.imp ?_
    intro a b hab
    rw [Function.onFun, List.disjoint_left]
    intro i hia hib
    have h1 := indexesFrom_top_mem (List.mem_of_mem_drop hia)
    have h2 := indexesFrom_top_mem (List.mem_of_mem_drop hib)
    rw [h1] at h2
    exact hab (Option.some.inj h2)

theorem conflictIdx_sorted (ids : List String) (paths : List String) (self_dedup : Bool)
    (hnodup : (paths.map filename).Nodup) :
    List.Sorted (fun a b => a < b)
      ((conflictIdx ids paths self_dedup).insertionSort (fun a b => a ≤ b)) := by
  have hs : List.Sorted (fun a b : Nat => a ≤ b)
      ((conflictIdx ids paths self_dedup).insertionSort (fun a b => a ≤ b)) :=
    List.sorted_insertionSort (fun a b : Nat => a ≤ b) _
  have hn : ((conflictIdx ids paths self_dedup).insertionSort (fun a b => a ≤ b)).Nodup :=
    (List.perm_insertionSort (fun a b : Nat => a ≤ b) _).nodup_iff.mpr
      (conflictIdx_nodup ids paths self_dedup hnodup)
  exact hs.lt_of_le hn

theorem removedFlags_conflictIdx (ids : List String) (paths : List String) (self_dedup : Bool)
    (hnodup : (paths.map filename).Nodup) :
    removedFlags ids.length 0
        ((conflictIdx ids paths self_dedup).insertionSort (fun a b => a ≤ b)) =
      removalFlags ids paths self_dedup := by
  rw [removedFlags_sorted _ _ _ (conflictIdx_sorted ids paths self_dedup hnodup)
    (fun x _ => Nat.zero_le x)]
  unfold removalFlags
  apply List.map_congr_left
  intro i _
  have := (List.perm_insertionSort (fun a b : Nat => a ≤ b)
    (conflictIdx ids paths self_dedup)).mem_iff (a := i)
  simp only [this]

/-! ## What `filterBlockDuplicate` returns for known, pairwise different conflict names -/

theorem filterBlockDuplicate_ok {α : Type} (p : Partition α) (paths : List String)
    (self_dedup : Bool)
    (hmap : p.block_id_to_offset_idx = initBlockIDMapFrom p.block_id 0 [])
    (hlen : p.block_id.length = p.block_with_partition.offsets.length)
    (hknown : ∀ path ∈ paths, filename path ∈ p.block_id)
    (hnodup : (paths.map filename).Nodup) :
    ∃ q : Partition α, p.filterBlockDuplicate paths self_dedup = .ok q ∧
      q.block_id = keepBy (removalFlags p.block_id paths self_dedup) p.block_id ∧
      q.block_id_to_offset_idx = initBlockIDMapFrom q.block_id 0 [] ∧
      (p.WellFormed →
        q.block_with_partition.offsets =
            keptOffsets (removalFlags p.block_id paths self_dedup) 0 0
              p.block_with_partition.offsets ∧
          q.block_with_partition.block =
            p.block_with_partition.block.map (fun col => filterColumn col
              (maskOf (removalFlags p.block_id paths self_dedup) 0
                p.block_with_partition.offsets))) := by
  unfold Partition.filterBlockDuplicate
  rw [hmap, collectOffsetIdx_conflictIdx p.block_id paths self_dedup hknown]
  simp only
  refine ⟨_, rfl, ?_, rfl, ?_⟩
  · simp only [Partition.initBlockIDMap]
    rw [foldl_filterStep_ids p.block_with_partition.offsets p.block_id
      p.block_with_partition.offsets p.block_id [] _ (by simp) rfl hlen]
    simp only [List.nil_append]
    rw [← hlen, removedFlags_conflictIdx p.block_id paths self_dedup hnodup]
  · intro hwf
    obtain ⟨_, hchain, hlast, _, hrows⟩ := hwf
    have h := foldl_filterStep_rows p.block_with_partition.offsets p.block_id
      (blockRows p.block_with_partition.block) hrows p.block_with_partition.offsets []
      { idx := 0, remove_count := 0,
        it := (conflictIdx p.block_id paths self_dedup).insertionSort (fun a b => a ≤ b),
        new_offsets := [], new_block_ids := [],
        vec := List.replicate (blockRows p.block_with_partition.block) true }
      [] 0 0 (by simp) rfl (by simp) hchain (le_of_eq hlast) (by simp) rfl (by simp)
    simp only [List.nil_append] at h
    rw [← hlen, removedFlags_conflictIdx p.block_id paths self_dedup hnodup] at h
    simp only [Partition.initBlockIDMap]
    rw [h.1, h.2, hlast]
    simp

/-! ## The sub-blocks that stay -/

theorem filterColumn_nil_left {α : Type} (m : List Bool) : filterColumn ([] : List α) m = [] := by
  cases m <;> rfl

theorem filterColumn_nil_right {α : Type} (c : List α) : filterColumn c [] = [] := by
  cases c <;> rfl

theorem filterColumn_replicate_append {α : Type} : ∀ (k : Nat) (c : List α) (b : Bool)
    (m : List Bool), k ≤ c.length →
    filterColumn c (List.replicate k b ++ m) =
      (if b then c.take k else []) ++ filterColumn (c.drop k) m := by
  intro k
  induction k with
  | zero => intro c b m _; cases b <;> simp
  | succ k ih =>
    intro c b m hk
    cases c with
    | nil => simp at hk
    | cons x c =>
      have hk' : k ≤ c.length := by simpa using hk
      cases b
      · rw [List.replicate_succ, List.cons_append, filterColumn, ih c false m hk']
        simp
      · rw [List.replicate_succ, List.cons_append, filterColumn, ih c true m hk']
        simp

theorem subBlocksFrom_nil_right {α : Type} (block : List (List α)) (start : Nat)
    (ids : List String) : subBlocksFrom block start ids [] = [] := by
  cases ids <;> rfl

theorem keepBy_nil_right {β : Type} (F : List Bool) : keepBy F ([] : List β) = [] := by
  cases F <;> rfl

theorem subBlocksFrom_filter {α : Type} : ∀ (F : List Bool) (ids : List String)
    (offs : List Nat) (cols : List (List α)) (P : List α → List α) (start kept : Nat),
    List.Chain (fun a b => a ≤ b) start offs →
    (∀ c ∈ cols, offs.getLastD start ≤ c.length) →
    (∀ c ∈ cols, (P c).length = kept) →
    subBlocksFrom
        (cols.map (fun c => P c ++ filterColumn (c.drop start) (maskOf F start offs)))
        kept (keepBy F ids) (keptOffsets F start kept offs) =
      keepBy F (subBlocksFrom cols start ids offs) := by
  intro F
  induction F with
  | nil => intro ids offs cols P start kept _ _ _; simp [keepBy, subBlocksFrom]
  | cons f F ih =>
    intro ids offs cols P start kept hchain hrows hP
    cases ids with
    | nil => simp [keepBy, subBlocksFrom]
    | cons id ids =>
      cases offs with
      | nil => simp [keptOffsets, subBlocksFrom, subBlocksFrom_nil_right, keepBy_nil_right]
      | cons off offs =>
        rw [List.chain_cons] at hchain
        obtain ⟨hle, hchain'⟩ := hchain
        rw [List.getLastD_cons] at hrows
        have hoff : ∀ c ∈ cols, off ≤ c.length := fun c hc =>
          le_trans (chain_le_getLastD offs off hchain') (hrows c hc)
        have hdrop : ∀ c : List α, (c.drop start).drop (off - start) = c.drop off := by
          intro c
          rw [List.drop_drop]
          congr 1
          omega
        cases f with
        | true =>
          have hcols : cols.map (fun c => P c ++ filterColumn (c.drop start)
                (maskOf (true :: F) start (off :: offs))) =
              cols.map (fun c => P c ++ filterColumn (c.drop off) (maskOf F off offs)) := by
            apply List.map_congr_left
            intro c hc
            have := hoff c hc
            simp only [maskOf, Bool.not_true]
            rw [filterColumn_replicate_append _ _ _ _ (by simp; omega), hdrop]
            simp
          rw [hcols]
          simp only [keepBy, keptOffsets, subBlocksFrom, if_true]
          exact ih ids offs cols P off kept hchain' hrows hP
        | false =>
          have hcols : cols.map (fun c => P c ++ filterColumn (c.drop start)
                (maskOf (false :: F) start (off :: offs))) =
              cols.map (fun c => (P c ++ (c.drop start).take (off - start)) ++
                filterColumn (c.drop off) (maskOf F off offs)) := by
            apply List.map_congr_left
            intro c hc
            have := hoff c hc
            simp only [maskOf, Bool.not_false]
            rw [filterColumn_replicate_append _ _ _ _ (by simp; omega), hdrop]
            simp
          rw [hcols]
          simp only [keepBy, keptOffsets, subBlocksFrom, Bool.false_eq_true, if_false]
          rw [ih ids offs cols (fun c => P c ++ (c.drop start).take (off - start)) off
            (kept + (off - start)) hchain' hrows (by
              intro c hc
              have := hoff c hc
              simp [hP c hc]
              omega)]
          congr 2
          rw [List.map_map]
          apply List.map_congr_left
          intro c hc
          have h1 := hoff c hc
          have h2 := hP c hc
          simp only [Function.comp]
          rw [List.append_assoc, List.drop_append_of_le_length (by omega)]
          have h3 : List.drop kept (P c) = [] := List.drop_eq_nil_of_le (by omega)
          rw [h3, List.nil_append, List.take_append_of_le_length (by simp; omega)]
          rw [List.take_take]
          congr 1
          omega

theorem keepBy_length_keptOffsets {β : Type} : ∀ (F : List Bool) (xs : List β) (offs : List Nat)
    (start kept : Nat), xs.length = offs.length →
    (keepBy F xs).length = (keptOffsets F start kept offs).length := by
  intro F
  induction F with
  | nil => intro xs offs start kept _; simp [keepBy, keptOffsets]
  | cons f F ih =>
    intro xs offs start kept h
    cases xs with
    | nil =>
      cases offs with
      | nil => simp [keepBy, keptOffsets]
      | cons off offs => simp at h
    | cons x xs =>
      cases offs with
      | nil => simp at h
      | cons off offs =>
        have h' : xs.length = offs.length := by simpa using h
        cases f
        · simp [keepBy, keptOffsets, ih xs offs off (kept + (off - start)) h']
        · simp [keepBy, keptOffsets, ih xs offs off kept h']

theorem keptOffsets_chain : ∀ (F : List Bool) (offs : List Nat) (start kept : Nat),
    List.Chain (fun a b => a ≤ b) kept (keptOffsets F start kept offs) := by
  intro F
  induction F with
  | nil => intro offs start kept; simp [keptOffsets]
  | cons f F ih =>
    intro offs start kept
    cases offs with
    | nil => simp [keptOffsets]
    | cons off offs =>
      cases f
      · simp only [keptOffsets, Bool.false_eq_true, if_false, List.chain_cons]
        exact ⟨Nat.le_add_right _ _, ih offs off _⟩
      · simp only [keptOffsets, if_true]
        exact ih offs off kept

theorem keptOffsets_getLastD : ∀ (F : List Bool) (offs : List Nat) (start kept : Nat),
    (keptOffsets F start kept offs).getLastD kept =
      kept + (maskOf F start offs).count true := by
  intro F
  induction F with
  | nil => intro offs start kept; simp [keptOffsets, maskOf]
  | cons f F ih =>
    intro offs start kept
    cases offs with
    | nil => simp [keptOffsets, maskOf]
    | cons off offs =>
      cases f
      · simp only [keptOffsets, Bool.false_eq_true, if_false, List.getLastD_cons, maskOf,
          Bool.not_false, List.count_append, ih]
        simp [List.count_replicate]
        omega
      · simp only [keptOffsets, if_true, maskOf, Bool.not_true, List.count_append, ih]
        simp [List.count_replicate]

theorem maskOf_length : ∀ (F : List Bool) (offs : List Nat) (start : Nat),
    F.length = offs.length → List.Chain (fun a b => a ≤ b) start offs →
    (maskOf F start offs).length = offs.getLastD start - start := by
  intro F
  induction F with
  | nil =>
    intro offs start h _
    have : offs = [] := List.length_eq_zero.mp h.symm
    subst this
    simp [maskOf]
  | cons f F ih =>
    intro offs start h hchain
    cases offs with
    | nil => simp at h
    | cons off offs =>
      rw [List.chain_cons] at hchain
      have h' : F.length = offs.length := by simpa using h
      have := chain_le_getLastD offs off hchain.2
      simp only [maskOf, List.length_append, List.length_replicate, List.getLastD_cons,
        ih offs off h' hchain.2]
      omega

theorem filterColumn_length {α : Type} : ∀ (c : List α) (m : List Bool),
    c.length = m.length → (filterColumn c m).length = m.count true := by
  intro c
  induction c with
  | nil => intro m h; have : m = [] := List.length_eq_zero.mp h.symm; subst this; rfl
  | cons x c ih =>
    intro m h
    cases m with
    | nil => simp at h
    | cons b m =>
      have h' : c.length = m.length := by simpa using h
      cases b
      · simp [filterColumn, ih m h']
      · simp [filterColumn, ih m h']

theorem removalFlags_length (ids paths : List String) (self_dedup : Bool) :
    (removalFlags ids paths self_dedup).length = ids.length := by
  simp [removalFlags]

theorem filterBlockDuplicate_wf {α : Type} (p : Partition α) (paths : List String)
    (self_dedup : Bool)
    (hmap : p.block_id_to_offset_idx = initBlockIDMapFrom p.block_id 0 [])
    (hwf : p.WellFormed)
    (hknown : ∀ path ∈ paths, filename path ∈ p.block_id)
    (hnodup : (paths.map filename).Nodup) :
    ∃ q : Partition α, p.filterBlockDuplicate paths self_dedup = .ok q ∧
      q.block_id = keepBy (removalFlags p.block_id paths self_dedup) p.block_id ∧
      q.block_id_to_offset_idx = initBlockIDMapFrom q.block_id 0 [] ∧
      q.WellFormed ∧
      q.subBlocks = keepBy (removalFlags p.block_id paths self_dedup) p.subBlocks := by
  obtain ⟨q, hq, hids, hqmap, hrest⟩ :=
    filterBlockDuplicate_ok p paths self_dedup hmap hwf.1 hknown hnodup
  obtain ⟨hoffs, hblock⟩ := hrest hwf
  obtain ⟨hlen, hchain, hlast, hcols, hrows⟩ := hwf
  have hFlen : (removalFlags p.block_id paths self_dedup).length =
      p.block_with_partition.offsets.length := by
    rw [removalFlags_length, hlen]
  have hM : (maskOf (removalFlags p.block_id paths self_dedup) 0
      p.block_with_partition.offsets).length = blockRows p.block_with_partition.block := by
    rw [maskOf_length _ _ _ hFlen hchain, hlast]; rfl
  have hcollen : ∀ c ∈ p.block_with_partition.block,
      (filterColumn c (maskOf (removalFlags p.block_id paths self_dedup) 0
        p.block_with_partition.offsets)).length =
      (maskOf (removalFlags p.block_id paths self_dedup) 0
        p.block_with_partition.offsets).count true := by
    intro c hc
    exact filterColumn_length c _ (by rw [hM]; exact hcols c hc)
  have hrows' : blockRows q.block_with_partition.block =
      (maskOf (removalFlags p.block_id paths self_dedup) 0
        p.block_with_partition.offsets).count true := by
    rw [hblock]
    cases hb : p.block_with_partition.block with
    | nil =>
      rw [hb] at hM
      have : maskOf (removalFlags p.block_id paths self_dedup) 0
          p.block_with_partition.offsets = [] := List.length_eq_zero.mp hM
      rw [this]; rfl
    | cons c cs =>
      simp only [List.map_cons, blockRows]
      exact hcollen c (by rw [hb]; exact List.mem_cons_self _ _)
  refine ⟨q, hq, hids, hqmap, ⟨?_, ?_, ?_, ?_, ?_⟩, ?_⟩
  · rw [hids, hoffs]
    exact keepBy_length_keptOffsets _ _ _ 0 0 hlen
  · rw [hoffs]; exact keptOffsets_chain _ _ 0 0
  · rw [hrows', hoffs, keptOffsets_getLastD]; simp
  · intro col hcol
    rw [hrows']
    rw [hblock, List.mem_map] at hcol
    obtain ⟨c, hc, rfl⟩ := hcol
    exact hcollen c hc
  · rw [hrows']
    exact lt_of_le_of_lt (le_trans (List.count_le_length _ _) (le_of_eq hM)) hrows
  · unfold Partition.subBlocks
    rw [hids, hoffs, hblock]
    have := subBlocksFrom_filter (removalFlags p.block_id paths self_dedup) p.block_id
      p.block_with_partition.offsets p.block_with_partition.block (fun _ => []) 0 0 hchain
      (fun c hc => by rw [hlast, hcols c hc]) (fun _ _ => rfl)
    simpa using this

/-! ## Which sub-blocks are removed -/

theorem map_range'_eq_map {β γ : Type} (g : Nat → γ) (f : β → γ) : ∀ (xs : List β) (k : Nat),
    (∀ i x, xs[i]? = some x → g (k + i) = f x) →
    (List.range' k xs.length).map g = xs.map f := by
  intro xs
  induction xs with
  | nil => intro k _; simp
  | cons x xs ih =>
    intro k h
    rw [List.length_cons, List.range'_succ, List.map_cons, List.map_cons]
    congr 1
    · simpa using h 0 x (by simp)
    · apply ih (k + 1)
      intro i y hy
      have := h (i + 1) y (by simpa using hy)
      rw [← this]
      congr 1
      omega

theorem map_range'_eq_seenFlags (g : Nat → Bool) : ∀ (rem pre : List String),
    (∀ i x, rem[i]? = some x → g (pre.length + i) = decide (x ∈ pre ++ rem.take i)) →
    (List.range' pre.length rem.length).map g = seenFlags pre rem := by
  intro rem
  induction rem with
  | nil => intro pre _; simp [seenFlags]
  | cons x rem ih =>
    intro pre h
    rw [List.length_cons, List.range'_succ, List.map_cons, seenFlags]
    congr 1
    · simpa using h 0 x (by simp)
    · have hlen : (pre ++ [x]).length = pre.length + 1 := by simp
      rw [← hlen]
      apply ih (pre ++ [x])
      intro i y hy
      have := h (i + 1) y (by simpa using hy)
      rw [hlen]
      have e : pre.length + 1 + i = pre.length + (i + 1) := by omega
      rw [e, this]
      simp

theorem mem_conflictIdx (ids paths : List String) (self_dedup : Bool) (i : Nat) :
    i ∈ conflictIdx ids paths self_dedup ↔
      ∃ path ∈ paths,
        i ∈ (indexesFrom (filename path) ids 0).drop (if self_dedup then 1 else 0) := by
  simp [conflictIdx, List.mem_flatMap]

theorem removalFlags_conflicts (ids paths : List String) :
    removalFlags ids paths false =
      ids.map (fun id => decide (id ∈ paths.map filename)) := by
  unfold removalFlags
  apply map_range'_eq_map
  intro i x hx
  congr 1
  rw [Nat.zero_add, mem_conflictIdx, eq_iff_iff]
  simp only [Bool.false_eq_true, if_false, List.drop_zero, mem_indexesFrom, Nat.zero_le,
    Nat.sub_zero, true_and, hx, Option.some.injEq, List.mem_map]
  constructor
  · rintro ⟨path, hp, h⟩; exact ⟨path, hp, h.symm⟩
  · rintro ⟨path, hp, h⟩; exact ⟨path, hp, h.symm⟩

theorem removalFlags_self (ids dups : List String)
    (hdups : ∀ id, id ∈ dups ↔ 1 < (indexesFrom id ids 0).length)
    (hname : ∀ id ∈ dups, filename id = id) :
    removalFlags ids dups true = seenFlags [] ids := by
  unfold removalFlags
  have := map_range'_eq_seenFlags
    (fun i => decide (i ∈ conflictIdx ids dups true)) ids []
  simp only [List.length_nil, List.nil_append] at this
  apply this
  intro i x hx
  congr 1
  rw [Nat.zero_add, mem_conflictIdx, eq_iff_iff]
  simp only [if_true]
  constructor
  · rintro ⟨d, hd, hmem⟩
    rw [hname d hd, mem_drop_one_indexesFrom] at hmem
    obtain ⟨_, h2, h3⟩ := hmem
    simp only [Nat.sub_zero] at h2 h3
    rw [hx] at h2
    rw [Option.some.inj h2]
    exact h3
  · intro hmem
    have hdrop : i ∈ (indexesFrom x ids 0).drop 1 := by
      rw [mem_drop_one_indexesFrom]
      exact ⟨Nat.zero_le _, by simpa using hx, by simpa using hmem⟩
    have hx_dup : x ∈ dups := by
      rw [hdups]
      by_contra hcon
      have hle : (indexesFrom x ids 0).length ≤ 1 := by omega
      rw [List.drop_eq_nil_of_le hle] at hdrop
      simp at hdrop
    refine ⟨x, hx_dup, ?_⟩
    rw [hname x hx_dup]
    exact hdrop

/-! ## The entries of `block_id_to_offset_idx` -/

theorem keys_pushBack (m : BlockIdMap) (k : String) (i : Nat) :
    (m.pushBack k i).map Prod.fst =
      if k ∈ m.map Prod.fst then m.map Prod.fst else m.map Prod.fst ++ [k] := by
  induction m with
  | nil => simp [BlockIdMap.pushBack]
  | cons e m ih =>
    obtain ⟨k', v⟩ := e
    by_cases hk : k' = k
    · subst hk
      simp [BlockIdMap.pushBack]
    · have hk' : ¬ k = k' := fun h => hk h.symm
      simp only [BlockIdMap.pushBack, hk, if_false, List.map_cons, ih, List.mem_cons, hk',
        false_or]
      by_cases hm : k ∈ m.map Prod.fst
      · simp only [hm, if_true]
      · simp only [hm, if_false, List.cons_append]

theorem keys_nodup_pushBack (m : BlockIdMap) (k : String) (i : Nat)
    (h : (m.map Prod.fst).Nodup) : ((m.pushBack k i).map Prod.fst).Nodup := by
  rw [keys_pushBack]
  by_cases hm : k ∈ m.map Prod.fst
  · simpa only [hm, if_true] using h
  · simp only [hm, if_false]
    rw [List.nodup_append]
    refine ⟨h, List.nodup_singleton k, ?_⟩
    intro a ha hb
    rw [List.mem_singleton] at hb
    subst hb
    exact hm ha

theorem keys_nodup_initBlockIDMapFrom : ∀ (rest : List String) (i : Nat) (m : BlockIdMap),
    (m.map Prod.fst).Nodup → ((initBlockIDMapFrom rest i m).map Prod.fst).Nodup := by
  intro rest
  induction rest with
  | nil => intro i m h; exact h
  | cons x rest ih =>
    intro i m h
    exact ih (i + 1) _ (keys_nodup_pushBack m x i h)

theorem find_of_mem : ∀ (m : BlockIdMap) (k : String) (v : List Nat),
    (m.map Prod.fst).Nodup → (k, v) ∈ m → m.find k = some v := by
  intro m
  induction m with
  | nil => intro k v _ h; simp at h
  | cons e m ih =>
    intro k v hn h
    obtain ⟨k', v'⟩ := e
    rw [List.map_cons, List.nodup_cons] at hn
    rcases List.mem_cons.mp h with heq | hmem
    · cases heq
      simp [BlockIdMap.find]
    · have hne : ¬ k' = k := by
        intro hk
        subst hk
        exact hn.1 (List.mem_map.mpr ⟨(k', v), hmem, rfl⟩)
      simp only [BlockIdMap.find, hne, if_false]
      exact ih k v hn.2 hmem

theorem mem_of_find : ∀ (m : BlockIdMap) (k : String) (v : List Nat),
    m.find k = some v → (k, v) ∈ m := by
  intro m
  induction m with
  | nil => intro k v h; simp [BlockIdMap.find] at h
  | cons e m ih =>
    intro k v h
    obtain ⟨k', v'⟩ := e
    by_cases hk : k' = k
    · subst hk
      simp only [BlockIdMap.find, if_true, Option.some.injEq] at h
      subst h
      exact List.mem_cons_self _ _
    · simp only [BlockIdMap.find, hk, if_false] at h
      exact List.mem_cons_of_mem _ (ih k v h)

theorem indexesFrom_eq_nil_of_not_mem (id : String) (ids : List String) (h : id ∉ ids) :
    indexesFrom id ids 0 = [] := by
  rw [List.eq_nil_iff_forall_not_mem]
  intro i hi
  have := indexesFrom_top_mem hi
  exact h (List.getElem?_mem this)

/-- The ids that `filterSelfDuplicate` collects are the ids occurring more than once, each
of them once. -/
theorem dup_block_ids_spec (visit : BlockIdMap → BlockIdMap)
    (hvisit : ∀ m, (visit m).Perm m) (ids : List String) :
    let dups := ((visit (initBlockIDMapFrom ids 0 [])).filter
      (fun e => decide (e.2.length > 1))).map Prod.fst
    dups.Nodup ∧ ∀ id, id ∈ dups ↔ 1 < (indexesFrom id ids 0).length := by
  intro dups
  have hkeys : ((initBlockIDMapFrom ids 0 []).map Prod.fst).Nodup :=
    keys_nodup_initBlockIDMapFrom ids 0 [] (by simp)
  have hperm := hvisit (initBlockIDMapFrom ids 0 [])
  constructor
  · have h1 : ((visit (initBlockIDMapFrom ids 0 [])).map Prod.fst).Nodup :=
      (hperm.map Prod.fst).nodup_iff.mpr hkeys
    exact h1.sublist ((List.filter_sublist _).map Prod.fst)
  · intro id
    simp only [dups, List.mem_map, List.mem_filter, decide_eq_true_eq, Prod.exists,
      exists_and_right, exists_eq_right, hperm.mem_iff]
    constructor
    · rintro ⟨v, hv, hlen⟩
      have hf := find_of_mem _ id v hkeys hv
      rw [find_initBlockIDMap] at hf
      by_cases hid : id ∈ ids
      · rw [if_pos hid] at hf
        rw [Option.some.inj hf]
        exact hlen
      · rw [if_neg hid] at hf
        cases hf
    · intro hlen
      have hid : id ∈ ids := by
        by_contra hcon
        rw [indexesFrom_eq_nil_of_not_mem id ids hcon] at hlen
        simp at hlen
      refine ⟨indexesFrom id ids 0, mem_of_find _ id _ ?_, hlen⟩
      rw [find_initBlockIDMap, if_pos hid]

/-! ## From flags to the lists of the specification -/

theorem keepBy_seenFlags {β : Type} (key : β → String) : ∀ (xs : List β) (seen : List String),
    keepBy (seenFlags seen (xs.map key)) xs = firstOccurrences key seen xs := by
  intro xs
  induction xs with
  | nil => intro seen; simp [seenFlags, keepBy, firstOccurrences]
  | cons x xs ih =>
    intro seen
    by_cases h : key x ∈ seen
    · simp [seenFlags, keepBy, firstOccurrences, h, ih]
    · simp [seenFlags, keepBy, firstOccurrences, h, ih]

theorem keepBy_map_flags {β : Type} (key : β → String) (f : String → Bool) : ∀ (xs : List β),
    keepBy ((xs.map key).map f) xs = xs.filter (fun x => !f (key x)) := by
  intro xs
  induction xs with
  | nil => simp [keepBy]
  | cons x xs ih =>
    cases h : f (key x)
    · rw [List.map_cons, List.map_cons, keepBy, h, List.filter_cons, h, ih]
      simp
    · rw [List.map_cons, List.map_cons, keepBy, h, List.filter_cons, h, ih]
      simp

theorem subBlocksFrom_keys {α : Type} (cols : List (List α)) : ∀ (ids : List String)
    (offs : List Nat) (start : Nat), ids.length = offs.length →
    (subBlocksFrom cols start ids offs).map Prod.fst = ids := by
  intro ids
  induction ids with
  | nil => intro offs start _; simp [subBlocksFrom]
  | cons id ids ih =>
    intro offs start h
    cases offs with
    | nil => simp at h
    | cons off offs =>
      have h' : ids.length = offs.length := by simpa using h
      simp [subBlocksFrom, ih offs off h']

theorem keepBy_replicate_false {β : Type} : ∀ (xs : List β),
    keepBy (List.replicate xs.length false) xs = xs := by
  intro xs
  induction xs with
  | nil => simp [keepBy]
  | cons x xs ih => simp [List.replicate_succ, keepBy, ih]

theorem removalFlags_nil (ids : List String) (self_dedup : Bool) :
    removalFlags ids [] self_dedup = List.replicate ids.length false := by
  simp [removalFlags, conflictIdx]

theorem indexesFrom_length (id : String) : ∀ (rest : List String) (k : Nat),
    (indexesFrom id rest k).length = rest.count id := by
  intro rest
  induction rest with
  | nil => intro k; simp [indexesFrom]
  | cons x rest ih =>
    intro k
    by_cases hx : x = id
    · subst hx
      simp [indexesFrom, ih]
    · have : (x == id) = false := by simpa using hx
      simp [indexesFrom, hx, ih, List.count_cons, this]

theorem filename_eq_self (s : String) (h : '/' ∉ s.toList) : filename s = s := by
  unfold filename
  have hall : (s.toList.reverse.takeWhile (fun c => c != '/')) = s.toList.reverse := by
    rw [List.takeWhile_eq_self_iff]
    intro c hc
    rw [List.mem_reverse] at hc
    have : c ≠ '/' := fun hcs => h (hcs ▸ hc)
    simpa using this
  rw [hall, List.reverse_reverse]
  rfl

/-! ## What `filterSelfDuplicate` returns -/

theorem filterSelfDuplicate_flags {α : Type} (visit : BlockIdMap → BlockIdMap)
    (hvisit : ∀ m, (visit m).Perm m) (p : Partition α)
    (hmap : p.block_id_to_offset_idx = initBlockIDMapFrom p.block_id 0 [])
    (hlen : p.block_id.length = p.block_with_partition.offsets.length)
    (hname : ∀ id, 1 < p.block_id.count id → filename id = id) :
    ∃ (b : Bool) (q : Partition α), p.filterSelfDuplicate visit = .ok (b, q) ∧
      q.block_id = keepBy (seenFlags [] p.block_id) p.block_id ∧
      q.block_id_to_offset_idx = initBlockIDMapFrom q.block_id 0 [] ∧
      (p.WellFormed → q.WellFormed ∧
        q.subBlocks = keepBy (seenFlags [] p.block_id) p.subBlocks) := by
  obtain ⟨hnd, hmem⟩ := dup_block_ids_spec visit hvisit p.block_id
  have hname' : ∀ id ∈ ((visit (initBlockIDMapFrom p.block_id 0 [])).filter
      (fun e => decide (e.2.length > 1))).map Prod.fst, filename id = id := by
    intro id hid
    apply hname
    rw [← indexesFrom_length id p.block_id 0]
    exact (hmem id).mp hid
  have hflags := removalFlags_self p.block_id _ hmem hname'
  unfold Partition.filterSelfDuplicate
  rw [hmap]
  simp only
  by_cases hempty : (((visit (initBlockIDMapFrom p.block_id 0 [])).filter
      (fun e => decide (e.2.length > 1))).map Prod.fst).isEmpty = true
  · rw [if_pos hempty]
    have hnil := List.isEmpty_iff.mp hempty
    rw [hnil, removalFlags_nil] at hflags
    refine ⟨false, p, rfl, ?_, hmap, ?_⟩
    · rw [← hflags, keepBy_replicate_false]
    · intro hwf
      refine ⟨hwf, ?_⟩
      have hk : p.subBlocks.length = p.block_id.length := by
        have := congrArg List.length (subBlocksFrom_keys p.block_with_partition.block
          p.block_id p.block_with_partition.offsets 0 hlen)
        simpa [Partition.subBlocks] using this
      rw [← hflags, ← hk, keepBy_replicate_false]
  · rw [if_neg hempty]
    have hknown : ∀ path ∈ ((visit (initBlockIDMapFrom p.block_id 0 [])).filter
        (fun e => decide (e.2.length > 1))).map Prod.fst, filename path ∈ p.block_id := by
      intro d hd
      rw [hname' d hd]
      by_contra hcon
      have h1 := (hmem d).mp hd
      rw [indexesFrom_eq_nil_of_not_mem d p.block_id hcon] at h1
      simp at h1
    have hnodup : ((((visit (initBlockIDMapFrom p.block_id 0 [])).filter
        (fun e => decide (e.2.length > 1))).map Prod.fst).map filename).Nodup := by
      rw [List.map_congr_left hname', List.map_id']
      exact hnd
    obtain ⟨q, hq, hids, hqmap, _⟩ :=
      filterBlockDuplicate_ok p _ true hmap hlen hknown hnodup
    rw [hq]
    refine ⟨true, q, rfl, ?_, hqmap, ?_⟩
    · rw [hids, hflags]
    · intro hwf
      obtain ⟨q', hq', _, _, hwf', hsub⟩ :=
        filterBlockDuplicate_wf p _ true hmap hwf hknown hnodup
      rw [hq] at hq'
      cases hq'
      exact ⟨hwf', by rw [hsub, hflags]⟩

theorem filterSelfDuplicate_spec {α : Type} (visit : BlockIdMap → BlockIdMap)
    (hvisit : ∀ m, (visit m).Perm m) (p : Partition α)
    (hmap : p.block_id_to_offset_idx = initBlockIDMapFrom p.block_id 0 [])
    (hlen : p.block_id.length = p.block_with_partition.offsets.length)
    (hname : ∀ id, 1 < p.block_id.count id → filename id = id) :
    ∃ (b : Bool) (q : Partition α), p.filterSelfDuplicate visit = .ok (b, q) ∧
      q.block_id = firstOccurrences (fun id => id) [] p.block_id ∧
      q.block_id_to_offset_idx = initBlockIDMapFrom q.block_id 0 [] ∧
      (p.WellFormed → q.WellFormed ∧
        q.subBlocks = firstOccurrences Prod.fst [] p.subBlocks) := by
  obtain ⟨b, q, hq, hids, hqmap, hrest⟩ :=
    filterSelfDuplicate_flags visit hvisit p hmap hlen hname
  refine ⟨b, q, hq, ?_, hqmap, ?_⟩
  · rw [hids]
    have := keepBy_seenFlags (fun id : String => id) p.block_id []
    simpa using this
  · intro hwf
    obtain ⟨hwf', hsub⟩ := hrest hwf
    refine ⟨hwf', ?_⟩
    rw [hsub]
    have hkeys : p.subBlocks.map Prod.fst = p.block_id :=
      subBlocksFrom_keys p.block_with_partition.block p.block_id
        p.block_with_partition.offsets 0 hlen
    rw [← hkeys]
    exact keepBy_seenFlags Prod.fst p.subBlocks []

theorem firstOccurrences_nodup {β : Type} (key : β → String) : ∀ (xs : List β)
    (seen : List String),
    ((firstOccurrences key seen xs).map key).Nodup ∧
      ∀ x ∈ firstOccurrences key seen xs, key x ∉ seen := by
  intro xs
  induction xs with
  | nil => intro seen; simp [firstOccurrences]
  | cons x xs ih =>
    intro seen
    obtain ⟨hn, hs⟩ := ih (seen ++ [key x])
    by_cases h : key x ∈ seen
    · simp only [firstOccurrences, h, if_true]
      refine ⟨hn, ?_⟩
      intro y hy hmem
      exact hs y hy (List.mem_append_left _ hmem)
    · simp only [firstOccurrences, h, if_false, List.map_cons, List.nodup_cons, List.mem_map,
        List.mem_cons]
      refine ⟨⟨?_, hn⟩, ?_⟩
      · rintro ⟨y, hy, hkey⟩
        exact hs y hy (by rw [hkey]; simp)
      · rintro y (rfl | hy)
        · exact h
        · intro hmem
          exact hs y hy (List.mem_append_left _ hmem)

/-! ## Claims on the self-duplicate filter -/

/-- C1 (as stated, fails): with the ids `x/a`, `x/a`, `a` the partition that `filterSelfDuplicate`
leaves still has the id `x/a` twice: the duplicated id `x/a` is looked up under its file name
`a`, whose only index is kept. -/
theorem C1_counterexample_slash_in_id :
    (((Partition.construct ["x/a", "x/a", "a"]
        { block := [[10, 20, 30]], offsets := [1, 2, 3] } : Partition Int).filterSelfDuplicate
        (fun m => m)).toOption.map (fun r => r.2.block_id)) = some ["x/a", "x/a", "a"] ∧
      ¬ (["x/a", "x/a", "a"] : List String).Nodup ∧
      firstOccurrences (fun id => id) [] ["x/a", "x/a", "a"] = ["x/a", "a"] := by
  refine ⟨rfl, by decide, by decide⟩

/-- C1 (amended): for every async partition with one id per offset whose index map is the one
`initBlockIDMap` builds, and in which no id that occurs more than once contains `/`,
`filterSelfDuplicate` returns, and afterwards the block-id list contains no id twice and is the
original list with every occurrence of an id after its first occurrence removed (whatever the
order in which the hash map is visited). -/
theorem C1_filterSelfDuplicate_block_ids {α : Type} (visit : BlockIdMap → BlockIdMap)
    (hvisit : ∀ m, (visit m).Perm m) (p : Partition α)
    (hmap : p.block_id_to_offset_idx = initBlockIDMapFrom p.block_id 0 [])
    (hlen : p.block_id.length = p.block_with_partition.offsets.length)
    (hslash : ∀ id ∈ p.block_id, 1 < p.block_id.count id → '/' ∉ id.toList) :
    ∃ (b : Bool) (q : Partition α), p.filterSelfDuplicate visit = .ok (b, q) ∧
      q.block_id.Nodup ∧
      q.block_id = firstOccurrences (fun id => id) [] p.block_id := by
  have hname : ∀ id, 1 < p.block_id.count id → filename id = id := by
    intro id hid
    exact filename_eq_self id (hslash id (List.count_pos_iff.mp (by omega)) hid)
  obtain ⟨b, q, hq, hids, _, _⟩ := filterSelfDuplicate_spec visit hvisit p hmap hlen hname
  refine ⟨b, q, hq, ?_, hids⟩
  rw [hids]
  have := (firstOccurrences_nodup (fun id : String => id) p.block_id []).1
  simpa using this

/-- C1, witness: ids `H1`, `H1`, `H2` at offsets `2`, `4`, `6`, the map visited backwards. -/
theorem C1_filterSelfDuplicate_block_ids_witness :
    ∃ (b : Bool) (q : Partition Int),
      (Partition.construct ["H1", "H1", "H2"]
        { block := [[1, 2, 3, 4, 5, 6]], offsets := [2, 4, 6] } :
          Partition Int).filterSelfDuplicate List.reverse = .ok (b, q) ∧
      q.block_id.Nodup ∧
      q.block_id = firstOccurrences (fun id => id) [] ["H1", "H1", "H2"] :=
  C1_filterSelfDuplicate_block_ids List.reverse (fun m => List.reverse_perm m)
    (Partition.construct ["H1", "H1", "H2"]
      { block := [[1, 2, 3, 4, 5, 6]], offsets := [2, 4, 6] } : Partition Int)
    rfl rfl (by decide)

theorem filterBlockDuplicate_block_length {α : Type} (p q : Partition α) (paths : List String)
    (self_dedup : Bool) (h : p.filterBlockDuplicate paths self_dedup = .ok q) :
    q.block_with_partition.block.length = p.block_with_partition.block.length := by
  unfold Partition.filterBlockDuplicate at h
  cases hc : collectOffsetIdx p.block_id_to_offset_idx self_dedup paths [] with
  | error e => rw [hc] at h; cases h
  | ok v =>
    rw [hc] at h
    simp only [Except.ok.injEq] at h
    rw [← h]
    simp [Partition.initBlockIDMap]

theorem filterSelfDuplicate_block_length {α : Type} (visit : BlockIdMap → BlockIdMap)
    (p q : Partition α) (b : Bool) (h : p.filterSelfDuplicate visit = .ok (b, q)) :
    q.block_with_partition.block.length = p.block_with_partition.block.length := by
  unfold Partition.filterSelfDuplicate at h
  simp only at h
  split at h
  · simp only [Except.ok.injEq, Prod.mk.injEq] at h
    rw [← h.2]
  · cases hf : p.filterBlockDuplicate
      (((visit p.block_id_to_offset_idx).filter (fun e => decide (e.2.length > 1))).map
        Prod.fst) true with
    | error e => rw [hf] at h; cases h
    | ok q' =>
      rw [hf] at h
      simp only [Except.ok.injEq, Prod.mk.injEq] at h
      rw [← h.2]
      exact filterBlockDuplicate_block_length p q' _ true hf

theorem column_eq_flatMap_subBlocks {α : Type} (c : List α) : ∀ (ids : List String)
    (offs : List Nat) (start : Nat), ids.length = offs.length →
    List.Chain (fun a b => a ≤ b) start offs → offs.getLastD start = c.length →
    c.drop start = (subBlocksFrom [c] start ids offs).flatMap (fun sb => sb.2.getD 0 []) := by
  intro ids
  induction ids with
  | nil =>
    intro offs start h _ hlast
    have : offs = [] := List.length_eq_zero.mp h.symm
    subst this
    simp only [List.getLastD_nil] at hlast
    simp [subBlocksFrom, hlast]
  | cons id ids ih =>
    intro offs start h hchain hlast
    cases offs with
    | nil => simp at h
    | cons off offs =>
      have h' : ids.length = offs.length := by simpa using h
      rw [List.chain_cons] at hchain
      rw [List.getLastD_cons] at hlast
      simp only [subBlocksFrom, List.map_cons, List.map_nil, List.flatMap_cons]
      rw [← ih offs off h' hchain.2 hlast]
      have hd : c.drop off = (c.drop start).drop (off - start) := by
        rw [List.drop_drop]
        congr 1
        omega
      rw [hd]
      simp

theorem chain_zero_of_sorted (l : List Nat) (h : List.Sorted (fun a b => a ≤ b) l) :
    List.Chain (fun a b => a ≤ b) 0 l := by
  rw [List.chain_iff_pairwise, List.pairwise_cons]
  exact ⟨fun a _ => Nat.zero_le a, h⟩

/-- C2 (as stated, fails): for the hashes `x/a`, `x/a` (equal lengths, offsets `1`, `2`, two
rows) `testSelfDeduplicate` raises `LOGICAL_ERROR` instead of returning row `0`: the duplicated
hash is looked up under its file name `a`, which is no id of the partition. -/
theorem C2_counterexample_slash_in_hash :
    testSelfDeduplicate (fun m => m) [1, 2] [1, 2] ["x/a", "x/a"] =
        .error ErrorCode.LOGICAL_ERROR ∧
      firstOccurrenceRows [1, 2] [1, 2] ["x/a", "x/a"] = [1] := by
  refine ⟨rfl, by decide⟩

theorem testSelfDeduplicate_spec (visit : BlockIdMap → BlockIdMap)
    (hvisit : ∀ m, (visit m).Perm m) (data : List Int) (offsets : List Nat)
    (hashes : List String)
    (hlen : offsets.length = hashes.length)
    (hsorted : List.Sorted (fun a b => a ≤ b) offsets)
    (hlast : offsets.getLastD 0 = data.length)
    (hsize : data.length < sizeModulus)
    (hslash : ∀ h ∈ hashes, 1 < hashes.count h → '/' ∉ h.toList) :
    testSelfDeduplicate visit data offsets hashes =
      .ok (firstOccurrenceRows data offsets hashes) := by
  have hname : ∀ id, 1 < hashes.count id → filename id = id := by
    intro id hid
    exact filename_eq_self id (hslash id (List.count_pos_iff.mp (by omega)) hid)
  have hwf : (Partition.construct hashes
      ({ block := [data], offsets := offsets } : BlockWithPartition Int)).WellFormed := by
    refine ⟨hlen.symm, chain_zero_of_sorted offsets hsorted, hlast, ?_, hsize⟩
    intro col hcol
    simp only [Partition.construct, Partition.initBlockIDMap, List.mem_singleton] at hcol
    subst hcol
    rfl
  obtain ⟨b, q, hq, _, _, hrest⟩ := filterSelfDuplicate_spec visit hvisit
    (Partition.construct hashes
      ({ block := [data], offsets := offsets } : BlockWithPartition Int))
    rfl hlen.symm hname
  obtain ⟨hqwf, hsub⟩ := hrest hwf
  have hcols := filterSelfDuplicate_block_length visit _ q b hq
  simp only [Partition.construct, Partition.initBlockIDMap, List.length_singleton] at hcols
  obtain ⟨c, hc⟩ := List.length_eq_one.mp hcols
  unfold testSelfDeduplicate
  simp only
  rw [hq]
  simp only
  obtain ⟨hqlen, hqchain, hqlast, _, _⟩ := hqwf
  have hcol := column_eq_flatMap_subBlocks c q.block_id q.block_with_partition.offsets 0
    hqlen hqchain (by rw [hqlast, hc]; rfl)
  rw [hc]
  simp only [List.getD_cons_zero]
  rw [List.drop_zero] at hcol
  rw [hcol]
  unfold firstOccurrenceRows
  have hsub' : subBlocksFrom [c] 0 q.block_id q.block_with_partition.offsets =
      firstOccurrences Prod.fst [] (subBlocksFrom [data] 0 hashes offsets) := by
    rw [← hc]
    exact hsub
  rw [hsub']


/-- C2 (amended): for every data vector, and offsets and hashes vectors of equal length
(offsets non-decreasing, last offset = number of rows, a `size_t`) in which no hash that occurs
more than once contains `/`, `testSelfDeduplicate` returns exactly the rows of the sub-blocks
that are the first occurrence of their hash, concatenated in the original order; offsets
`[2,4,6]` with hashes `[H1,H1,H2]` give rows `0`-`1` and `4`-`5`. -/
theorem C2_testSelfDeduplicate_rows (visit : BlockIdMap → BlockIdMap)
    (hvisit : ∀ m, (visit m).Perm m) (data : List Int) (offsets : List Nat)
    (hashes : List String)
    (hlen : offsets.length = hashes.length)
    (hsorted : List.Sorted (fun a b => a ≤ b) offsets)
    (hlast : offsets.getLastD 0 = data.length)
    (hsize : data.length < sizeModulus)
    (hslash : ∀ h ∈ hashes, 1 < hashes.count h → '/' ∉ h.toList) :
    testSelfDeduplicate visit data offsets hashes =
        .ok (firstOccurrenceRows data offsets hashes) ∧
      ∀ a0 a1 a2 a3 a4 a5 : Int,
        testSelfDeduplicate visit [a0, a1, a2, a3, a4, a5] [2, 4, 6] ["H1", "H1", "H2"] =
          .ok [a0, a1, a4, a5] := by
  refine ⟨testSelfDeduplicate_spec visit hvisit data offsets hashes hlen hsorted hlast hsize
    hslash, ?_⟩
  intro a0 a1 a2 a3 a4 a5
  have hsix : ([a0, a1, a2, a3, a4, a5] : List Int).length < sizeModulus := by
    simp [sizeModulus]
  rw [testSelfDeduplicate_spec visit hvisit [a0, a1, a2, a3, a4, a5] [2, 4, 6]
    ["H1", "H1", "H2"] rfl (by simp) rfl hsix (by decide)]
  simp [firstOccurrenceRows, subBlocksFrom, firstOccurrences]

/-- C2, witness: the example of the specification. -/
theorem C2_testSelfDeduplicate_rows_witness :
    testSelfDeduplicate List.reverse [11, 12, 13, 14, 15, 16] [2, 4, 6] ["H1", "H1", "H2"] =
      .ok [11, 12, 15, 16] :=
  (C2_testSelfDeduplicate_rows List.reverse (fun m => List.reverse_perm m)
    [11, 12, 13, 14, 15, 16] [2, 4, 6] ["H1", "H1", "H2"] rfl (by decide) rfl
    (by decide) (by decide)).1

/-! ## What `filterBlockDuplicate(conflicts, false)` returns -/

theorem filterBlockDuplicate_conflicts_spec {α : Type} (p : Partition α)
    (hmap : p.block_id_to_offset_idx = initBlockIDMapFrom p.block_id 0 [])
    (hwf : p.WellFormed) (conflicts : List String)
    (hknown : ∀ path ∈ conflicts, filename path ∈ p.block_id)
    (hnodup : (conflicts.map filename).Nodup) :
    ∃ q : Partition α, p.filterBlockDuplicate conflicts false = .ok q ∧
      q.WellFormed ∧ q.block_id_to_offset_idx = initBlockIDMapFrom q.block_id 0 [] ∧
      q.block_id = p.block_id.filter (fun id => decide (id ∉ conflicts.map filename)) ∧
      q.subBlocks = p.subBlocks.filter (fun sb => decide (sb.1 ∉ conflicts.map filename)) := by
  obtain ⟨q, hq, hids, hqmap, hqwf, hsub⟩ := filterBlockDuplicate_wf p conflicts false hmap hwf
    hknown hnodup
  have hkeys : p.subBlocks.map Prod.fst = p.block_id :=
    subBlocksFrom_keys p.block_with_partition.block p.block_id
      p.block_with_partition.offsets 0 hwf.1
  refine ⟨q, hq, hqwf, hqmap, ?_, ?_⟩
  · rw [hids, removalFlags_conflicts]
    have := keepBy_map_flags (fun id : String => id)
      (fun id => decide (id ∈ conflicts.map filename)) p.block_id
    simp only [List.map_id'] at this
    rw [this]
    apply List.filter_congr
    intro x _
    by_cases hx : x ∈ conflicts.map filename <;> simp [hx]
  · rw [hsub, removalFlags_conflicts, ← hkeys]
    rw [keepBy_map_flags Prod.fst (fun id => decide (id ∈ conflicts.map filename)) p.subBlocks]
    apply List.filter_congr
    intro x _
    by_cases hx : x.1 ∈ conflicts.map filename <;> simp [hx]

/-! ## Claims on the conflict filter -/

/-- C3 (as stated, fails): the ids `a`, `b` with the conflict paths `.../a`, `.../a`, `.../b`,
whose file names `a`, `a`, `b` are all ids of the partition: the sorted indexes are `0, 0, 1`,
the iterator stays on the second `0`, and the sub-block with id `b`, the file name of a
conflict path, is left in the partition. -/
theorem C3_counterexample_repeated_conflict :
    (((Partition.construct ["a", "b"]
        { block := [[10, 20]], offsets := [1, 2] } : Partition Int).filterBlockDuplicate
        ["/t/async_blocks/a", "/t/async_blocks/a", "/t/async_blocks/b"] false).toOption.map
        (fun q => q.block_id)) = some ["b"] ∧
      ["/t/async_blocks/a", "/t/async_blocks/a", "/t/async_blocks/b"].map filename =
        ["a", "a", "b"] := by
  refine ⟨rfl, by decide⟩

/-- C3 (amended): for every well-formed async partition and every list of conflict paths whose
file names are ids of the partition and pairwise different, `filterBlockDuplicate(conflicts,
false)` returns; afterwards no sub-block has an id that is the file name of a conflict path,
and the sub-blocks are exactly those of before whose id is not among these names, with their
rows and in the original order. -/
theorem C3_filterBlockDuplicate_conflicts {α : Type} (p : Partition α)
    (hmap : p.block_id_to_offset_idx = initBlockIDMapFrom p.block_id 0 [])
    (hwf : p.WellFormed) (conflicts : List String)
    (hknown : ∀ path ∈ conflicts, filename path ∈ p.block_id)
    (hnodup : (conflicts.map filename).Nodup) :
    ∃ q : Partition α, p.filterBlockDuplicate conflicts false = .ok q ∧
      (∀ id ∈ q.block_id, id ∉ conflicts.map filename) ∧
      q.block_id = p.block_id.filter (fun id => decide (id ∉ conflicts.map filename)) ∧
      q.subBlocks = p.subBlocks.filter (fun sb => decide (sb.1 ∉ conflicts.map filename)) := by
  obtain ⟨q, hq, _, _, hids, hsub⟩ :=
    filterBlockDuplicate_conflicts_spec p hmap hwf conflicts hknown hnodup
  refine ⟨q, hq, ?_, hids, hsub⟩
  intro id hid
  rw [hids, List.mem_filter] at hid
  simpa using hid.2

/-- C3, witness: ids `a`, `b`, `c` with two rows each, conflicts on `c` and `a`. -/
theorem C3_filterBlockDuplicate_conflicts_witness :
    ∃ q : Partition Int,
      (Partition.construct ["a", "b", "c"]
        { block := [[1, 2, 3, 4, 5, 6]], offsets := [2, 4, 6] } :
          Partition Int).filterBlockDuplicate ["/t/async_blocks/c", "a"] false = .ok q ∧
      (∀ id ∈ q.block_id, id ∉ ["/t/async_blocks/c", "a"].map filename) ∧
      q.block_id = ["a", "b", "c"].filter
        (fun id => decide (id ∉ ["/t/async_blocks/c", "a"].map filename)) ∧
      q.subBlocks = (Partition.construct ["a", "b", "c"]
        { block := [[1, 2, 3, 4, 5, 6]], offsets := [2, 4, 6] } : Partition Int).subBlocks.filter
        (fun sb => decide (sb.1 ∉ ["/t/async_blocks/c", "a"].map filename)) :=
  C3_filterBlockDuplicate_conflicts
    (Partition.construct ["a", "b", "c"]
      { block := [[1, 2, 3, 4, 5, 6]], offsets := [2, 4, 6] } : Partition Int)
    rfl (by
      refine ⟨rfl, ?_, rfl, by decide, by decide⟩
      simp [Partition.construct, Partition.initBlockIDMap])
    ["/t/async_blocks/c", "a"] (by decide) (by decide)


/-! ## The conflict-resolution loop of the asynchronous sink -/

/-- C10: a sink constructed with `majority_quorum = false` and `quorum_size = 1` has the same
quorum members as one constructed with `quorum_size = 0`, `isQuorumEnabled()` is false for it
and `getQuorumSize(n) = 0` for every `n`; in general `isQuorumEnabled()` holds iff
`majority_quorum` is set or `quorum_size > 1`. -/
theorem C10_quorum_one_is_disabled :
    (∀ quorum_parallel : Bool,
      QuorumConfig.construct 1 quorum_parallel false =
          QuorumConfig.construct 0 quorum_parallel false ∧
        (QuorumConfig.construct 1 quorum_parallel false).isQuorumEnabled = false ∧
        ∀ n : Nat, (QuorumConfig.construct 1 quorum_parallel false).getQuorumSize n = 0) ∧
      ∀ (quorum_size : Nat) (quorum_parallel majority_quorum : Bool),
        (QuorumConfig.construct quorum_size quorum_parallel majority_quorum).isQuorumEnabled =
            true ↔
          (majority_quorum = true ∨ quorum_size > 1) := by
  constructor
  · intro quorum_parallel
    refine ⟨rfl, rfl, fun n => rfl⟩
  · intro quorum_size quorum_parallel majority_quorum
    cases majority_quorum
    · by_cases h1 : quorum_size = 1
      · subst h1
        simp [QuorumConfig.construct, QuorumConfig.isQuorumEnabled]
      · simp [QuorumConfig.construct, QuorumConfig.isQuorumEnabled, h1]
    · simp [QuorumConfig.construct, QuorumConfig.isQuorumEnabled]


/-! ## Claims on `CacheBase::getOrSet` -/

theorem tokenFind_append_self {K : Type} [DecidableEq K] (m : List (K × Nat)) (k : K) (a : Nat)
    (h : tokenFind m k = none) : tokenFind (m ++ [(k, a)]) k = some a := by
  induction m with
  | nil => simp [tokenFind]
  | cons e m ih =>
    obtain ⟨k', b⟩ := e
    by_cases hk : k' = k
    · simp [tokenFind, hk] at h
    · simp only [tokenFind, hk, if_false] at h
      simp [tokenFind, hk, ih h]

theorem tokenErase_append_self {K : Type} [DecidableEq K] (m : List (K × Nat)) (k : K) (a : Nat)
    (h : tokenFind m k = none) : tokenErase (m ++ [(k, a)]) k = m := by
  induction m with
  | nil => simp [tokenErase]
  | cons e m ih =>
    obtain ⟨k', b⟩ := e
    by_cases hk : k' = k
    · simp [tokenFind, hk] at h
    · simp only [tokenFind, hk, if_false] at h
      have hrec := ih h
      simp only [tokenErase, List.cons_append] at hrec ⊢
      have hd : decide ((k', b).1 ≠ k) = true := by simpa using hk
      rw [List.filter_cons, if_pos hd, hrec]

/-- What `getOrSet` leaves when the policy misses, no token is registered for the key, and
`load_func` returns `r` without having changed the cache. -/
theorem getOrSet_fresh {P K M E : Type} [DecidableEq K] (policy : CachePolicy P K M)
    (c : CacheBase P K M) (key : K)
    (load_func : CacheBase P K M → Except E (Option M) × CacheBase P K M) (pol1 : P)
    (hmiss : policy.get c.cache_policy key = (none, pol1))
    (hsingle : tokenFind c.insert_tokens key = none)
    (r : Except E (Option M)) (hload : ∀ c', load_func c' = (r, c')) :
    (CacheBase.getOrSet policy c key load_func).load_calls = 1 ∧
    (CacheBase.getOrSet policy c key load_func).result =
      (match r with
        | .ok value => .ok (value, true)
        | .error e => .error e) ∧
    (CacheBase.getOrSet policy c key load_func).cache.cache_policy =
      (match r with
        | .ok value => policy.set pol1 key value
        | .error _ => pol1) ∧
    (CacheBase.getOrSet policy c key load_func).cache.misses = c.misses + 1 ∧
    (CacheBase.getOrSet policy c key load_func).cache.hits = c.hits ∧
    (CacheBase.getOrSet policy c key load_func).cache.insert_tokens = c.insert_tokens := by
  have hfind := tokenFind_append_self c.insert_tokens key c.next_token hsingle
  have herase := tokenErase_append_self c.insert_tokens key c.next_token hsingle
  have hsub : sizeSub 1 1 = 0 := by decide
  cases r with
  | error e =>
    simp [CacheBase.getOrSet, hmiss, CacheBase.acquireToken, hsingle, hload,
      CacheBase.withToken, CacheBase.releaseHolder, CacheBase.cleanup, herase, hsub]
  | ok value =>
    simp [CacheBase.getOrSet, hmiss, CacheBase.acquireToken, hsingle, hload,
      CacheBase.withToken, CacheBase.releaseHolder, CacheBase.cleanup, herase, hfind]

theorem getOrSet_fresh_invokes {P K M E : Type} [DecidableEq K] (policy : CachePolicy P K M)
    (c : CacheBase P K M) (key : K)
    (g : CacheBase P K M → Except E (Option M) × CacheBase P K M) (pol1 : P)
    (hmiss : policy.get c.cache_policy key = (none, pol1))
    (hsingle : tokenFind c.insert_tokens key = none) :
    (CacheBase.getOrSet policy c key g).load_calls = 1 := by
  simp only [CacheBase.getOrSet, hmiss, CacheBase.acquireToken, hsingle, CacheBase.withToken,
    if_true]
  split <;> rfl

/-- C5 (as stated, fails): key `7` is absent from the cache, but another caller has registered
an insert token for it (reference count `1`) and has not yet run; `load_func` raises, the
exception reaches the caller, and the insert token of key `7` is still in `insert_tokens`
(the holder destructor only removes it when the reference count drops to `0`). -/
theorem C5_counterexample_token_held_by_other_caller :
    (listPolicy.get emptyCache.cache_policy 7).1 = none ∧
      (CacheBase.getOrSet listPolicy
        { emptyCache with
          insert_tokens := [(7, 0)]
          tokens := fun _ => { cleaned_up := false, value := none, refcount := 1 }
          next_token := 1 }
        7 (fun c => ((.error "load failed" : Except String (Option Nat)), c))).result =
        .error "load failed" ∧
      tokenFind (CacheBase.getOrSet listPolicy
        { emptyCache with
          insert_tokens := [(7, 0)]
          tokens := fun _ => { cleaned_up := false, value := none, refcount := 1 }
          next_token := 1 }
        7 (fun c => ((.error "load failed" : Except String (Option Nat)), c))).cache.insert_tokens
        7 = some 0 := by
  refine ⟨rfl, rfl, rfl⟩

/-- C5 (amended): for every key `k` absent from the cache for which no other caller holds an
insert token (none is registered for `k`), if `load_func` raises inside `getOrSet(k, load_func)`
(without having changed the cache itself), the exception reaches the caller after one
invocation of `load_func`, the cache policy is as its `get` left it (no value is stored for
`k`), `insert_tokens` has no token for `k`, and a subsequent `getOrSet(k, g)`, the policy still
missing `k`, invokes `g` anew. -/
theorem C5_getOrSet_load_raises {P K M E : Type} [DecidableEq K] (policy : CachePolicy P K M)
    (c : CacheBase P K M) (key : K)
    (load_func g : CacheBase P K M → Except E (Option M) × CacheBase P K M) (pol1 : P) (e : E)
    (hmiss : policy.get c.cache_policy key = (none, pol1))
    (hsingle : tokenFind c.insert_tokens key = none)
    (hload : ∀ c', load_func c' = (.error e, c'))
    (hmiss2 : (policy.get pol1 key).1 = none) :
    (CacheBase.getOrSet policy c key load_func).result = .error e ∧
    (CacheBase.getOrSet policy c key load_func).load_calls = 1 ∧
    (CacheBase.getOrSet policy c key load_func).cache.cache_policy = pol1 ∧
    tokenFind (CacheBase.getOrSet policy c key load_func).cache.insert_tokens key = none ∧
    (CacheBase.getOrSet policy (CacheBase.getOrSet policy c key load_func).cache key
      g).load_calls = 1 := by
  obtain ⟨h1, h2, h3, _, _, h6⟩ :=
    getOrSet_fresh policy c key load_func pol1 hmiss hsingle (.error e) hload
  refine ⟨h2, h1, h3, by rw [h6]; exact hsingle, ?_⟩
  apply getOrSet_fresh_invokes policy _ key g (policy.get pol1 key).2
  · rw [h3]
    exact Prod.ext hmiss2 rfl
  · rw [h6]; exact hsingle

/-- C5, witness: the empty cache, key `7`, a `load_func` that raises, then one that returns. -/
theorem C5_getOrSet_load_raises_witness :
    (CacheBase.getOrSet listPolicy emptyCache 7
      (fun c => ((.error "load failed" : Except String (Option Nat)), c))).result =
        .error "load failed" ∧
    (CacheBase.getOrSet listPolicy emptyCache 7
      (fun c => ((.error "load failed" : Except String (Option Nat)), c))).load_calls = 1 ∧
    (CacheBase.getOrSet listPolicy emptyCache 7
      (fun c => ((.error "load failed" : Except String (Option Nat)), c))).cache.cache_policy
        = [] ∧
    tokenFind (CacheBase.getOrSet listPolicy emptyCache 7
      (fun c => ((.error "load failed" : Except String (Option Nat)), c))).cache.insert_tokens
        7 = none ∧
    (CacheBase.getOrSet listPolicy (CacheBase.getOrSet listPolicy emptyCache 7
      (fun c => ((.error "load failed" : Except String (Option Nat)), c))).cache 7
      (fun c => ((.ok (some 42) : Except String (Option Nat)), c))).load_calls = 1 :=
  C5_getOrSet_load_raises listPolicy emptyCache 7
    (fun c => ((.error "load failed" : Except String (Option Nat)), c))
    (fun c => ((.ok (some 42) : Except String (Option Nat)), c)) [] "load failed"
    rfl rfl (fun _ => rfl) rfl

/-- C6: for a single caller (no insert token is registered for `k`) and every key `k` for which
the policy reports a miss, `getOrSet(k, load_func)` with a `load_func` that returns `value`
(without changing the cache itself) invokes `load_func` exactly once, passes `(k, value)` to the
`set` of the cache policy, returns `(value, true)`, increments `misses` by one (`hits` stays),
and leaves `insert_tokens` as it was, without an entry for `k`. -/
theorem C6_getOrSet_miss_builds_once {P K M E : Type} [DecidableEq K]
    (policy : CachePolicy P K M) (c : CacheBase P K M) (key : K)
    (load_func : CacheBase P K M → Except E (Option M) × CacheBase P K M) (pol1 : P)
    (value : Option M)
    (hmiss : policy.get c.cache_policy key = (none, pol1))
    (hsingle : tokenFind c.insert_tokens key = none)
    (hload : ∀ c', load_func c' = (.ok value, c')) :
    (CacheBase.getOrSet policy c key load_func).load_calls = 1 ∧
    (CacheBase.getOrSet policy c key load_func).cache.cache_policy =
      policy.set pol1 key value ∧
    (CacheBase.getOrSet policy c key load_func).result = .ok (value, true) ∧
    (CacheBase.getOrSet policy c key load_func).cache.misses = c.misses + 1 ∧
    (CacheBase.getOrSet policy c key load_func).cache.hits = c.hits ∧
    (CacheBase.getOrSet policy c key load_func).cache.insert_tokens = c.insert_tokens ∧
    tokenFind (CacheBase.getOrSet policy c key load_func).cache.insert_tokens key = none := by
  obtain ⟨h1, h2, h3, h4, h5, h6⟩ :=
    getOrSet_fresh policy c key load_func pol1 hmiss hsingle (.ok value) hload
  exact ⟨h1, h3, h2, h4, h5, h6, by rw [h6]; exact hsingle⟩

/-- C6, witness: the empty cache, key `7`, a `load_func` that returns `42`. -/
theorem C6_getOrSet_miss_builds_once_witness :
    (CacheBase.getOrSet listPolicy emptyCache 7
      (fun c => ((.ok (some 42) : Except String (Option Nat)), c))).load_calls = 1 ∧
    (CacheBase.getOrSet listPolicy emptyCache 7
      (fun c => ((.ok (some 42) : Except String (Option Nat)), c))).cache.cache_policy =
      [(7, some 42)] ∧
    (CacheBase.getOrSet listPolicy emptyCache 7
      (fun c => ((.ok (some 42) : Except String (Option Nat)), c))).result =
      .ok (some 42, true) ∧
    (CacheBase.getOrSet listPolicy emptyCache 7
      (fun c => ((.ok (some 42) : Except String (Option Nat)), c))).cache.misses = 0 + 1 ∧
    (CacheBase.getOrSet listPolicy emptyCache 7
      (fun c => ((.ok (some 42) : Except String (Option Nat)), c))).cache.hits = 0 ∧
    (CacheBase.getOrSet listPolicy emptyCache 7
      (fun c => ((.ok (some 42) : Except String (Option Nat)), c))).cache.insert_tokens = [] ∧
    tokenFind (CacheBase.getOrSet listPolicy emptyCache 7
      (fun c => ((.ok (some 42) : Except String (Option Nat)), c))).cache.insert_tokens 7 =
      none :=
  C6_getOrSet_miss_builds_once listPolicy emptyCache 7
    (fun c => ((.ok (some 42) : Except String (Option Nat)), c)) [] (some 42)
    rfl rfl (fun _ => rfl)

/-- C7: for every key `k` for which the policy holds a value `v`, `getOrSet(k, load_func)`
returns `(v, false)` without invoking `load_func` (the outcome is the same for every other
`load_func`), increments `hits` by exactly one, and leaves `misses` and `insert_tokens`
unchanged. -/
theorem C7_getOrSet_hit {P K M E : Type} [DecidableEq K] (policy : CachePolicy P K M)
    (c : CacheBase P K M) (key : K)
    (load_func : CacheBase P K M → Except E (Option M) × CacheBase P K M) (v : M) (pol1 : P)
    (hhit : policy.get c.cache_policy key = (some v, pol1)) :
    (CacheBase.getOrSet policy c key load_func).result = .ok (some v, false) ∧
    (CacheBase.getOrSet policy c key load_func).load_calls = 0 ∧
    (∀ g : CacheBase P K M → Except E (Option M) × CacheBase P K M,
      CacheBase.getOrSet policy c key g = CacheBase.getOrSet policy c key load_func) ∧
    (CacheBase.getOrSet policy c key load_func).cache.hits = c.hits + 1 ∧
    (CacheBase.getOrSet policy c key load_func).cache.misses = c.misses ∧
    (CacheBase.getOrSet policy c key load_func).cache.insert_tokens = c.insert_tokens := by
  simp [CacheBase.getOrSet, hhit]

/-- C7, witness: a cache holding `42` for key `7`, two hits and one miss counted so far. -/
theorem C7_getOrSet_hit_witness :
    (CacheBase.getOrSet listPolicy
      { emptyCache with cache_policy := [(7, some 42)], hits := 2, misses := 1 } 7
      (fun c => ((.error "never called" : Except String (Option Nat)), c))).result =
        .ok (some 42, false) ∧
    (CacheBase.getOrSet listPolicy
      { emptyCache with cache_policy := [(7, some 42)], hits := 2, misses := 1 } 7
      (fun c => ((.error "never called" : Except String (Option Nat)), c))).cache.hits = 3 :=
  ⟨(C7_getOrSet_hit listPolicy
      { emptyCache with cache_policy := [(7, some 42)], hits := 2, misses := 1 } 7
      (fun c => ((.error "never called" : Except String (Option Nat)), c)) 42
      [(7, some 42)] rfl).1,
    (C7_getOrSet_hit listPolicy
      { emptyCache with cache_policy := [(7, some 42)], hits := 2, misses := 1 } 7
      (fun c => ((.error "never called" : Except String (Option Nat)), c)) 42
      [(7, some 42)] rfl).2.2.2.1⟩

/-- C9: the policy misses `k` and the insert token acquired for `k` carries no value, so
`load_func` is invoked; if, when it returns `value`, `insert_tokens` no longer maps `k` to that
token (`reset()` ran during the build, for instance called by `load_func` itself),
`getOrSet(k, load_func)` still returns the built value, with flag `false`, and the cache policy
is left as `load_func` left it: the value is not inserted. -/
theorem C9_getOrSet_token_replaced {P K M E : Type} [DecidableEq K]
    (policy : CachePolicy P K M) (c : CacheBase P K M) (key : K)
    (load_func : CacheBase P K M → Except E (Option M) × CacheBase P K M) (pol1 : P)
    (value : Option M) (c2 : CacheBase P K M)
    (hmiss : policy.get c.cache_policy key = (none, pol1))
    (hval : ((CacheBase.acquireToken { c with cache_policy := pol1 } key).2.tokens
      (CacheBase.acquireToken { c with cache_policy := pol1 } key).1).value = none)
    (hload : load_func
      { (CacheBase.acquireToken { c with cache_policy := pol1 } key).2 with
        misses := (CacheBase.acquireToken { c with cache_policy := pol1 } key).2.misses + 1 } =
      (.ok value, c2))
    (hgone : tokenFind c2.insert_tokens key ≠
      some (CacheBase.acquireToken { c with cache_policy := pol1 } key).1) :
    (CacheBase.getOrSet policy c key load_func).result = .ok (value, false) ∧
    (CacheBase.getOrSet policy c key load_func).load_calls = 1 ∧
    (CacheBase.getOrSet policy c key load_func).cache.cache_policy = c2.cache_policy := by
  have hcp : ∀ (d : CacheBase P K M) (a : Nat) (b : Bool),
      (CacheBase.releaseHolder d key a b).cache_policy = d.cache_policy := by
    intro d a b
    unfold CacheBase.releaseHolder
    split
    · rfl
    · split
      · rfl
      · simp only
        split <;> rfl
  unfold CacheBase.getOrSet
  rw [hmiss]
  simp only
  generalize CacheBase.acquireToken { c with cache_policy := pol1 } key = acq
    at hval hload hgone ⊢
  obtain ⟨tok, c1⟩ := acq
  simp only at hval hload hgone ⊢
  rw [hval]
  simp only
  rw [hload]
  simp only
  have hfalse : decide (tokenFind (c2.withToken tok
      (fun t => { t with value := value })).insert_tokens key = some tok) = false := by
    simpa [CacheBase.withToken] using hgone
  rw [hfalse]
  simp only [hcp, Bool.false_eq_true, if_false]
  cases hcl : (c2.tokens tok).cleaned_up <;>
    simp [CacheBase.withToken, CacheBase.cleanup, hcl]

/-- C9, witness: the empty cache, key `7`, a `load_func` that calls `reset()` and returns
`42`. -/
theorem C9_getOrSet_token_replaced_witness :
    (CacheBase.getOrSet listPolicy emptyCache 7
      (fun c => ((.ok (some 42) : Except String (Option Nat)),
        CacheBase.reset listPolicy c))).result = .ok (some 42, false) ∧
    (CacheBase.getOrSet listPolicy emptyCache 7
      (fun c => ((.ok (some 42) : Except String (Option Nat)),
        CacheBase.reset listPolicy c))).load_calls = 1 ∧
    (CacheBase.getOrSet listPolicy emptyCache 7
      (fun c => ((.ok (some 42) : Except String (Option Nat)),
        CacheBase.reset listPolicy c))).cache.cache_policy = [] :=
  C9_getOrSet_token_replaced listPolicy emptyCache 7
    (fun c => ((.ok (some 42) : Except String (Option Nat)), CacheBase.reset listPolicy c))
    [] (some 42) _ rfl rfl rfl (by decide)

/-! ## Majority quorum -/

/-- C11: in majority mode (`majority_quorum = true`) quorum is enabled for every cluster size
`N`, the quorum size is `N / 2 + 1`, which is strictly more than half of `N` and, for a
cluster of at least one replica (`N + 1` replicas), at most the cluster size; for one replica
the quorum size is 1 and quorum stays enabled. -/
theorem C11_majority_quorum_size (quorum_size : Nat) (quorum_parallel : Bool) (N : Nat) :
    (QuorumConfig.construct quorum_size quorum_parallel true).isQuorumEnabled = true ∧
    (QuorumConfig.construct quorum_size quorum_parallel true).getQuorumSize N = N / 2 + 1 ∧
    N < 2 * (QuorumConfig.construct quorum_size quorum_parallel true).getQuorumSize N ∧
    (QuorumConfig.construct quorum_size quorum_parallel true).getQuorumSize (N + 1) ≤ N + 1 ∧
    (QuorumConfig.construct quorum_size quorum_parallel true).getQuorumSize 1 = 1 := by
  have hen : (QuorumConfig.construct quorum_size quorum_parallel true).isQuorumEnabled = true := by
    simp [QuorumConfig.construct, QuorumConfig.isQuorumEnabled]
  have hsz : ∀ n, (QuorumConfig.construct quorum_size quorum_parallel true).getQuorumSize n
      = n / 2 + 1 := by
    intro n
    simp [QuorumConfig.construct, QuorumConfig.getQuorumSize, QuorumConfig.isQuorumEnabled]
  refine ⟨hen, hsz N, ?_, ?_, ?_⟩
  · rw [hsz]; omega
  · rw [hsz]; omega
  · rw [hsz]

/-! ## Quorum precondition -/

/-- The counting loop adds one to `active_replicas` for every `ZOK` response, whatever the
other responses are. -/
theorem countActive_foldl_snd (cls : ErrorClasses) (f : String → Coordination.Error)
    (paths : List String) (acc : Coordination.Error × Nat) :
    ((paths.map f).foldl (countActiveStep cls) acc).2
      = acc.2 + (paths.filter (fun path => decide (f path = .ZOK))).length := by
  induction paths generalizing acc with
  | nil => simp
  | cons p ps ih =>
    simp only [List.map_cons, List.foldl_cons]
    rw [ih]
    by_cases hp : f p = .ZOK
    · simp [countActiveStep, hp, List.filter_cons]; omega
    · by_cases hh : cls.isHardwareError (f p) = true
      · simp [countActiveStep, hp, hh, List.filter_cons]
      · simp [countActiveStep, hp, hh, List.filter_cons]

/-- Without a hardware error among the responses the loop keeps `keeper_error`. -/
theorem countActive_foldl_fst (cls : ErrorClasses) (f : String → Coordination.Error)
    (paths : List String) (acc : Coordination.Error × Nat)
    (hhardware : ∀ path ∈ paths, cls.isHardwareError (f path) = false) :
    ((paths.map f).foldl (countActiveStep cls) acc).1 = acc.1 := by
  induction paths generalizing acc with
  | nil => simp
  | cons p ps ih =>
    simp only [List.map_cons, List.foldl_cons]
    rw [ih _ (fun path hpath => hhardware path (List.mem_cons_of_mem _ hpath))]
    have hp := hhardware p (List.mem_cons_self _ _)
    by_cases hz : f p = .ZOK
    · simp [countActiveStep, hz]
    · simp [countActiveStep, hz, hp]

/-- The value of `active_replicas` after the loop is `alive + 1`. -/
theorem countActiveReplicas_snd (cls : ErrorClasses) (storage : StorageNames)
    (zookeeper : QuorumCheckAnswers) (replicas : List String) :
    (countActiveReplicas cls ((existsPaths storage replicas).map zookeeper.exists_error)).2
      = aliveOthers storage zookeeper replicas + 1 := by
  rw [countActiveReplicas, countActive_foldl_snd, aliveOthers]
  omega

/-- Counterexample to C12 as stated: three replicas, quorum size 2, one of the two other
replicas alive and no hardware error, so `alive = 1 < 2 = Q`; the check passes (this replica
is counted as alive) and the call returns the number of replicas. -/
theorem C12_counterexample_alive_one_below_quorum :
    (QuorumConfig.construct 2 false false).isQuorumEnabled = true ∧
    (QuorumConfig.construct 2 false false).getQuorumSize 3 = 2 ∧
    aliveOthers ⟨"/t", "/t/replicas/r1", "r1"⟩
      ⟨.ok ["r1", "r2", "r3"],
        fun path => if path = "/t/replicas/r2/is_active" then .ZOK else .ZNONODE,
        ⟨.ZOK, 5⟩, ⟨.ZOK, 7⟩, .ok none⟩ ["r1", "r2", "r3"] = 1 ∧
    (existsPaths ⟨"/t", "/t/replicas/r1", "r1"⟩ ["r1", "r2", "r3"]).map
      (fun path => keeperErrorClasses.isHardwareError
        (if path = "/t/replicas/r2/is_active" then .ZOK else .ZNONODE)) = [false, false] ∧
    checkQuorumPrecondition keeperErrorClasses (QuorumConfig.construct 2 false false)
      ⟨"/t", "/t/replicas/r1", "r1"⟩
      ⟨.ok ["r1", "r2", "r3"],
        fun path => if path = "/t/replicas/r2/is_active" then .ZOK else .ZNONODE,
        ⟨.ZOK, 5⟩, ⟨.ZOK, 7⟩, .ok none⟩ ⟨"", 0, 0⟩
      = .ok (3, ⟨"/t/quorum/status", 5, 7⟩) :=
  ⟨rfl, rfl, by decide, by decide, by rfl⟩

/-- C12 (amended): with quorum enabled, let `alive` be the number of replicas other than this
one whose `is_active` existence check succeeded and `Q` the quorum size; whenever
`alive + 1 < Q` (this replica is counted as alive) and no existence check returned a hardware
error, `checkQuorumPrecondition` fails with `TOO_FEW_LIVE_REPLICAS`. -/
theorem C12_too_few_live_replicas (cls : ErrorClasses) (s : QuorumConfig)
    (storage : StorageNames) (zookeeper : QuorumCheckAnswers) (quorum_info : QuorumInfo)
    (replicas : List String)
    (henabled : s.isQuorumEnabled = true)
    (hreplicas : zookeeper.replicas = .ok replicas)
    (halive : aliveOthers storage zookeeper replicas + 1 < s.getQuorumSize replicas.length)
    (hhardware : ∀ path ∈ existsPaths storage replicas,
      cls.isHardwareError (zookeeper.exists_error path) = false)
    (hzok : cls.isHardwareError .ZOK = false) :
    checkQuorumPrecondition cls s storage zookeeper quorum_info
      = .error (.exception .TOO_FEW_LIVE_REPLICAS) := by
  have hsnd := countActiveReplicas_snd cls storage zookeeper replicas
  have hfst : (countActiveReplicas cls
      ((existsPaths storage replicas).map zookeeper.exists_error)).1 = .ZOK := by
    rw [countActiveReplicas, countActive_foldl_fst cls _ _ _ hhardware]
  simp only [checkQuorumPrecondition, henabled, hreplicas, hsnd, hfst, hzok]
  simp [halive]

/-- Witness for C12: two replicas with required quorum 3, the other replica not alive. -/
theorem C12_too_few_live_replicas_witness :
    checkQuorumPrecondition keeperErrorClasses (QuorumConfig.construct 3 false false)
      ⟨"/t", "/t/replicas/r1", "r1"⟩
      ⟨.ok ["r1", "r2"], fun _ => .ZNONODE, ⟨.ZOK, 5⟩, ⟨.ZOK, 7⟩, .ok none⟩ ⟨"", 0, 0⟩
      = .error (.exception .TOO_FEW_LIVE_REPLICAS) :=
  C12_too_few_live_replicas keeperErrorClasses (QuorumConfig.construct 3 false false)
    ⟨"/t", "/t/replicas/r1", "r1"⟩
    ⟨.ok ["r1", "r2"], fun _ => .ZNONODE, ⟨.ZOK, 5⟩, ⟨.ZOK, 7⟩, .ok none⟩ ⟨"", 0, 0⟩
    ["r1", "r2"] rfl rfl (by decide) (by intro path _; rfl) rfl

/-- C13: with quorum enabled and enough live replicas (`Q ≤ alive + 1`),
`checkQuorumPrecondition` fails with `UNSATISFIED_QUORUM_FOR_PREVIOUS_WRITE` if and only if
`quorum_parallel` is false and the node `<zookeeper_path>/quorum/status` exists (`tryGet`
found it); in parallel mode the call never fails with that error, whatever `tryGet` would
answer. -/
theorem C13_unsatisfied_quorum_iff (cls : ErrorClasses) (s : QuorumConfig)
    (storage : StorageNames) (zookeeper : QuorumCheckAnswers) (quorum_info : QuorumInfo)
    (replicas : List String)
    (henabled : s.isQuorumEnabled = true)
    (hreplicas : zookeeper.replicas = .ok replicas)
    (henough : s.getQuorumSize replicas.length ≤ aliveOthers storage zookeeper replicas + 1) :
    (checkQuorumPrecondition cls s storage zookeeper quorum_info
        = .error (.exception .UNSATISFIED_QUORUM_FOR_PREVIOUS_WRITE)
      ↔ (s.quorum_parallel = false ∧ ∃ status, zookeeper.quorum_status = .ok (some status))) ∧
    (s.quorum_parallel = true →
      checkQuorumPrecondition cls s storage zookeeper quorum_info
        ≠ .error (.exception .UNSATISFIED_QUORUM_FOR_PREVIOUS_WRITE)) := by
  have hsnd := countActiveReplicas_snd cls storage zookeeper replicas
  have hnot : ¬ aliveOthers storage zookeeper replicas + 1 < s.getQuorumSize replicas.length := by
    omega
  cases hpar : s.quorum_parallel
  · rcases hq : zookeeper.quorum_status with e | status
    · simp [checkQuorumPrecondition, henabled, hreplicas, hsnd, hnot, hpar, hq]
    · cases status with
      | none =>
        simp only [checkQuorumPrecondition, henabled, hreplicas, hsnd, hnot, hpar, hq]
        by_cases hro : (zookeeper.is_active.error = .ZNONODE ∨ zookeeper.host.error = .ZNONODE)
        · simp [hro]
        · simp [hro]
      | some v =>
        simp [checkQuorumPrecondition, henabled, hreplicas, hsnd, hnot, hpar, hq]
  · simp only [checkQuorumPrecondition, henabled, hreplicas, hsnd, hnot, hpar]
    by_cases hro : (zookeeper.is_active.error = .ZNONODE ∨ zookeeper.host.error = .ZNONODE)
    · simp [hro]
    · simp [hro]

/-- Witness for C13: three replicas, quorum 2, one other replica alive, status node present
in sequential mode. -/
theorem C13_unsatisfied_quorum_iff_witness :
    checkQuorumPrecondition keeperErrorClasses (QuorumConfig.construct 2 false false)
      ⟨"/t", "/t/replicas/r1", "r1"⟩
      ⟨.ok ["r1", "r2", "r3"], fun _ => .ZOK, ⟨.ZOK, 5⟩, ⟨.ZOK, 7⟩, .ok (some "status")⟩
      ⟨"", 0, 0⟩
      = .error (.exception .UNSATISFIED_QUORUM_FOR_PREVIOUS_WRITE) :=
  (C13_unsatisfied_quorum_iff keeperErrorClasses (QuorumConfig.construct 2 false false)
    ⟨"/t", "/t/replicas/r1", "r1"⟩
    ⟨.ok ["r1", "r2", "r3"], fun _ => .ZOK, ⟨.ZOK, 5⟩, ⟨.ZOK, 7⟩, .ok (some "status")⟩
    ⟨"", 0, 0⟩ ["r1", "r2", "r3"] rfl rfl (by decide)).1.2 ⟨rfl, "status", rfl⟩

/-! ## Waiting for the quorum -/

/-- While the tracker node names this part and the watch fires, the loop of `waitForQuorum`
goes on to the next round. -/
theorem waitForQuorumLoop_fired (part_name : String) (before rest : List QuorumPoll)
    (hbefore : ∀ poll ∈ before, poll.node = .ok (some part_name) ∧ poll.fired = true) :
    waitForQuorumLoop part_name (before ++ rest) = waitForQuorumLoop part_name rest := by
  induction before with
  | nil => rfl
  | cons p ps ih =>
    have hp := hbefore p (List.mem_cons_self _ _)
    rw [List.cons_append, waitForQuorumLoop, hp.1]
    simp only [bne_self_eq_false, Bool.false_eq_true, if_false, hp.2, Bool.not_true]
    exact ih (fun poll hpoll => hbefore poll (List.mem_cons_of_mem _ hpoll))

/-- Counterexample to C20 as stated: the tracker node names this part and the watch does not
fire within the timeout; the call fails with `UNKNOWN_STATUS_OF_INSERT`, not with
`TIMEOUT_EXCEEDED`. -/
theorem C20_counterexample_timeout_is_rewrapped :
    waitForQuorum "all_0_0_0" 5 [⟨.ok (some "all_0_0_0"), false⟩] (.ok (some 5))
      = some (.error (.exception .UNKNOWN_STATUS_OF_INSERT)) ∧
    waitForQuorum "all_0_0_0" 5 [⟨.ok (some "all_0_0_0"), false⟩] (.ok (some 5))
      ≠ some (.error (.exception .TIMEOUT_EXCEEDED)) :=
  ⟨by rfl, by simp [waitForQuorum, waitForQuorumTry, waitForQuorumLoop]⟩

/-- C20 (amended): when, after any number of rounds in which the watch fired, the quorum
tracker node still exists for this part and the watch does not fire within
`quorum_timeout_ms`, the `try` block of `waitForQuorum` raises `TIMEOUT_EXCEEDED`, the
`catch (...)` handler replaces it, and `waitForQuorum` fails with `UNKNOWN_STATUS_OF_INSERT`;
no call of `waitForQuorum` fails with `TIMEOUT_EXCEEDED`. -/
theorem C20_waitForQuorum_timeout (part_name : String) (is_active_node_version : Int)
    (before after : List QuorumPoll) (poll : QuorumPoll)
    (is_active : Except Coordination.Error (Option Int))
    (hbefore : ∀ p ∈ before, p.node = .ok (some part_name) ∧ p.fired = true)
    (hnode : poll.node = .ok (some part_name))
    (htimeout : poll.fired = false) :
    waitForQuorumTry part_name is_active_node_version (before ++ poll :: after) is_active
      = some (.error (.exception .TIMEOUT_EXCEEDED)) ∧
    waitForQuorum part_name is_active_node_version (before ++ poll :: after) is_active
      = some (.error (.exception .UNKNOWN_STATUS_OF_INSERT)) ∧
    (∀ (name : String) (version : Int) (polls : List QuorumPoll)
        (active : Except Coordination.Error (Option Int)),
      waitForQuorum name version polls active ≠ some (.error (.exception .TIMEOUT_EXCEEDED))) := by
  have hloop : waitForQuorumLoop part_name (before ++ poll :: after)
      = some (.error (.exception .TIMEOUT_EXCEEDED)) := by
    rw [waitForQuorumLoop_fired part_name before _ hbefore, waitForQuorumLoop, hnode]
    simp [htimeout]
  have htry : waitForQuorumTry part_name is_active_node_version (before ++ poll :: after)
      is_active = some (.error (.exception .TIMEOUT_EXCEEDED)) := by
    unfold waitForQuorumTry
    rw [hloop]
  refine ⟨htry, ?_, ?_⟩
  · unfold waitForQuorum
    rw [htry]
  · intro name version polls active
    unfold waitForQuorum
    rcases waitForQuorumTry name version polls active with _ | r
    · simp
    · rcases r with f | u
      · simp
      · simp

/-- Witness for C20: one round in which the watch fired, then a round that times out. -/
theorem C20_waitForQuorum_timeout_witness :
    waitForQuorum "all_0_0_0" 5
      ([⟨.ok (some "all_0_0_0"), true⟩] ++ ⟨.ok (some "all_0_0_0"), false⟩ :: [])
      (.ok (some 5)) = some (.error (.exception .UNKNOWN_STATUS_OF_INSERT)) :=
  (C20_waitForQuorum_timeout "all_0_0_0" 5 [⟨.ok (some "all_0_0_0"), true⟩] []
    ⟨.ok (some "all_0_0_0"), false⟩ (.ok (some 5))
    (by intro p hp; simp at hp; subst hp; exact ⟨rfl, rfl⟩) rfl rfl).2.1

/-! ## The closure of `commitPart` up to the submission of the transaction -/

/-- When `commitRename` reaches the submission, it has appended the requests of the part and
made the two calls `renameTempPartAndAdd` and `lockSharedData`. -/
theorem commitRename_inr (fns : PartFunctions) (answers : CommitAnswers) (ctx ctx1 : SubmitContext)
    (st st1 : CommitState)
    (h : commitRename fns answers ctx st = .inr (ctx1, st1)) :
    ctx1 = { ctx with ops := ctx.ops ++ fns.getCommitPartOps st.part ctx.block_id_path } ∧
    st1 = (st.log (.renameTempPartAndAdd st.part.name)).log .lockSharedData := by
  unfold commitRename at h
  simp only at h
  split at h
  · simp at h
  · split at h <;> simp at h
  · split at h
    · simp at h
    · simp only [Sum.inr.injEq, Prod.mk.injEq] at h
      exact ⟨h.1.symm, h.2.symm⟩

/-- When `commitAllocate` goes on to the renaming, the flags and counters of the state are
unchanged, and without a lock `block_unlock_op_idx` keeps its initial value. -/
theorem commitAllocate_inr (s : QuorumConfig) (storage : StorageNames) (fns : PartFunctions)
    (is_attach : Bool) (block_id : BlockIDsType) (replicas_num : Nat)
    (block_id_path : BlockIDsType) (answers : CommitAnswers) (st st1 : CommitState)
    (ctx : SubmitContext)
    (hpath : block_id_path.async_insert = block_id.async_insert)
    (h : commitAllocate s storage fns is_attach block_id replicas_num block_id_path answers st
      = .inr (ctx, st1)) :
    ctx.deduplicate_block = !block_id.empty ∧
    ctx.block_id_path.async_insert = block_id.async_insert ∧
    (ctx.block_number_lock = none → ctx.block_unlock_op_idx = sizeModulus - 1) ∧
    (block_id.async_insert = true → ctx.block_id_path = block_id_path) ∧
    st1.loop_counter = st.loop_counter ∧
    st1.retries_ctl = st.retries_ctl ∧
    st1.part_committed_locally_but_zookeeper = st.part_committed_locally_but_zookeeper ∧
    st1.conflict_block_ids = st.conflict_block_ids := by
  unfold commitAllocate at h
  simp only at h
  split at h
  · simp at h
  · unfold commitWithLock at h
    simp only at h
    split at h
    · simp at h
    · simp only [Sum.inr.injEq, Prod.mk.injEq] at h
      obtain ⟨hc, hs⟩ := h
      subst hc; subst hs
      simp [CommitState.log, hpath]
  · unfold commitWithoutLock at h
    cases block_id with
    | many ids => simp at h
    | single id =>
      simp only at h
      split at h
      · simp at h
      · split at h
        · split at h
          · split at h <;> simp at h
          · simp at h
        · simp only [Sum.inr.injEq, Prod.mk.injEq] at h
          obtain ⟨hc, hs⟩ := h
          subst hc; subst hs
          simp [CommitState.log, BlockIDsType.async_insert]

/-- When `commitPrefilter` goes on, the paths are those of the submitted block ids and, for
the asynchronous sink, the cache reported no conflict. -/
theorem commitPrefilter_inr (storage : StorageNames) (block_id block_id_path : BlockIDsType)
    (answers : CommitAnswers) (st st1 : CommitState)
    (h : commitPrefilter storage block_id answers st = .inr (block_id_path, st1)) :
    block_id_path.async_insert = block_id.async_insert ∧
    (∀ ids, block_id = .many ids →
      block_id_path = .many (ids.map (fun single_block_id =>
        storage.zookeeper_path ++ "/async_blocks/" ++ single_block_id)) ∧
      st1.conflict_block_ids = []) ∧
    (block_id.async_insert = false → st1.conflict_block_ids = st.conflict_block_ids) ∧
    st1.loop_counter = st.loop_counter ∧
    st1.retries_ctl = st.retries_ctl ∧
    st1.part_committed_locally_but_zookeeper = st.part_committed_locally_but_zookeeper := by
  unfold commitPrefilter at h
  cases block_id with
  | many ids =>
    simp only at h
    split at h
    · simp at h
    · rename_i hempty
      simp only [Sum.inr.injEq, Prod.mk.injEq] at h
      obtain ⟨hp, hs⟩ := h
      subst hp; subst hs
      simp only [Bool.not_eq_true, Bool.not_eq_false_eq_eq_true, List.isEmpty_iff] at hempty
      simp [BlockIDsType.async_insert, hempty]
  | single id =>
    simp only at h
    split at h
    · simp only [Sum.inr.injEq, Prod.mk.injEq] at h
      obtain ⟨hp, hs⟩ := h
      subst hp; subst hs
      simp [BlockIDsType.async_insert]
    · simp only [Sum.inr.injEq, Prod.mk.injEq] at h
      obtain ⟨hp, hs⟩ := h
      subst hp; subst hs
      simp [BlockIDsType.async_insert]

/-- What is known when the closure reaches the submission of the transaction: the guard at
its head let it pass, `deduplicate_block` is `!block_id.empty()`, the paths are those of the
submitted block ids, `block_unlock_op_idx` keeps its initial value when there is no lock,
and the counters, flags and controller are those of the start of the iteration. -/
theorem commitPrepare_inr (s : QuorumConfig) (storage : StorageNames) (fns : PartFunctions)
    (is_attach : Bool) (block_id : BlockIDsType) (replicas_num : Nat)
    (writing_existing_part : Bool) (answers : CommitAnswers) (st st1 : CommitState)
    (ctx : SubmitContext)
    (h : commitPrepare s storage fns is_attach block_id replicas_num writing_existing_part
      answers st = .inr (ctx, st1)) :
    commitGuard storage writing_existing_part answers st = none ∧
    ctx.deduplicate_block = !block_id.empty ∧
    ctx.block_id_path.async_insert = block_id.async_insert ∧
    (ctx.block_number_lock = none → ctx.block_unlock_op_idx = sizeModulus - 1) ∧
    (∀ ids, block_id = .many ids →
      ctx.block_id_path = .many (ids.map (fun single_block_id =>
        storage.zookeeper_path ++ "/async_blocks/" ++ single_block_id)) ∧
      st1.conflict_block_ids = []) ∧
    (block_id.async_insert = false → st1.conflict_block_ids = st.conflict_block_ids) ∧
    st1.loop_counter = st.loop_counter ∧
    st1.retries_ctl = st.retries_ctl ∧
    st1.part_committed_locally_but_zookeeper = st.part_committed_locally_but_zookeeper := by
  unfold commitPrepare at h
  split at h
  · simp at h
  · rename_i hguard
    split at h
    · simp at h
    · rename_i block_id_path st2 hpre
      split at h
      · simp at h
      · rename_i ctx2 st3 halloc
        obtain ⟨hp1, hp2, hp3, hp4, hp5, hp6⟩ :=
          commitPrefilter_inr storage block_id block_id_path answers st st2 hpre
        obtain ⟨ha1, ha2, ha3, ha4, ha5, ha6, ha7, ha8⟩ :=
          commitAllocate_inr s storage fns is_attach block_id replicas_num block_id_path
            answers st2 st3 ctx2 hp1 halloc
        obtain ⟨hr1, hr2⟩ := commitRename_inr fns answers ctx2 ctx st3 st1 h
        subst hr1; subst hr2
        refine ⟨hguard, ha1, ha2, ha3, ?_, ?_, ?_, ?_, ?_⟩
        · intro ids hids
          have hasync : block_id.async_insert = true := by
            rw [hids]; rfl
          refine ⟨?_, ?_⟩
          · simp only
            rw [ha4 hasync]
            exact (hp2 ids hids).1
          · simp only [CommitState.log]
            rw [ha8]
            exact (hp2 ids hids).2
        · intro hsync
          simp only [CommitState.log]
          rw [ha8]
          exact hp3 hsync
        · simp only [CommitState.log]
          rw [ha5, hp4]
        · simp only [CommitState.log]
          rw [ha6, hp5]
        · simp only [CommitState.log]
          rw [ha7, hp6]

/-! ## Outcomes of the transaction in `commitPart` -/

/-- An exception that is not a coordinator exception leaves the retry loop, and with it
`commitPart`, at once. -/
theorem commitPartFrom_thrown (cls : ErrorClasses) (s : QuorumConfig) (storage : StorageNames)
    (fns : PartFunctions) (is_attach : Bool) (block_id : BlockIDsType) (replicas_num : Nat)
    (writing_existing_part : Bool) (answers : CommitAnswers) (rest : List CommitAnswers)
    (quorum_answers : List QuorumWaitAnswers) (st0 : CommitState)
    (ctl : ZooKeeperRetriesControl) (hook : List CommitEvent) (code : ErrorCode)
    (r : IterationResult)
    (hcan : st0.retries_ctl.canTry = (.proceed, ctl, hook))
    (hiter : commitPartIteration cls s storage fns is_attach block_id replicas_num
      writing_existing_part answers { st0 with retries_ctl := ctl } = r)
    (hthrown : r.thrown = some (.exception code)) :
    commitPartFrom cls s storage fns is_attach block_id replicas_num writing_existing_part
      (answers :: rest) quorum_answers st0
      = some (.error (.exception code), r.state.log .cleanupEphemeralNodes) := by
  unfold commitPartFrom
  rw [commitRetryLoop, hcan]
  simp only [hiter, hthrown]

/-- Counterexample to C14 as stated: ten consecutive collisions on the block-id guard, in
sync mode with deduplication; `commitPart` fails with `DUPLICATE_DATA_PART` at the tenth
collision (`loop_counter = 10`), not after more than ten, and the tenth collision requests
no retry. With nine collisions followed by a successful transaction it returns. -/
theorem C14_counterexample_fails_at_tenth_collision :
    thrownBy (commitPart keeperErrorClasses (QuorumConfig.construct 0 false false)
      exampleStorage examplePartFunctions false (exampleSink 3) examplePart (.single "id1") 1
      false (List.replicate 10 (exampleAnswers .ZNODEEXISTS 2 false)) [])
      = some (.exception .DUPLICATE_DATA_PART) ∧
    (finalState (commitPart keeperErrorClasses (QuorumConfig.construct 0 false false)
      exampleStorage examplePartFunctions false (exampleSink 3) examplePart (.single "id1") 1
      false (List.replicate 10 (exampleAnswers .ZNODEEXISTS 2 false)) [])).map
        CommitState.loop_counter = some 10 ∧
    returnedBy (commitPart keeperErrorClasses (QuorumConfig.construct 0 false false)
      exampleStorage examplePartFunctions false (exampleSink 3) examplePart (.single "id1") 1
      false (List.replicate 9 (exampleAnswers .ZNODEEXISTS 2 false)
        ++ [exampleAnswers .ZOK 0 false]) [])
      = some [] :=
  ⟨by decide, by decide, by decide⟩

/-- C14 (amended): in sync mode with deduplication enabled, an iteration in which the
transaction fails with `ZNODEEXISTS` on the block-id guard renames the part back to
temporary and increments `loop_counter`; while the new value differs from `max_iterations`
(10) it raises nothing and requests an unconditional retry, which the retry helper grants
without counting a retry; when the new value is 10 (the tenth collision) it marks the part
as duplicate and throws `DUPLICATE_DATA_PART`, with which `commitPart` fails. -/
theorem C14_block_id_collision (cls : ErrorClasses) (s : QuorumConfig) (storage : StorageNames)
    (fns : PartFunctions) (is_attach : Bool) (id : String) (replicas_num : Nat)
    (writing_existing_part : Bool) (answers : CommitAnswers) (rest : List CommitAnswers)
    (quorum_answers : List QuorumWaitAnswers) (st0 st1 : CommitState)
    (ctl : ZooKeeperRetriesControl) (hook : List CommitEvent) (ctx : SubmitContext)
    (failed_op_index : Nat)
    (hcan : st0.retries_ctl.canTry = (.proceed, ctl, hook))
    (hdedup : id ≠ "")
    (hprepare : commitPrepare s storage fns is_attach (.single id) replicas_num
      writing_existing_part answers { st0 with retries_ctl := ctl } = .inr (ctx, st1))
    (hcode : answers.multi_code = .ZNODEEXISTS)
    (hindex : answers.failed_op_index = .ok failed_op_index)
    (hguard : contains ctx.block_id_path (failedOpPath ctx.ops failed_op_index) = true)
    (hhardware : cls.isHardwareError .ZNODEEXISTS = false)
    (huser : cls.isUserError .ZNODEEXISTS = true) :
    (st0.loop_counter + 1 ≠ max_iterations →
      commitPartIteration cls s storage fns is_attach (.single id) replicas_num
          writing_existing_part answers { st0 with retries_ctl := ctl }
        = ⟨none,
            { rename_part_to_temporary (st1.log (.tryMultiNoThrow ctx.ops)) with
              loop_counter := st0.loop_counter + 1
              retries_ctl := ctl.requestUnconditionalRetry }⟩ ∧
      ctl.requestUnconditionalRetry.canTry.1 = .proceed ∧
      ctl.requestUnconditionalRetry.canTry.2.1.retries_info = ctl.retries_info) ∧
    (st0.loop_counter + 1 = max_iterations →
      commitPartIteration cls s storage fns is_attach (.single id) replicas_num
          writing_existing_part answers { st0 with retries_ctl := ctl }
        = ⟨some (.exception .DUPLICATE_DATA_PART),
            { rename_part_to_temporary (st1.log (.tryMultiNoThrow ctx.ops)) with
              loop_counter := st0.loop_counter + 1
              part := { st1.part with is_temp := true, is_duplicate := true } }⟩ ∧
      thrownBy (commitPartFrom cls s storage fns is_attach (.single id) replicas_num
          writing_existing_part (answers :: rest) quorum_answers st0)
        = some (.exception .DUPLICATE_DATA_PART)) := by
  obtain ⟨-, hd, ha, -, -, -, hloop, hctl, -⟩ :=
    commitPrepare_inr s storage fns is_attach (.single id) replicas_num writing_existing_part
      answers _ st1 ctx hprepare
  have hd2 : ctx.deduplicate_block = true := by
    rw [hd]; simp [BlockIDsType.empty, hdedup]
  have ha2 : ctx.block_id_path.async_insert = false := by
    rw [ha]; rfl
  simp only at hloop hctl
  have hiter : commitPartIteration cls s storage fns is_attach (.single id) replicas_num
      writing_existing_part answers { st0 with retries_ctl := ctl }
      = commitUserError ctx answers (st1.log (.tryMultiNoThrow ctx.ops)) := by
    unfold commitPartIteration
    rw [hprepare]
    simp [commitSubmit, commitFailure, hcode, hhardware, huser]
  refine ⟨?_, ?_⟩
  · intro hne
    refine ⟨?_, ?_, ?_⟩
    · rw [hiter]
      simp [commitUserError, hindex, hcode, hd2, hguard, ha2, rename_part_to_temporary,
        CommitState.log, hloop, hctl, hne]
    · simp only [ZooKeeperRetriesControl.canTry, ZooKeeperRetriesControl.requestUnconditionalRetry]
      split <;> simp
    · simp only [ZooKeeperRetriesControl.canTry, ZooKeeperRetriesControl.requestUnconditionalRetry]
      split <;> simp
  · intro heq
    have hres : commitPartIteration cls s storage fns is_attach (.single id) replicas_num
          writing_existing_part answers { st0 with retries_ctl := ctl }
        = ⟨some (.exception .DUPLICATE_DATA_PART),
            { rename_part_to_temporary (st1.log (.tryMultiNoThrow ctx.ops)) with
              loop_counter := st0.loop_counter + 1
              part := { st1.part with is_temp := true, is_duplicate := true } }⟩ := by
      rw [hiter]
      simp [commitUserError, hindex, hcode, hd2, hguard, ha2, rename_part_to_temporary,
        CommitState.log, hloop, hctl, heq]
    refine ⟨hres, ?_⟩
    rw [commitPartFrom_thrown cls s storage fns is_attach (.single id) replicas_num
      writing_existing_part answers rest quorum_answers st0 ctl hook .DUPLICATE_DATA_PART _
      hcan hres rfl]
    rfl

/-- Witness for C14: the first collision of a call with block id `id1`. -/
theorem C14_block_id_collision_witness :
    (commitPartIteration keeperErrorClasses (QuorumConfig.construct 0 false false)
      exampleStorage examplePartFunctions false (.single "id1") 1 false
      (exampleAnswers .ZNODEEXISTS 2 false)
      { commitPartStart (exampleSink 3) examplePart with
        retries_ctl :=
          { ZooKeeperRetriesControl.create (exampleSink 3).zookeeper_retries_info with
            started := true } }).thrown = none :=
  congrArg IterationResult.thrown
    ((C14_block_id_collision keeperErrorClasses (QuorumConfig.construct 0 false false)
      exampleStorage examplePartFunctions false "id1" 1 false
      (exampleAnswers .ZNODEEXISTS 2 false) [] [] (commitPartStart (exampleSink 3) examplePart)
      _ { ZooKeeperRetriesControl.create (exampleSink 3).zookeeper_retries_info with
          started := true } [] _ 2
      rfl (by decide) rfl rfl rfl rfl rfl rfl).1 (by decide)).1

/-! ## Recovery after a hardware error of the transaction -/

/-- The retry loop over an iteration whose transaction returns a hardware error, with
retries left: the part is committed locally, the hook is registered,
`UNKNOWN_STATUS_OF_INSERT` is recorded, and the loop goes into a counted retry. -/
theorem commitRetryLoop_hardware_error (cls : ErrorClasses) (s : QuorumConfig)
    (storage : StorageNames) (fns : PartFunctions) (is_attach : Bool) (block_id : BlockIDsType)
    (replicas_num : Nat) (writing_existing_part : Bool) (a1 : CommitAnswers)
    (rest : List CommitAnswers) (st0 st1 : CommitState) (ctl : ZooKeeperRetriesControl)
    (hook : List CommitEvent) (ctx : SubmitContext)
    (hcan : st0.retries_ctl.canTry = (.proceed, ctl, hook))
    (hfresh : ctl.iteration_succeeded = true)
    (hstarted : ctl.started = true)
    (hunconditional : ctl.unconditional_retry = false)
    (hstop : ctl.stop_retries = false)
    (hretries : ctl.retries_info.retry_count < ctl.retries_info.max_retries)
    (hprepare : commitPrepare s storage fns is_attach block_id replicas_num
      writing_existing_part a1 { st0 with retries_ctl := ctl } = .inr (ctx, st1))
    (hhardware : cls.isHardwareError a1.multi_code = true)
    (hnotok : a1.multi_code ≠ .ZOK)
    (hnotnonode : a1.multi_code ≠ .ZNONODE) :
    commitRetryLoop cls s storage fns is_attach block_id replicas_num writing_existing_part
        (a1 :: rest) st0
      = commitRetryLoop cls s storage fns is_attach block_id replicas_num
          writing_existing_part rest
          { st1 with
            write_part_info_keeper_error := a1.multi_code
            part_committed_locally_but_zookeeper := true
            events := st1.events ++
              [.tryMultiNoThrow ctx.ops, .transactionCommit, .cleanupEphemeralNodes]
            retries_ctl :=
              { ctl with
                iteration_succeeded := false
                error := some (.exception .UNKNOWN_STATUS_OF_INSERT)
                action_after_last_failed_retry := [.enqueuePartForCheck st1.part.name] } } ∧
    ZooKeeperRetriesControl.canTry
        { ctl with
          iteration_succeeded := false
          error := some (.exception .UNKNOWN_STATUS_OF_INSERT)
          action_after_last_failed_retry := [.enqueuePartForCheck st1.part.name] }
      = (.proceed,
          { ctl with
            retries_info :=
              { ctl.retries_info with
                retry_count := ctl.retries_info.retry_count + 1
                curr_backoff_ms :=
                  min (ctl.retries_info.curr_backoff_ms * 2) ctl.retries_info.max_backoff_ms }
            iteration_succeeded := true
            error := some (.exception .UNKNOWN_STATUS_OF_INSERT)
            action_after_last_failed_retry := [.enqueuePartForCheck st1.part.name] },
          []) := by
  obtain ⟨-, -, -, -, -, -, -, hctl, -⟩ :=
    commitPrepare_inr s storage fns is_attach block_id replicas_num writing_existing_part
      a1 _ st1 ctx hprepare
  simp only at hctl
  refine ⟨?_, ?_⟩
  · rw [commitRetryLoop, hcan]
    simp only [commitPartIteration, hprepare, commitSubmit, hnotok, hnotnonode, if_false,
      commitFailure, hhardware, if_true, CommitState.setUserError, CommitState.log, hctl,
      ZooKeeperRetriesControl.setError, ZooKeeperRetriesControl.actionAfterLastFailedRetry,
      hfresh, Bool.not_true, Bool.false_eq_true, List.append_assoc, List.cons_append,
      List.nil_append]
  · simp [ZooKeeperRetriesControl.canTry, hstarted, hunconditional, hstop,
      Nat.not_le.mpr hretries]

/-- The retry loop over a retry iteration that starts with
`part_committed_locally_but_zookeeper` set, in a table that is not read-only: the closure
only asks whether the node of the part exists; if it does, the loop ends without error,
otherwise `UNEXPECTED_ZOOKEEPER_ERROR` is recorded, the hook runs and the error is raised. -/
theorem commitRetryLoop_recheck (cls : ErrorClasses) (s : QuorumConfig)
    (storage : StorageNames) (fns : PartFunctions) (is_attach : Bool) (block_id : BlockIDsType)
    (replicas_num : Nat) (writing_existing_part : Bool) (a2 : CommitAnswers)
    (rest : List CommitAnswers) (st : CommitState) (ctl : ZooKeeperRetriesControl)
    (hook : List CommitEvent) (found : Bool)
    (hcan : st.retries_ctl.canTry = (.proceed, ctl, hook))
    (hfresh : ctl.iteration_succeeded = true)
    (hstarted : ctl.started = true)
    (hunconditional : ctl.unconditional_retry = false)
    (hretry : 0 < ctl.retries_info.retry_count)
    (hflag : st.part_committed_locally_but_zookeeper = true)
    (hwritable : a2.is_readonly = false)
    (hexists : a2.part_exists = .ok found) :
    commitRetryLoop cls s storage fns is_attach block_id replicas_num writing_existing_part
        (a2 :: rest) st
      = if found then
          some ⟨none,
            { st with
              events := st.events ++
                [.existsPart (storage.replica_path ++ "/parts/" ++ st.part.name),
                  .cleanupEphemeralNodes]
              retries_ctl := { ctl with stop_retries := true } }⟩
        else
          some ⟨some (.exception .UNEXPECTED_ZOOKEEPER_ERROR),
            { st with
              events := st.events ++
                [.existsPart (storage.replica_path ++ "/parts/" ++ st.part.name),
                  .cleanupEphemeralNodes] ++ ctl.action_after_last_failed_retry
              retries_ctl :=
                { ctl with
                  iteration_succeeded := false
                  error := some (.exception .UNEXPECTED_ZOOKEEPER_ERROR)
                  stop_retries := true } }⟩ := by
  have hguard : commitGuard storage writing_existing_part a2 { st with retries_ctl := ctl }
      = if found then
          some ⟨none,
            { st with
              events := st.events ++
                [.existsPart (storage.replica_path ++ "/parts/" ++ st.part.name)]
              retries_ctl := { ctl with stop_retries := true } }⟩
        else
          some ⟨none,
            { st with
              events := st.events ++
                [.existsPart (storage.replica_path ++ "/parts/" ++ st.part.name)]
              retries_ctl :=
                { ctl with
                  iteration_succeeded := false
                  error := some (.exception .UNEXPECTED_ZOOKEEPER_ERROR)
                  stop_retries := true } }⟩ := by
    cases found <;>
      simp [commitGuard, hwritable, ZooKeeperRetriesControl.isRetry, hretry, hflag, hexists,
        CommitState.log, ZooKeeperRetriesControl.setError, hfresh,
        ZooKeeperRetriesControl.stopRetries]
  rw [commitRetryLoop, hcan]
  simp only [commitPartIteration, commitPrepare, hguard]
  cases found
  · simp only [Bool.false_eq_true, if_false, CommitState.log]
    rw [commitRetryLoop]
    simp [ZooKeeperRetriesControl.canTry, hstarted, hunconditional]
  · simp only [if_true, CommitState.log]
    rw [commitRetryLoop]
    simp [ZooKeeperRetriesControl.canTry, hstarted, hunconditional, hfresh]

/-- Counterexample to C15 as stated: the transaction returns a hardware error (connection
loss), three retries are allowed, and on the retry the node of the part is absent;
`commitPart` fails with `UNEXPECTED_ZOOKEEPER_ERROR`, not with `UNKNOWN_STATUS_OF_INSERT`,
after the part was enqueued for the check. -/
theorem C15_counterexample_part_absent_on_retry :
    thrownBy (commitPart keeperErrorClasses (QuorumConfig.construct 0 false false)
      exampleStorage examplePartFunctions false (exampleSink 3) examplePart (.single "id1") 1
      false [exampleAnswers (.other (-4)) 0 false, exampleAnswers .ZOK 0 false] [])
      = some (.exception .UNEXPECTED_ZOOKEEPER_ERROR) ∧
    (finalState (commitPart keeperErrorClasses (QuorumConfig.construct 0 false false)
      exampleStorage examplePartFunctions false (exampleSink 3) examplePart (.single "id1") 1
      false [exampleAnswers (.other (-4)) 0 false, exampleAnswers .ZOK 0 false] [])).map
        (List.drop 4 ∘ CommitState.events)
      = some [.transactionCommit, .cleanupEphemeralNodes,
          .existsPart "/t/replicas/r1/parts/all_7", .cleanupEphemeralNodes,
          .enqueuePartForCheck "all_7"] :=
  ⟨by decide, by decide⟩

/-- C15 (amended): after the transaction returned a hardware error with retries left (the
part is committed locally and `part_committed_locally_but_zookeeper` is set), if on the next
retry iteration the table is not read-only and `<replica_path>/parts/<part name>` is absent,
`commitPart` fails with `UNEXPECTED_ZOOKEEPER_ERROR`, after the part was enqueued for the
check; neither `allocateBlockNumber` nor `tryMultiNoThrow` is called again. -/
theorem C15_part_absent_on_retry (cls : ErrorClasses) (s : QuorumConfig)
    (storage : StorageNames) (fns : PartFunctions) (is_attach : Bool) (block_id : BlockIDsType)
    (replicas_num : Nat) (writing_existing_part : Bool) (a1 a2 : CommitAnswers)
    (rest : List CommitAnswers) (quorum_answers : List QuorumWaitAnswers)
    (st0 st1 : CommitState) (ctl : ZooKeeperRetriesControl)
    (hook : List CommitEvent) (ctx : SubmitContext)
    (hcan : st0.retries_ctl.canTry = (.proceed, ctl, hook))
    (hfresh : ctl.iteration_succeeded = true)
    (hstarted : ctl.started = true)
    (hunconditional : ctl.unconditional_retry = false)
    (hstop : ctl.stop_retries = false)
    (hretries : ctl.retries_info.retry_count < ctl.retries_info.max_retries)
    (hprepare : commitPrepare s storage fns is_attach block_id replicas_num
      writing_existing_part a1 { st0 with retries_ctl := ctl } = .inr (ctx, st1))
    (hhardware : cls.isHardwareError a1.multi_code = true)
    (hnotok : a1.multi_code ≠ .ZOK)
    (hnotnonode : a1.multi_code ≠ .ZNONODE)
    (hwritable : a2.is_readonly = false)
    (habsent : a2.part_exists = .ok false) :
    thrownBy (commitPartFrom cls s storage fns is_attach block_id replicas_num
        writing_existing_part (a1 :: a2 :: rest) quorum_answers st0)
      = some (.exception .UNEXPECTED_ZOOKEEPER_ERROR) ∧
    (finalState (commitPartFrom cls s storage fns is_attach block_id replicas_num
        writing_existing_part (a1 :: a2 :: rest) quorum_answers st0)).map CommitState.events
      = some (st1.events ++
          [.tryMultiNoThrow ctx.ops, .transactionCommit, .cleanupEphemeralNodes,
            .existsPart (storage.replica_path ++ "/parts/" ++ st1.part.name),
            .cleanupEphemeralNodes, .enqueuePartForCheck st1.part.name]) := by
  obtain ⟨h1, h2⟩ := commitRetryLoop_hardware_error cls s storage fns is_attach block_id
    replicas_num writing_existing_part a1 (a2 :: rest) st0 st1 ctl hook ctx hcan hfresh
    hstarted hunconditional hstop hretries hprepare hhardware hnotok hnotnonode
  have h3 := commitRetryLoop_recheck cls s storage fns is_attach block_id replicas_num
    writing_existing_part a2 rest
    { st1 with
      write_part_info_keeper_error := a1.multi_code
      part_committed_locally_but_zookeeper := true
      events := st1.events ++
        [.tryMultiNoThrow ctx.ops, .transactionCommit, .cleanupEphemeralNodes]
      retries_ctl :=
        { ctl with
          iteration_succeeded := false
          error := some (.exception .UNKNOWN_STATUS_OF_INSERT)
          action_after_last_failed_retry := [.enqueuePartForCheck st1.part.name] } }
    { ctl with
      retries_info :=
        { ctl.retries_info with
          retry_count := ctl.retries_info.retry_count + 1
          curr_backoff_ms :=
            min (ctl.retries_info.curr_backoff_ms * 2) ctl.retries_info.max_backoff_ms }
      iteration_succeeded := true
      error := some (.exception .UNKNOWN_STATUS_OF_INSERT)
      action_after_last_failed_retry := [.enqueuePartForCheck st1.part.name] }
    [] false h2 rfl hstarted hunconditional (Nat.succ_pos _) rfl hwritable habsent
  unfold commitPartFrom
  rw [h1, h3]
  simp [thrownBy, finalState]

/-- Witness for C15: a connection loss on the first transaction of a call with three retries
allowed, and the node of the part absent on the retry. -/
theorem C15_part_absent_on_retry_witness :
    thrownBy (commitPartFrom keeperErrorClasses (QuorumConfig.construct 0 false false)
      exampleStorage examplePartFunctions false (.single "id1") 1 false
      (exampleAnswers (.other (-4)) 0 false :: exampleAnswers .ZOK 0 false :: []) []
      (commitPartStart (exampleSink 3) examplePart))
      = some (.exception .UNEXPECTED_ZOOKEEPER_ERROR) :=
  (C15_part_absent_on_retry keeperErrorClasses (QuorumConfig.construct 0 false false)
    exampleStorage examplePartFunctions false (.single "id1") 1 false
    (exampleAnswers (.other (-4)) 0 false) (exampleAnswers .ZOK 0 false) [] []
    (commitPartStart (exampleSink 3) examplePart) _
    { ZooKeeperRetriesControl.create (exampleSink 3).zookeeper_retries_info with
      started := true } [] _
    rfl rfl rfl rfl rfl (by decide) rfl (by decide) (by decide) (by decide) rfl rfl).1

/-- Counterexample to C16 as stated: quorum 2 is enabled and one retry is allowed; the
transaction returns a hardware error, on the retry the node of the part exists and the retry
loop ends without error, but the wait for the quorum that follows times out, so `commitPart`
fails with `UNKNOWN_STATUS_OF_INSERT`. -/
theorem C16_counterexample_quorum_wait_fails :
    waitForQuorum "all_7" 5 [⟨.ok (some "all_7"), false⟩] (.ok (some 5))
      = some (.error (.exception .UNKNOWN_STATUS_OF_INSERT)) ∧
    thrownBy (commitPart keeperErrorClasses (QuorumConfig.construct 2 false false)
      exampleStorage examplePartFunctions false (exampleSink 1) examplePart (.single "id1") 3
      false [exampleAnswers (.other (-4)) 0 false, exampleAnswers .ZOK 0 true]
      [exampleQuorumAnswers (.error (.exception .UNKNOWN_STATUS_OF_INSERT))])
      = some (.exception .UNKNOWN_STATUS_OF_INSERT) ∧
    (finalState (commitPart keeperErrorClasses (QuorumConfig.construct 2 false false)
      exampleStorage examplePartFunctions false (exampleSink 1) examplePart (.single "id1") 3
      false [exampleAnswers (.other (-4)) 0 false, exampleAnswers .ZOK 0 true]
      [exampleQuorumAnswers (.error (.exception .UNKNOWN_STATUS_OF_INSERT))])).map
        (List.drop 4 ∘ CommitState.events)
      = some [.transactionCommit, .cleanupEphemeralNodes,
          .existsPart "/t/replicas/r1/parts/all_7", .cleanupEphemeralNodes,
          .waitForQuorum "all_7" "/t/quorum/status"] :=
  ⟨by rfl, by decide, by decide⟩

/-- C16 (amended): after the transaction returned a hardware error with retries left, if on
the next retry iteration the table is not read-only and `<replica_path>/parts/<part name>`
exists, that iteration sets no error, stops retrying and returns having made no call but the
existence check (neither `allocateBlockNumber` nor `tryMultiNoThrow` is called again), and
the retry loop ends without error; `commitPart` then goes on as after any successful loop: it
returns the empty list when quorum is not enabled, and otherwise waits for the quorum. -/
theorem C16_part_present_on_retry (cls : ErrorClasses) (s : QuorumConfig)
    (storage : StorageNames) (fns : PartFunctions) (is_attach : Bool) (block_id : BlockIDsType)
    (replicas_num : Nat) (writing_existing_part : Bool) (a1 a2 : CommitAnswers)
    (rest : List CommitAnswers) (quorum_answers : List QuorumWaitAnswers)
    (st0 st1 : CommitState) (ctl : ZooKeeperRetriesControl)
    (hook : List CommitEvent) (ctx : SubmitContext)
    (hcan : st0.retries_ctl.canTry = (.proceed, ctl, hook))
    (hconflicts : st0.conflict_block_ids = [])
    (hfresh : ctl.iteration_succeeded = true)
    (hstarted : ctl.started = true)
    (hunconditional : ctl.unconditional_retry = false)
    (hstop : ctl.stop_retries = false)
    (hretries : ctl.retries_info.retry_count < ctl.retries_info.max_retries)
    (hprepare : commitPrepare s storage fns is_attach block_id replicas_num
      writing_existing_part a1 { st0 with retries_ctl := ctl } = .inr (ctx, st1))
    (hhardware : cls.isHardwareError a1.multi_code = true)
    (hnotok : a1.multi_code ≠ .ZOK)
    (hnotnonode : a1.multi_code ≠ .ZNONODE)
    (hwritable : a2.is_readonly = false)
    (hpresent : a2.part_exists = .ok true) :
    ∃ final : CommitState,
      commitRetryLoop cls s storage fns is_attach block_id replicas_num writing_existing_part
        (a1 :: a2 :: rest) st0 = some ⟨none, final⟩ ∧
      final.events = st1.events ++
        [.tryMultiNoThrow ctx.ops, .transactionCommit, .cleanupEphemeralNodes,
          .existsPart (storage.replica_path ++ "/parts/" ++ st1.part.name),
          .cleanupEphemeralNodes] ∧
      final.retries_ctl.iteration_succeeded = true ∧
      final.retries_ctl.stop_retries = true ∧
      commitPartFrom cls s storage fns is_attach block_id replicas_num writing_existing_part
        (a1 :: a2 :: rest) quorum_answers st0 = commitPartFinish cls s quorum_answers final ∧
      (s.isQuorumEnabled = false →
        commitPartFrom cls s storage fns is_attach block_id replicas_num
          writing_existing_part (a1 :: a2 :: rest) quorum_answers st0
          = some (.ok [], final)) := by
  obtain ⟨h1, h2⟩ := commitRetryLoop_hardware_error cls s storage fns is_attach block_id
    replicas_num writing_existing_part a1 (a2 :: rest) st0 st1 ctl hook ctx hcan hfresh
    hstarted hunconditional hstop hretries hprepare hhardware hnotok hnotnonode
  have h3 := commitRetryLoop_recheck cls s storage fns is_attach block_id replicas_num
    writing_existing_part a2 rest
    { st1 with
      write_part_info_keeper_error := a1.multi_code
      part_committed_locally_but_zookeeper := true
      events := st1.events ++
        [.tryMultiNoThrow ctx.ops, .transactionCommit, .cleanupEphemeralNodes]
      retries_ctl :=
        { ctl with
          iteration_succeeded := false
          error := some (.exception .UNKNOWN_STATUS_OF_INSERT)
          action_after_last_failed_retry := [.enqueuePartForCheck st1.part.name] } }
    { ctl with
      retries_info :=
        { ctl.retries_info with
          retry_count := ctl.retries_info.retry_count + 1
          curr_backoff_ms :=
            min (ctl.retries_info.curr_backoff_ms * 2) ctl.retries_info.max_backoff_ms }
      iteration_succeeded := true
      error := some (.exception .UNKNOWN_STATUS_OF_INSERT)
      action_after_last_failed_retry := [.enqueuePartForCheck st1.part.name] }
    [] true h2 rfl hstarted hunconditional (Nat.succ_pos _) rfl hwritable hpresent
  obtain ⟨-, -, -, -, hmany, hsingle, -, -, -⟩ :=
    commitPrepare_inr s storage fns is_attach block_id replicas_num writing_existing_part
      a1 _ st1 ctx hprepare
  have hconf : st1.conflict_block_ids = [] := by
    cases block_id with
    | single id => rw [hsingle rfl]; exact hconflicts
    | many ids => exact (hmany ids rfl).2
  rw [h1, h3]
  simp only [if_true]
  refine ⟨_, rfl, ?_, rfl, rfl, ?_, ?_⟩
  · simp
  · unfold commitPartFrom
    rw [h1, h3]
    simp
  · intro hquorum
    unfold commitPartFrom
    rw [h1, h3]
    simp [commitPartFinish, hconf, hquorum]

/-- Witness for C16: a connection loss on the first transaction of a call without quorum and
with three retries allowed, and the node of the part present on the retry. -/
theorem C16_part_present_on_retry_witness :
    ∃ final : CommitState,
      commitPartFrom keeperErrorClasses (QuorumConfig.construct 0 false false)
        exampleStorage examplePartFunctions false (.single "id1") 1 false
        (exampleAnswers (.other (-4)) 0 false :: exampleAnswers .ZOK 0 true :: []) []
        (commitPartStart (exampleSink 3) examplePart) = some (.ok [], final) :=
  (C16_part_present_on_retry keeperErrorClasses (QuorumConfig.construct 0 false false)
    exampleStorage examplePartFunctions false (.single "id1") 1 false
    (exampleAnswers (.other (-4)) 0 false) (exampleAnswers .ZOK 0 true) [] []
    (commitPartStart (exampleSink 3) examplePart) _
    { ZooKeeperRetriesControl.create (exampleSink 3).zookeeper_retries_info with
      started := true } [] _
    rfl rfl rfl rfl rfl rfl (by decide) rfl (by decide) (by decide) (by decide) rfl
    rfl).elim (fun final h => ⟨final, h.2.2.2.2.2 rfl⟩)

/-! ## Exceptions thrown by the closure of `commitPart` -/

/-- An exception thrown by the closure before the transaction is submitted is
`TABLE_IS_READ_ONLY`, `LOGICAL_ERROR`, or an exception raised by a callee. -/
theorem commitPrepare_inl_thrown (s : QuorumConfig) (storage : StorageNames)
    (fns : PartFunctions) (is_attach : Bool) (block_id : BlockIDsType) (replicas_num : Nat)
    (writing_existing_part : Bool) (answers : CommitAnswers) (st : CommitState)
    (r : IterationResult) (f : Failure)
    (h : commitPrepare s storage fns is_attach block_id replicas_num writing_existing_part
      answers st = .inl r)
    (hf : r.thrown = some f) :
    f = .exception .TABLE_IS_READ_ONLY ∨ f = .exception .LOGICAL_ERROR ∨
      answers.calleeRaises f := by
  unfold CommitAnswers.calleeRaises
  unfold commitPrepare at h
  split at h
  · rename_i r1 hguard
    simp only [Sum.inl.injEq] at h
    subst h
    unfold commitGuard at hguard
    split at hguard
    · simp only [Option.some.injEq] at hguard
      subst hguard
      simp only [Option.some.injEq] at hf
      exact Or.inl hf.symm
    · split at hguard
      · simp only [Option.some.injEq] at hguard
        subst hguard
        simp at hf
      · split at hguard
        · simp only at hguard
          split at hguard
          · rename_i g hg
            simp only [Option.some.injEq] at hguard
            subst hguard
            simp only [Option.some.injEq] at hf
            subst hf
            exact Or.inr (Or.inr (Or.inl hg))
          · simp only [Option.some.injEq] at hguard
            subst hguard
            simp at hf
          · simp only [Option.some.injEq] at hguard
            subst hguard
            simp at hf
        · simp at hguard
  · split at h
    · rename_i r1 hpre
      simp only [Sum.inl.injEq] at h
      subst h
      unfold commitPrefilter at hpre
      split at hpre
      · simp only at hpre
        split at hpre
        · simp only [Sum.inl.injEq] at hpre
          subst hpre
          simp at hf
        · simp at hpre
      · split at hpre <;> simp at hpre
    · split at h
      · rename_i r1 halloc
        simp only [Sum.inl.injEq] at h
        subst h
        unfold commitAllocate at halloc
        simp only at halloc
        split at halloc
        · rename_i g hg
          simp only [Sum.inl.injEq] at halloc
          subst halloc
          simp only [Option.some.injEq] at hf
          subst hf
          exact Or.inr (Or.inr (Or.inr (Or.inl hg)))
        · unfold commitWithLock at halloc
          simp only at halloc
          split at halloc
          · simp only [Sum.inl.injEq] at halloc
            subst halloc
            simp at hf
          · simp at halloc
        · unfold commitWithoutLock at halloc
          split at halloc
          · simp only [Sum.inl.injEq] at halloc
            subst halloc
            simp only [Option.some.injEq] at hf
            exact Or.inr (Or.inl hf.symm)
          · simp only at halloc
            split at halloc
            · rename_i g hg
              simp only [Sum.inl.injEq] at halloc
              subst halloc
              simp only [Option.some.injEq] at hf
              subst hf
              exact Or.inr (Or.inr (Or.inr (Or.inr (Or.inl hg))))
            · split at halloc
              · split at halloc
                · split at halloc
                  · simp only [Sum.inl.injEq] at halloc
                    subst halloc
                    simp at hf
                  · simp only [Sum.inl.injEq] at halloc
                    subst halloc
                    simp at hf
                · simp only [Sum.inl.injEq] at halloc
                  subst halloc
                  simp at hf
              · simp at halloc
      · unfold commitRename at h
        simp only at h
        split at h
        · rename_i g hg
          simp only [Sum.inl.injEq] at h
          subst h
          simp only [Option.some.injEq] at hf
          subst hf
          split at hg
          · simp at hg
          · simp at hg
          · simp at hg
          · simp only [Except.error.injEq] at hg
            subst hg
            exact Or.inr (Or.inr (Or.inr (Or.inr (Or.inr (Or.inl (by assumption))))))
        · split at h
          · simp only [Sum.inl.injEq] at h
            subst h
            simp at hf
          · simp only [Sum.inl.injEq] at h
            subst h
            simp only [Option.some.injEq] at hf
            exact Or.inr (Or.inl hf.symm)
        · split at h
          · rename_i g hg
            simp only [Sum.inl.injEq] at h
            subst h
            simp only [Option.some.injEq] at hf
            subst hf
            exact Or.inr (Or.inr (Or.inr (Or.inr (Or.inr (Or.inr (Or.inl hg))))))
          · simp at h

/-- An exception thrown by the branches that follow the test for `QUERY_WAS_CANCELLED` is
`DUPLICATE_DATA_PART`, `UNSATISFIED_QUORUM_FOR_PREVIOUS_WRITE`, `UNEXPECTED_ZOOKEEPER_ERROR`,
or an exception raised by a callee. -/
theorem commitFailure_thrown (cls : ErrorClasses) (ctx : SubmitContext)
    (answers : CommitAnswers) (st : CommitState) (f : Failure)
    (hf : (commitFailure cls ctx answers st).thrown = some f) :
    f = .exception .DUPLICATE_DATA_PART ∨
      f = .exception .UNSATISFIED_QUORUM_FOR_PREVIOUS_WRITE ∨
      f = .exception .UNEXPECTED_ZOOKEEPER_ERROR ∨ answers.calleeRaises f := by
  unfold CommitAnswers.calleeRaises
  unfold commitFailure at hf
  split at hf
  · simp at hf
  · split at hf
    · unfold commitUserError at hf
      split at hf
      · rename_i g hg
        simp only [Option.some.injEq] at hf
        subst hf
        simp [hg]
      · simp only at hf
        split at hf
        · split at hf
          · simp at hf
          · split at hf
            · simp only [Option.some.injEq] at hf
              exact Or.inl hf.symm
            · simp at hf
        · split at hf
          · split at hf
            · simp only [Option.some.injEq] at hf
              exact Or.inr (Or.inl hf.symm)
            · simp only [Option.some.injEq] at hf
              subst hf
              simp [*]
            · simp only [Option.some.injEq] at hf
              exact Or.inr (Or.inl hf.symm)
          · split at hf
            · rename_i g hg
              simp only [Option.some.injEq] at hf
              subst hf
              simp [hg]
            · simp only [Option.some.injEq] at hf
              exact Or.inr (Or.inr (Or.inl hf.symm))
    · simp only at hf
      split at hf
      · rename_i g hg
        simp only [Option.some.injEq] at hf
        subst hf
        simp [hg]
      · simp only [Option.some.injEq] at hf
        exact Or.inr (Or.inr (Or.inl hf.symm))

/-- C17: an iteration of the closure of `commitPart` throws `QUERY_WAS_CANCELLED` exactly
when it submits the transaction, the result is `ZNONODE` and the index of the failed op
equals the recorded index `block_unlock_op_idx` of the block-number unlock op (no callee
raising that code itself, and the index of a failed op being smaller than
`std::numeric_limits<size_t>::max()`); `commitPart` then fails with it. That branch is only
taken when a block-number lock was obtained, since `block_unlock_op_idx` keeps its initial
value `std::numeric_limits<size_t>::max()` otherwise, so the lock whose path is read is
never empty. -/
theorem C17_query_was_cancelled (cls : ErrorClasses) (s : QuorumConfig)
    (storage : StorageNames) (fns : PartFunctions) (is_attach : Bool) (block_id : BlockIDsType)
    (replicas_num : Nat) (writing_existing_part : Bool) (answers : CommitAnswers)
    (rest : List CommitAnswers) (quorum_answers : List QuorumWaitAnswers)
    (st0 : CommitState) (ctl : ZooKeeperRetriesControl) (hook : List CommitEvent)
    (hcan : st0.retries_ctl.canTry = (.proceed, ctl, hook))
    (hcallees : ¬ answers.calleeRaises (.exception .QUERY_WAS_CANCELLED))
    (hindex : ∀ failed_op_index, answers.failed_op_index = .ok failed_op_index →
      failed_op_index < sizeModulus - 1) :
    ((commitPartIteration cls s storage fns is_attach block_id replicas_num
          writing_existing_part answers { st0 with retries_ctl := ctl }).thrown
        = some (.exception .QUERY_WAS_CANCELLED)
      ↔ ∃ ctx st1,
          commitPrepare s storage fns is_attach block_id replicas_num writing_existing_part
            answers { st0 with retries_ctl := ctl } = .inr (ctx, st1) ∧
          answers.multi_code = .ZNONODE ∧
          answers.failed_op_index = .ok ctx.block_unlock_op_idx) ∧
    (∀ ctx st1,
      commitPrepare s storage fns is_attach block_id replicas_num writing_existing_part
          answers { st0 with retries_ctl := ctl } = .inr (ctx, st1) →
      answers.multi_code = .ZNONODE →
      answers.failed_op_index = .ok ctx.block_unlock_op_idx →
      ctx.block_number_lock.isSome = true) ∧
    ((commitPartIteration cls s storage fns is_attach block_id replicas_num
          writing_existing_part answers { st0 with retries_ctl := ctl }).thrown
        = some (.exception .QUERY_WAS_CANCELLED) →
      thrownBy (commitPartFrom cls s storage fns is_attach block_id replicas_num
          writing_existing_part (answers :: rest) quorum_answers st0)
        = some (.exception .QUERY_WAS_CANCELLED)) := by
  have hlock : ∀ ctx st1,
      commitPrepare s storage fns is_attach block_id replicas_num writing_existing_part
          answers { st0 with retries_ctl := ctl } = .inr (ctx, st1) →
      answers.multi_code = .ZNONODE →
      answers.failed_op_index = .ok ctx.block_unlock_op_idx →
      ctx.block_number_lock.isSome = true := by
    intro ctx st1 hprepare _ hidx
    obtain ⟨-, -, -, hsentinel, -, -, -, -, -⟩ :=
      commitPrepare_inr s storage fns is_attach block_id replicas_num writing_existing_part
        answers _ st1 ctx hprepare
    cases hl : ctx.block_number_lock with
    | some lock => rfl
    | none =>
      have h1 := hsentinel hl
      have h2 := hindex _ hidx
      omega
  refine ⟨⟨?_, ?_⟩, hlock, ?_⟩
  · intro hthrown
    unfold commitPartIteration at hthrown
    split at hthrown
    · rename_i r hprepare
      rcases commitPrepare_inl_thrown s storage fns is_attach block_id replicas_num
        writing_existing_part answers _ r _ hprepare hthrown with h | h | h
      · simp at h
      · simp at h
      · exact absurd h hcallees
    · rename_i ctx st1 hprepare
      refine ⟨ctx, st1, hprepare, ?_⟩
      unfold commitSubmit at hthrown
      simp only at hthrown
      split at hthrown
      · simp at hthrown
      · split at hthrown
        · rename_i hnonode
          refine ⟨hnonode, ?_⟩
          split at hthrown
          · rename_i g hg
            simp only [Option.some.injEq] at hthrown
            subst hthrown
            exact absurd (Or.inr (Or.inr (Or.inr (Or.inr (Or.inr (Or.inl hg)))))) hcallees
          · rename_i idx hidx
            split at hthrown
            · rename_i heq
              rw [hidx, heq]
            · rcases commitFailure_thrown cls ctx answers _ _ hthrown with h | h | h | h
              · simp at h
              · simp at h
              · simp at h
              · exact absurd h hcallees
        · rcases commitFailure_thrown cls ctx answers _ _ hthrown with h | h | h | h
          · simp at h
          · simp at h
          · simp at h
          · exact absurd h hcallees
  · rintro ⟨ctx, st1, hprepare, hnonode, hidx⟩
    have hsome := hlock ctx st1 hprepare hnonode hidx
    obtain ⟨lock, hl⟩ := Option.isSome_iff_exists.mp hsome
    unfold commitPartIteration
    rw [hprepare]
    simp [commitSubmit, hnonode, hidx, hl]
  · intro hthrown
    rw [commitPartFrom_thrown cls s storage fns is_attach block_id replicas_num
      writing_existing_part answers rest quorum_answers st0 ctl hook .QUERY_WAS_CANCELLED _
      hcan rfl hthrown]
    rfl

/-- Witness for C17: the transaction of the first iteration returns `ZNONODE` for the op at
index 1, the removal of the block-number lock. -/
theorem C17_query_was_cancelled_witness :
    thrownBy (commitPartFrom keeperErrorClasses (QuorumConfig.construct 0 false false)
      exampleStorage examplePartFunctions false (.single "id1") 1 false
      (exampleAnswers .ZNONODE 1 false :: []) []
      (commitPartStart (exampleSink 3) examplePart))
      = some (.exception .QUERY_WAS_CANCELLED) :=
  (C17_query_was_cancelled keeperErrorClasses (QuorumConfig.construct 0 false false)
    exampleStorage examplePartFunctions false (.single "id1") 1 false
    (exampleAnswers .ZNONODE 1 false) [] []
    (commitPartStart (exampleSink 3) examplePart)
    { ZooKeeperRetriesControl.create (exampleSink 3).zookeeper_retries_info with
      started := true } []
    rfl (by simp [CommitAnswers.calleeRaises, exampleAnswers])
    (by intro i hi; simp [exampleAnswers] at hi; subst hi; simp [sizeModulus])).2.2
    (by decide)

/-- C18: when the transaction fails with `ZNODEEXISTS`, the path of the failed op is the
quorum tracker path `quorum_info.status_path`, and the failed op is not a block-id guard
with deduplication enabled, the closure calls `unlockSharedData`, renames the part back to
temporary whether that call returned or raised a coordinator exception, and throws
`UNSATISFIED_QUORUM_FOR_PREVIOUS_WRITE`, with which `commitPart` fails. -/
theorem C18_quorum_tracker_exists (cls : ErrorClasses) (s : QuorumConfig)
    (storage : StorageNames) (fns : PartFunctions) (is_attach : Bool) (block_id : BlockIDsType)
    (replicas_num : Nat) (writing_existing_part : Bool) (answers : CommitAnswers)
    (rest : List CommitAnswers) (quorum_answers : List QuorumWaitAnswers)
    (st0 st1 : CommitState) (ctl : ZooKeeperRetriesControl) (hook : List CommitEvent)
    (ctx : SubmitContext) (failed_op_index : Nat)
    (hcan : st0.retries_ctl.canTry = (.proceed, ctl, hook))
    (hprepare : commitPrepare s storage fns is_attach block_id replicas_num
      writing_existing_part answers { st0 with retries_ctl := ctl } = .inr (ctx, st1))
    (hcode : answers.multi_code = .ZNODEEXISTS)
    (hindex : answers.failed_op_index = .ok failed_op_index)
    (htracker : failedOpPath ctx.ops failed_op_index = st1.quorum_info.status_path)
    (hnotguard : (ctx.deduplicate_block
      && contains ctx.block_id_path (failedOpPath ctx.ops failed_op_index)) = false)
    (hunlock : answers.unlock_shared_data = .ok () ∨
      ∃ e, answers.unlock_shared_data = .error (.keeperException e))
    (hhardware : cls.isHardwareError .ZNODEEXISTS = false)
    (huser : cls.isUserError .ZNODEEXISTS = true) :
    commitPartIteration cls s storage fns is_attach block_id replicas_num
        writing_existing_part answers { st0 with retries_ctl := ctl }
      = ⟨some (.exception .UNSATISFIED_QUORUM_FOR_PREVIOUS_WRITE),
          { st1 with
            part := { st1.part with is_temp := true }
            events := st1.events ++
              [.tryMultiNoThrow ctx.ops, .unlockSharedData, .renamePartToTemporary] }⟩ ∧
    commitPartFrom cls s storage fns is_attach block_id replicas_num writing_existing_part
        (answers :: rest) quorum_answers st0
      = some (.error (.exception .UNSATISFIED_QUORUM_FOR_PREVIOUS_WRITE),
          { st1 with
            part := { st1.part with is_temp := true }
            events := st1.events ++
              [.tryMultiNoThrow ctx.ops, .unlockSharedData, .renamePartToTemporary,
                .cleanupEphemeralNodes] }) := by
  have hiter : commitPartIteration cls s storage fns is_attach block_id replicas_num
        writing_existing_part answers { st0 with retries_ctl := ctl }
      = ⟨some (.exception .UNSATISFIED_QUORUM_FOR_PREVIOUS_WRITE),
          { st1 with
            part := { st1.part with is_temp := true }
            events := st1.events ++
              [.tryMultiNoThrow ctx.ops, .unlockSharedData, .renamePartToTemporary] }⟩ := by
    unfold commitPartIteration
    rw [hprepare]
    rw [htracker] at hnotguard
    have hg : (ctx.deduplicate_block = true →
        contains ctx.block_id_path st1.quorum_info.status_path = false) := by
      intro hc
      simpa [hc] using hnotguard
    rcases hunlock with hu | ⟨e, hu⟩
    · cases hd : ctx.deduplicate_block
      · simp [commitSubmit, commitFailure, commitUserError, hcode, hhardware, huser, hindex,
          hd, htracker, hu, rename_part_to_temporary, CommitState.log]
      · simp [commitSubmit, commitFailure, commitUserError, hcode, hhardware, huser, hindex,
          hd, hg hd, htracker, hu, rename_part_to_temporary, CommitState.log]
    · cases hd : ctx.deduplicate_block
      · simp [commitSubmit, commitFailure, commitUserError, hcode, hhardware, huser, hindex,
          hd, htracker, hu, rename_part_to_temporary, CommitState.log]
      · simp [commitSubmit, commitFailure, commitUserError, hcode, hhardware, huser, hindex,
          hd, hg hd, htracker, hu, rename_part_to_temporary, CommitState.log]
  refine ⟨hiter, ?_⟩
  rw [commitPartFrom_thrown cls s storage fns is_attach block_id replicas_num
    writing_existing_part answers rest quorum_answers st0 ctl hook
    .UNSATISFIED_QUORUM_FOR_PREVIOUS_WRITE _ hcan hiter rfl]
  simp [CommitState.log]

/-- Witness for C18: quorum 2 is enabled, the transaction fails with `ZNODEEXISTS` on the op
at index 2, the creation of `/t/quorum/status`, and `unlockSharedData` raises a connection
loss. -/
theorem C18_quorum_tracker_exists_witness :
    thrownBy (commitPartFrom keeperErrorClasses (QuorumConfig.construct 2 false false)
      exampleStorage examplePartFunctions false (.single "id1") 3 false
      ({ exampleAnswers .ZNODEEXISTS 2 false with
          unlock_shared_data := .error (.keeperException (.other (-4))) } :: []) []
      (commitPartStart (exampleSink 3) examplePart))
      = some (.exception .UNSATISFIED_QUORUM_FOR_PREVIOUS_WRITE) :=
  congrArg thrownBy
    (C18_quorum_tracker_exists keeperErrorClasses (QuorumConfig.construct 2 false false)
      exampleStorage examplePartFunctions false (.single "id1") 3 false
      { exampleAnswers .ZNODEEXISTS 2 false with
        unlock_shared_data := .error (.keeperException (.other (-4))) } [] []
      (commitPartStart (exampleSink 3) examplePart) _
      { ZooKeeperRetriesControl.create (exampleSink 3).zookeeper_retries_info with
        started := true } [] _ 2
      rfl rfl rfl rfl (by decide) (by decide) (Or.inr ⟨.other (-4), rfl⟩) rfl rfl).2

/-! ## Conflicts reported by `commitPart` -/

/-- When the prefilter of the asynchronous sink lets the iteration go on, the cache reported
no conflict. -/
theorem commitPrefilter_inr_many (storage : StorageNames) (ids : List String)
    (block_id_path : BlockIDsType) (answers : CommitAnswers) (st st1 : CommitState)
    (h : commitPrefilter storage (.many ids) answers st = .inr (block_id_path, st1)) :
    answers.detected_conflicts = [] ∧ st1.conflict_block_ids = [] := by
  unfold commitPrefilter at h
  simp only at h
  split at h
  · simp at h
  · rename_i hempty
    simp only [Sum.inr.injEq, Prod.mk.injEq] at h
    obtain ⟨-, hs⟩ := h
    subst hs
    simp only [Bool.not_eq_true, Bool.not_eq_false_eq_eq_true, List.isEmpty_iff] at hempty
    exact ⟨hempty, hempty⟩

/-- When the closure ends before the transaction is submitted, `conflict_block_ids` is as at
the start of the iteration, or empty, or the iteration detected it: by the cache prefilter or
by the conflict path of the lock. -/
theorem commitPrepare_inl_conflicts (s : QuorumConfig) (storage : StorageNames)
    (fns : PartFunctions) (is_attach : Bool) (block_id : BlockIDsType) (replicas_num : Nat)
    (writing_existing_part : Bool) (answers : CommitAnswers) (st : CommitState)
    (r : IterationResult)
    (h : commitPrepare s storage fns is_attach block_id replicas_num writing_existing_part
      answers st = .inl r) :
    r.state.conflict_block_ids = st.conflict_block_ids ∨ r.state.conflict_block_ids = [] ∨
      conflictDetected s storage fns is_attach block_id replicas_num writing_existing_part
        answers st r.state.conflict_block_ids := by
  unfold commitPrepare at h
  split at h
  · rename_i r1 hguard
    simp only [Sum.inl.injEq] at h
    subst h
    left
    unfold commitGuard at hguard
    simp only at hguard
    repeat' split at hguard
    all_goals first
      | (simp at hguard; done)
      | (simp only [Option.some.injEq] at hguard; subst hguard
         simp [CommitState.log, CommitState.setUserError])
  · rename_i hguard
    split at h
    · rename_i r1 hpre
      simp only [Sum.inl.injEq] at h
      subst h
      cases block_id with
      | single id =>
        unfold commitPrefilter at hpre
        simp only at hpre
        split at hpre <;> simp at hpre
      | many ids =>
        unfold commitPrefilter at hpre
        simp only at hpre
        split at hpre
        · rename_i hdet
          simp only [Sum.inl.injEq] at hpre
          subst hpre
          right; right
          simp only [Bool.not_eq_true', List.isEmpty_eq_false] at hdet
          exact ⟨ids, rfl, hguard, Or.inl ⟨by simpa using hdet, rfl⟩⟩
        · simp at hpre
    · rename_i block_id_path st2 hpre
      obtain ⟨hp1, hp2, hp3, -, -, -⟩ :=
        commitPrefilter_inr storage block_id block_id_path answers st st2 hpre
      have hst2 : st2.conflict_block_ids = st.conflict_block_ids ∨ st2.conflict_block_ids = [] := by
        cases block_id with
        | single id => exact Or.inl (hp3 rfl)
        | many ids => exact Or.inr (hp2 ids rfl).2
      split at h
      · rename_i r1 halloc
        simp only [Sum.inl.injEq] at h
        subst h
        unfold commitAllocate at halloc
        simp only at halloc
        split at halloc
        · simp only [Sum.inl.injEq] at halloc
          subst halloc
          rcases hst2 with h2 | h2
          · exact Or.inl (by simpa [CommitState.log] using h2)
          · exact Or.inr (Or.inl (by simpa [CommitState.log] using h2))
        · rename_i lock hlock
          unfold commitWithLock at halloc
          simp only at halloc
          split at halloc
          · rename_i hcp
            simp only [Bool.and_eq_true, bne_iff_ne, ne_eq] at hcp
            simp only [Sum.inl.injEq] at halloc
            subst halloc
            right; right
            cases block_id with
            | single id => simp [BlockIDsType.async_insert] at hcp
            | many ids =>
              obtain ⟨hnone, hempty⟩ :=
                commitPrefilter_inr_many storage ids block_id_path answers st st2 hpre
              refine ⟨ids, rfl, hguard, Or.inr (Or.inl ⟨hnone, lock, hlock, hcp.2, ?_⟩)⟩
              simp [CommitState.log, hempty]
          · simp at halloc
        · unfold commitWithoutLock at halloc
          simp only at halloc
          repeat' split at halloc
          all_goals first
            | (simp at halloc; done)
            | (simp only [Sum.inl.injEq] at halloc; subst halloc
               rcases hst2 with h2 | h2
               · exact Or.inl (by simpa [CommitState.log] using h2)
               · exact Or.inr (Or.inl (by simpa [CommitState.log] using h2)))
      · rename_i ctx2 st3 halloc
        obtain ⟨-, -, -, -, -, -, -, ha8⟩ :=
          commitAllocate_inr s storage fns is_attach block_id replicas_num block_id_path
            answers st2 st3 ctx2 hp1 halloc
        rw [← ha8] at hst2
        unfold commitRename at h
        simp only at h
        repeat' split at h
        all_goals first
          | (simp at h; done)
          | (simp only [Sum.inl.injEq] at h; subst h
             rcases hst2 with h2 | h2
             · exact Or.inl (by simpa [CommitState.log, rename_part_to_temporary] using h2)
             · exact Or.inr (Or.inl
                 (by simpa [CommitState.log, rename_part_to_temporary] using h2)))

/-- After the submission of the transaction `conflict_block_ids` is unchanged, unless the
transaction of the asynchronous sink failed with `ZNODEEXISTS` on one of the block-id paths:
then it is that one path. -/
theorem commitSubmit_conflicts (cls : ErrorClasses) (ctx : SubmitContext)
    (answers : CommitAnswers) (st : CommitState) :
    (commitSubmit cls ctx answers st).state.conflict_block_ids = st.conflict_block_ids ∨
      (ctx.block_id_path.async_insert = true ∧ answers.multi_code = .ZNODEEXISTS ∧
        ∃ failed_op_index : Nat, answers.failed_op_index = .ok failed_op_index ∧
          contains ctx.block_id_path (failedOpPath ctx.ops failed_op_index) = true ∧
          (commitSubmit cls ctx answers st).state.conflict_block_ids
            = [failedOpPath ctx.ops failed_op_index]) := by
  have huser : ∀ st2 : CommitState,
      (commitUserError ctx answers st2).state.conflict_block_ids = st2.conflict_block_ids ∨
      (ctx.block_id_path.async_insert = true ∧ answers.multi_code = .ZNODEEXISTS ∧
        ∃ failed_op_index : Nat, answers.failed_op_index = .ok failed_op_index ∧
          contains ctx.block_id_path (failedOpPath ctx.ops failed_op_index) = true ∧
          (commitUserError ctx answers st2).state.conflict_block_ids
            = [failedOpPath ctx.ops failed_op_index]) := by
    intro st2
    unfold commitUserError
    cases hidx : answers.failed_op_index with
    | error f => left; rfl
    | ok failed_op_index =>
      simp only
      by_cases hc : (decide (answers.multi_code = .ZNODEEXISTS) && ctx.deduplicate_block
          && contains ctx.block_id_path (failedOpPath ctx.ops failed_op_index)) = true
      · simp only [hc, if_true]
        by_cases ha : ctx.block_id_path.async_insert = true
        · right
          simp only [Bool.and_eq_true, decide_eq_true_eq] at hc
          exact ⟨ha, hc.1.1, failed_op_index, rfl, hc.2, by simp [ha]⟩
        · left
          have ha2 : ctx.block_id_path.async_insert = false := Bool.eq_false_iff.mpr ha
          simp only [ha2, Bool.false_eq_true, if_false]
          split <;> rfl
      · left
        have hc2 := Bool.eq_false_iff.mpr hc
        simp only [hc2, Bool.false_eq_true, if_false]
        repeat' split
        all_goals simp [CommitState.log, rename_part_to_temporary]
  have hfail : ∀ st2 : CommitState,
      (commitFailure cls ctx answers st2).state.conflict_block_ids = st2.conflict_block_ids ∨
      (ctx.block_id_path.async_insert = true ∧ answers.multi_code = .ZNODEEXISTS ∧
        ∃ failed_op_index : Nat, answers.failed_op_index = .ok failed_op_index ∧
          contains ctx.block_id_path (failedOpPath ctx.ops failed_op_index) = true ∧
          (commitFailure cls ctx answers st2).state.conflict_block_ids
            = [failedOpPath ctx.ops failed_op_index]) := by
    intro st2
    unfold commitFailure
    simp only
    split
    · left; simp [CommitState.setUserError]
    · split
      · exact huser st2
      · left
        split <;> simp [CommitState.log]
  have hlog : (st.log (.tryMultiNoThrow ctx.ops)).conflict_block_ids = st.conflict_block_ids :=
    rfl
  unfold commitSubmit
  simp only
  split
  · left
    split <;> simp [CommitState.log]
  · split
    · split
      · left; rfl
      · split
        · left
          split <;> rfl
        · rcases hfail (st.log (.tryMultiNoThrow ctx.ops)) with h | h
          · exact Or.inl (h.trans hlog)
          · exact Or.inr h
    · rcases hfail (st.log (.tryMultiNoThrow ctx.ops)) with h | h
      · exact Or.inl (h.trans hlog)
      · exact Or.inr h

/-- An iteration of the closure leaves `conflict_block_ids` non-empty only if it was so before
and is unchanged, or the iteration detected exactly these conflicts. -/
theorem commitPartIteration_conflicts (cls : ErrorClasses) (s : QuorumConfig)
    (storage : StorageNames) (fns : PartFunctions) (is_attach : Bool) (block_id : BlockIDsType)
    (replicas_num : Nat) (writing_existing_part : Bool) (answers : CommitAnswers)
    (st : CommitState)
    (h : (commitPartIteration cls s storage fns is_attach block_id replicas_num
      writing_existing_part answers st).state.conflict_block_ids ≠ []) :
    (commitPartIteration cls s storage fns is_attach block_id replicas_num
      writing_existing_part answers st).state.conflict_block_ids = st.conflict_block_ids ∨
    conflictDetected s storage fns is_attach block_id replicas_num writing_existing_part
      answers st
      (commitPartIteration cls s storage fns is_attach block_id replicas_num
        writing_existing_part answers st).state.conflict_block_ids := by
  revert h
  unfold commitPartIteration
  split
  · rename_i r hprepare
    intro h
    rcases commitPrepare_inl_conflicts s storage fns is_attach block_id replicas_num
      writing_existing_part answers st r hprepare with h1 | h1 | h1
    · exact Or.inl h1
    · exact absurd h1 h
    · exact Or.inr h1
  · rename_i ctx st1 hprepare
    intro h
    obtain ⟨hguard, -, hasync, -, hmany, hsingle, -, -, -⟩ :=
      commitPrepare_inr s storage fns is_attach block_id replicas_num writing_existing_part
        answers st st1 ctx hprepare
    rcases commitSubmit_conflicts cls ctx answers st1 with h1 | ⟨h1, h2, i, hi, hc, heq⟩
    · cases block_id with
      | single id => exact Or.inl (h1.trans (hsingle rfl))
      | many ids =>
        rw [h1] at h
        exact absurd (hmany ids rfl).2 h
    · right
      cases block_id with
      | single id =>
        rw [hasync] at h1
        simp [BlockIDsType.async_insert] at h1
      | many ids =>
        refine ⟨ids, rfl, hguard, Or.inr (Or.inr ⟨ctx, st1, i, hprepare, h2, hi, ?_, heq⟩)⟩
        rw [(hmany ids rfl).1] at hc
        simp only [contains, List.any_eq_true, beq_iff_eq] at hc
        obtain ⟨x, hx, hxe⟩ := hc
        rw [← hxe]
        exact hx

/-- The retry loop of `commitPart` ends with a non-empty `conflict_block_ids` only if the list
is the one of the start, or it was detected in one of the iterations that the loop ran. -/
theorem commitRetryLoop_conflicts (cls : ErrorClasses) (s : QuorumConfig)
    (storage : StorageNames) (fns : PartFunctions) (is_attach : Bool) (block_id : BlockIDsType)
    (replicas_num : Nat) (writing_existing_part : Bool) (commit_answers : List CommitAnswers) :
    ∀ (st : CommitState) (r : IterationResult),
      commitRetryLoop cls s storage fns is_attach block_id replicas_num writing_existing_part
        commit_answers st = some r →
      r.state.conflict_block_ids ≠ [] →
      r.state.conflict_block_ids = st.conflict_block_ids ∨
        ∃ run ∈ commitRetryLoopRuns cls s storage fns is_attach block_id replicas_num
            writing_existing_part commit_answers st,
          conflictDetected s storage fns is_attach block_id replicas_num
            writing_existing_part run.1 run.2 r.state.conflict_block_ids := by
  induction commit_answers with
  | nil =>
    intro st r hloop hne
    left
    rw [commitRetryLoop] at hloop
    split at hloop
    · simp only [Option.some.injEq] at hloop
      subst hloop
      rfl
    · simp only [Option.some.injEq] at hloop
      subst hloop
      rfl
    · simp at hloop
  | cons answers rest ih =>
    intro st r hloop hne
    rw [commitRetryLoop] at hloop
    rw [commitRetryLoopRuns]
    split at hloop
    · simp only [Option.some.injEq] at hloop
      subst hloop
      exact Or.inl rfl
    · simp only [Option.some.injEq] at hloop
      subst hloop
      exact Or.inl rfl
    · rename_i ctl hook hcan
      simp only [hcan]
      simp only at hloop
      have hiter := commitPartIteration_conflicts cls s storage fns is_attach block_id
        replicas_num writing_existing_part answers { st with retries_ctl := ctl }
      generalize commitPartIteration cls s storage fns is_attach block_id replicas_num
        writing_existing_part answers { st with retries_ctl := ctl } = r0 at hloop hiter ⊢
      have hstep : ∀ (st2 : CommitState)
          (tail : List (CommitAnswers × CommitState)),
          st2.conflict_block_ids = r0.state.conflict_block_ids →
          (r.state.conflict_block_ids = st2.conflict_block_ids ∨
            ∃ run ∈ tail, conflictDetected s storage fns is_attach block_id replicas_num
              writing_existing_part run.1 run.2 r.state.conflict_block_ids) →
          r.state.conflict_block_ids = st.conflict_block_ids ∨
            ∃ run ∈ (answers, { st with retries_ctl := ctl }) :: tail,
              conflictDetected s storage fns is_attach block_id replicas_num
                writing_existing_part run.1 run.2 r.state.conflict_block_ids := by
        intro st2 tail h2 h3
        rcases h3 with h3 | ⟨run, hrun, hd⟩
        · rw [h2] at h3
          rcases hiter (h3 ▸ hne) with h4 | h4
          · exact Or.inl (h3.trans h4)
          · exact Or.inr ⟨_, List.mem_cons_self _ _, h3 ▸ h4⟩
        · exact Or.inr ⟨run, List.mem_cons_of_mem _ hrun, hd⟩
      rcases r0 with ⟨thrown, state⟩
      cases thrown with
      | none =>
        simp only at hloop ⊢
        exact hstep _ _ rfl (ih _ r hloop hne)
      | some f =>
        cases f with
        | keeperException e =>
          simp only at hloop ⊢
          by_cases hhard : cls.isHardwareError e = true
          · simp only [hhard, if_true] at hloop ⊢
            exact hstep _ _ rfl (ih _ r hloop hne)
          · simp only [hhard] at hloop ⊢
            simp only [Bool.false_eq_true, if_false, Option.some.injEq] at hloop
            subst hloop
            exact hstep _ [] rfl (Or.inl rfl)
        | exception code =>
          simp only [Option.some.injEq] at hloop
          subst hloop
          exact hstep _ [] rfl (Or.inl rfl)
        | otherException code =>
          simp only [Option.some.injEq] at hloop
          subst hloop
          exact hstep _ [] rfl (Or.inl rfl)
        | emptyOptionalDereference =>
          simp only [Option.some.injEq] at hloop
          subst hloop
          exact hstep _ [] rfl (Or.inl rfl)

/-- C19: in async mode, when the transaction fails with `ZNODEEXISTS` on a path that is one
of the submitted async block-id paths, the closure renames the part back to temporary,
records no error, and sets the conflict list to exactly that path, which `commitPart`
returns. Conversely, when a call of `commitPart` that starts without conflicts returns a
non-empty list, one of the iterations that its retry loop ran detected exactly this list: the
cache prefilter returned it, or `allocateBlockNumber` returned a lock with this one conflict
path, or the transaction failed with `ZNODEEXISTS` on this one path, a submitted async
block-id path. -/
theorem C19_async_block_id_collision (cls : ErrorClasses) (s : QuorumConfig)
    (storage : StorageNames) (fns : PartFunctions) (is_attach : Bool) (ids : List String)
    (replicas_num : Nat) (writing_existing_part : Bool) (answers : CommitAnswers)
    (rest : List CommitAnswers) (quorum_answers : List QuorumWaitAnswers)
    (st0 st1 : CommitState) (ctl : ZooKeeperRetriesControl) (hook : List CommitEvent)
    (ctx : SubmitContext) (failed_op_index : Nat)
    (hcan : st0.retries_ctl.canTry = (.proceed, ctl, hook))
    (hfresh : ctl.iteration_succeeded = true)
    (hstarted : ctl.started = true)
    (hunconditional : ctl.unconditional_retry = false)
    (hprepare : commitPrepare s storage fns is_attach (.many ids) replicas_num
      writing_existing_part answers { st0 with retries_ctl := ctl } = .inr (ctx, st1))
    (hcode : answers.multi_code = .ZNODEEXISTS)
    (hindex : answers.failed_op_index = .ok failed_op_index)
    (hpath : failedOpPath ctx.ops failed_op_index ∈
      ids.map (fun single_block_id =>
        storage.zookeeper_path ++ "/async_blocks/" ++ single_block_id))
    (hhardware : cls.isHardwareError .ZNODEEXISTS = false)
    (huser : cls.isUserError .ZNODEEXISTS = true) :
    commitPartIteration cls s storage fns is_attach (.many ids) replicas_num
        writing_existing_part answers { st0 with retries_ctl := ctl }
      = ⟨none,
          { st1 with
            part := { st1.part with is_temp := true }
            conflict_block_ids := [failedOpPath ctx.ops failed_op_index]
            events := st1.events ++ [.tryMultiNoThrow ctx.ops, .renamePartToTemporary] }⟩ ∧
    st1.retries_ctl = ctl ∧
    returnedBy (commitPartFrom cls s storage fns is_attach (.many ids) replicas_num
        writing_existing_part (answers :: rest) quorum_answers st0)
      = some [failedOpPath ctx.ops failed_op_index] ∧
    (∀ (block_id : BlockIDsType) (replicas : Nat) (writing_existing : Bool)
        (commit_answers : List CommitAnswers) (quorum_wait_answers : List QuorumWaitAnswers)
        (st final : CommitState) (conflicts : List String),
      st.conflict_block_ids = [] →
      commitPartFrom cls s storage fns is_attach block_id replicas writing_existing
        commit_answers quorum_wait_answers st = some (.ok conflicts, final) →
      conflicts ≠ [] →
      ∃ run ∈ commitRetryLoopRuns cls s storage fns is_attach block_id replicas
          writing_existing commit_answers st,
        conflictDetected s storage fns is_attach block_id replicas writing_existing
          run.1 run.2 conflicts) := by
  obtain ⟨-, hd, -, -, hmany, -, -, hctl, -⟩ :=
    commitPrepare_inr s storage fns is_attach (.many ids) replicas_num writing_existing_part
      answers _ st1 ctx hprepare
  simp only at hctl
  have hpaths := (hmany ids rfl).1
  have hne : ids ≠ [] := by
    intro h
    rw [h] at hpath
    simp at hpath
  have hd2 : ctx.deduplicate_block = true := by
    rw [hd]
    cases ids with
    | nil => exact absurd rfl hne
    | cons a l => rfl
  have hcontains : contains ctx.block_id_path (failedOpPath ctx.ops failed_op_index) = true := by
    rw [hpaths]
    simp only [contains, List.any_eq_true, beq_iff_eq]
    exact ⟨_, hpath, rfl⟩
  have hasync : ctx.block_id_path.async_insert = true := by
    rw [hpaths]; rfl
  have hiter : commitPartIteration cls s storage fns is_attach (.many ids) replicas_num
        writing_existing_part answers { st0 with retries_ctl := ctl }
      = ⟨none,
          { st1 with
            part := { st1.part with is_temp := true }
            conflict_block_ids := [failedOpPath ctx.ops failed_op_index]
            events := st1.events ++ [.tryMultiNoThrow ctx.ops, .renamePartToTemporary] }⟩ := by
    unfold commitPartIteration
    rw [hprepare]
    simp [commitSubmit, commitFailure, commitUserError, hcode, hhardware, huser, hindex,
      hd2, hcontains, hasync, rename_part_to_temporary, CommitState.log]
  refine ⟨hiter, hctl, ?_, ?_⟩
  · unfold commitPartFrom
    rw [commitRetryLoop, hcan]
    simp only [hiter, CommitState.log]
    rw [commitRetryLoop]
    simp [ZooKeeperRetriesControl.canTry, hctl, hstarted, hunconditional, hfresh,
      commitPartFinish, returnedBy]
  · intro block_id replicas writing_existing commit_answers quorum_wait_answers st final
      conflicts hempty hrun hconflicts
    unfold commitPartFrom at hrun
    split at hrun
    · simp at hrun
    · simp at hrun
    · rename_i stl hloop
      have hl := commitRetryLoop_conflicts cls s storage fns is_attach block_id replicas
        writing_existing commit_answers st ⟨none, stl⟩ hloop
      unfold commitPartFinish at hrun
      split at hrun
      · rename_i hnonempty
        have hstl : stl.conflict_block_ids ≠ [] := by
          intro h
          simp [h] at hnonempty
        simp only [Option.some.injEq, Prod.mk.injEq, Except.ok.injEq] at hrun
        rw [← hrun.1]
        rcases hl hstl with h | h
        · exact absurd (h.trans hempty) hstl
        · exact h
      · split at hrun
        · split at hrun
          · simp at hrun
          · simp at hrun
          · simp only [Option.some.injEq, Prod.mk.injEq, Except.ok.injEq] at hrun
            exact absurd hrun.1.symm hconflicts
        · simp only [Option.some.injEq, Prod.mk.injEq, Except.ok.injEq] at hrun
          exact absurd hrun.1.symm hconflicts

/-- Witness for C19: the transaction of the first iteration of a call with the async block
ids `a` and `b` fails with `ZNODEEXISTS` on the op at index 3, the creation of
`/t/async_blocks/b`; the call returns this one path, and an iteration that the loop ran
detected it. -/
theorem C19_async_block_id_collision_witness :
    returnedBy (commitPartFrom keeperErrorClasses (QuorumConfig.construct 0 false false)
      exampleStorage examplePartFunctions false (.many ["a", "b"]) 1 false
      (exampleAnswers .ZNODEEXISTS 3 false :: []) []
      (commitPartStart (exampleSink 3) examplePart))
      = some ["/t/async_blocks/b"] ∧
    ∃ run ∈ commitRetryLoopRuns keeperErrorClasses (QuorumConfig.construct 0 false false)
        exampleStorage examplePartFunctions false (.many ["a", "b"]) 1 false
        (exampleAnswers .ZNODEEXISTS 3 false :: [])
        (commitPartStart (exampleSink 3) examplePart),
      conflictDetected (QuorumConfig.construct 0 false false) exampleStorage
        examplePartFunctions false (.many ["a", "b"]) 1 false run.1 run.2
        ["/t/async_blocks/b"] :=
  ⟨(C19_async_block_id_collision keeperErrorClasses (QuorumConfig.construct 0 false false)
      exampleStorage examplePartFunctions false ["a", "b"] 1 false
      (exampleAnswers .ZNODEEXISTS 3 false) [] []
      (commitPartStart (exampleSink 3) examplePart) _
      { ZooKeeperRetriesControl.create (exampleSink 3).zookeeper_retries_info with
        started := true } [] _ 3
      rfl rfl rfl rfl rfl rfl rfl (by decide) rfl rfl).2.2.1,
    (C19_async_block_id_collision keeperErrorClasses (QuorumConfig.construct 0 false false)
      exampleStorage examplePartFunctions false ["a", "b"] 1 false
      (exampleAnswers .ZNODEEXISTS 3 false) [] []
      (commitPartStart (exampleSink 3) examplePart) _
      { ZooKeeperRetriesControl.create (exampleSink 3).zookeeper_retries_info with
        started := true } [] _ 3
      rfl rfl rfl rfl rfl rfl rfl (by decide) rfl rfl).2.2.2
      (.many ["a", "b"]) 1 false (exampleAnswers .ZNODEEXISTS 3 false :: []) []
      (commitPartStart (exampleSink 3) examplePart) _ ["/t/async_blocks/b"]
      rfl rfl (by decide)⟩

/-! ## The tracker node names another part -/

/-- Counterexample to C25 as stated: the tracker node names another part, so the wait loop
ends, but `<replica_path>/is_active` is gone; the call raises `UNKNOWN_STATUS_OF_INSERT`
(the `NO_ACTIVE_REPLICAS` exception of the check after the loop, replaced by the handler). -/
theorem C25_counterexample_replica_inactive :
    waitForQuorumLoop "all_0_0_0" [⟨.ok (some "all_9_9_0"), true⟩] = some (.ok ()) ∧
    waitForQuorum "all_0_0_0" 5 [⟨.ok (some "all_9_9_0"), true⟩] (.ok none)
      = some (.error (.exception .UNKNOWN_STATUS_OF_INSERT)) :=
  ⟨by rfl, by rfl⟩

/-- C25 (amended): in `waitForQuorum`, when (after any number of rounds in which the watch
fired) the quorum tracker node exists but names a part different from `part_name`, the wait
loop ends at once without waiting for the watch; the call then returns without raising if
`<replica_path>/is_active` exists with version `is_active_node_version`, and raises
`UNKNOWN_STATUS_OF_INSERT` otherwise. -/
theorem C25_waitForQuorum_other_part (part_name other : String) (is_active_node_version : Int)
    (before after : List QuorumPoll) (poll : QuorumPoll)
    (is_active : Except Coordination.Error (Option Int))
    (hbefore : ∀ p ∈ before, p.node = .ok (some part_name) ∧ p.fired = true)
    (hnode : poll.node = .ok (some other))
    (hother : other ≠ part_name) :
    waitForQuorumLoop part_name (before ++ poll :: after) = some (.ok ()) ∧
    (is_active = .ok (some is_active_node_version) →
      waitForQuorum part_name is_active_node_version (before ++ poll :: after) is_active
        = some (.ok ())) ∧
    (is_active ≠ .ok (some is_active_node_version) →
      waitForQuorum part_name is_active_node_version (before ++ poll :: after) is_active
        = some (.error (.exception .UNKNOWN_STATUS_OF_INSERT))) := by
  have hloop : waitForQuorumLoop part_name (before ++ poll :: after) = some (.ok ()) := by
    rw [waitForQuorumLoop_fired part_name before _ hbefore, waitForQuorumLoop, hnode]
    simp [hother]
  refine ⟨hloop, ?_, ?_⟩
  · intro hactive
    unfold waitForQuorum waitForQuorumTry
    rw [hloop, hactive]
    simp
  · intro hinactive
    unfold waitForQuorum waitForQuorumTry
    rw [hloop]
    rcases is_active with e | v
    · simp
    · cases v with
      | none => simp
      | some version =>
        have hv : version ≠ is_active_node_version := by
          intro h
          exact hinactive (by rw [h])
        simp [hv]

/-- Witness for C25: the tracker names `all_9_9_0` while the call waits for `all_0_0_0`, and
the replica is still active with the expected version. -/
theorem C25_waitForQuorum_other_part_witness :
    waitForQuorum "all_0_0_0" 5 ([] ++ ⟨.ok (some "all_9_9_0"), false⟩ :: []) (.ok (some 5))
      = some (.ok ()) :=
  (C25_waitForQuorum_other_part "all_0_0_0" "all_9_9_0" 5 [] []
    ⟨.ok (some "all_9_9_0"), false⟩ (.ok (some 5))
    (by intro p hp; simp at hp) rfl (by decide)).2.1 rfl

/-! ## The block id already existed -/

/-- C24: in sync mode, when the allocation of the block number returns no lock and the name
of the existing part is read: if the replica has an active part covering that name, the
iteration sets `part->is_duplicate = true` and returns, having called neither
`renameTempPartAndAdd` nor `tryMultiNoThrow`, and having waited for the quorum of the
existing part name exactly when quorum is enabled; otherwise the part takes the existing
name and the part info parsed from it, and `block_id_path` is cleared before
`getCommitPartOps` builds the requests. -/
theorem C24_already_existing_part (cls : ErrorClasses) (s : QuorumConfig)
    (storage : StorageNames) (fns : PartFunctions) (is_attach : Bool) (id : String)
    (replicas_num : Nat) (writing_existing_part : Bool) (answers : CommitAnswers)
    (st : CommitState) (existing_part_name : String)
    (hguard : commitGuard storage writing_existing_part answers st = none)
    (hlock : answers.block_number_lock = .ok none)
    (hname : answers.existing_part_name = .ok existing_part_name) :
    (answers.active_containing_part = true →
      (commitPartIteration cls s storage fns is_attach (.single id) replicas_num
        writing_existing_part answers st).thrown = none ∧
      (commitPartIteration cls s storage fns is_attach (.single id) replicas_num
        writing_existing_part answers st).state.part
        = { st.part with is_duplicate := true } ∧
      (commitPartIteration cls s storage fns is_attach (.single id) replicas_num
        writing_existing_part answers st).state.events
        = st.events ++
          [.allocateBlockNumber
              (if id = "" then .single "" else .single (storage.zookeeper_path ++ "/blocks/" ++ id)),
            .getExistingPartName (storage.zookeeper_path ++ "/blocks/" ++ id)] ++
          (if s.isQuorumEnabled then
            [.waitForQuorum existing_part_name
              (if s.quorum_parallel then
                storage.zookeeper_path ++ "/quorum/parallel/" ++ existing_part_name
              else storage.zookeeper_path ++ "/quorum/status")]
          else [])) ∧
    (answers.active_containing_part = false →
      commitPrepare s storage fns is_attach (.single id) replicas_num writing_existing_part
          answers st
        = commitRename fns answers
            { ops := []
              block_unlock_op_idx := sizeModulus - 1
              block_number_lock := none
              block_id_path := .single ""
              deduplicate_block := !(BlockIDsType.single id).empty }
            { st with
              is_already_existing_part := true
              part := { st.part with name := existing_part_name
                                     info := fns.fromPartName existing_part_name }
              events := st.events ++
                [.allocateBlockNumber
                    (if id = "" then .single ""
                      else .single (storage.zookeeper_path ++ "/blocks/" ++ id)),
                  .getExistingPartName (storage.zookeeper_path ++ "/blocks/" ++ id)] } ∧
      ∀ (ctx : SubmitContext) (st1 : CommitState),
        commitPrepare s storage fns is_attach (.single id) replicas_num writing_existing_part
          answers st = .inr (ctx, st1) →
        ctx.block_id_path = .single "" ∧
        ctx.ops = fns.getCommitPartOps
          { st.part with name := existing_part_name
                         info := fns.fromPartName existing_part_name } (.single "") ∧
        st1.part = { st.part with name := existing_part_name
                                  info := fns.fromPartName existing_part_name }) := by
  have hpre : commitPrefilter storage (.single id) answers st
      = .inr (if id = "" then .single "" else .single (storage.zookeeper_path ++ "/blocks/" ++ id),
          st) := by
    by_cases hid : id = ""
    · simp [commitPrefilter, BlockIDsType.empty, hid]
    · simp [commitPrefilter, BlockIDsType.empty, hid]
  refine ⟨?_, ?_⟩
  · intro hactive
    cases hq : s.isQuorumEnabled
    · simp [commitPartIteration, commitPrepare, hguard, hpre, commitAllocate, hlock,
        commitWithoutLock, hname, hactive, hq, CommitState.log]
    · rcases hw : answers.wait_for_quorum with f | u
      · simp [commitPartIteration, commitPrepare, hguard, hpre, commitAllocate, hlock,
          commitWithoutLock, hname, hactive, hq, hw, CommitState.log]
      · simp [commitPartIteration, commitPrepare, hguard, hpre, commitAllocate, hlock,
          commitWithoutLock, hname, hactive, hq, hw, CommitState.log]
  · intro hinactive
    have hprepare : commitPrepare s storage fns is_attach (.single id) replicas_num
          writing_existing_part answers st
        = commitRename fns answers
            { ops := []
              block_unlock_op_idx := sizeModulus - 1
              block_number_lock := none
              block_id_path := .single ""
              deduplicate_block := !(BlockIDsType.single id).empty }
            { st with
              is_already_existing_part := true
              part := { st.part with name := existing_part_name
                                     info := fns.fromPartName existing_part_name }
              events := st.events ++
                [.allocateBlockNumber
                    (if id = "" then .single ""
                      else .single (storage.zookeeper_path ++ "/blocks/" ++ id)),
                  .getExistingPartName (storage.zookeeper_path ++ "/blocks/" ++ id)] } := by
      simp [commitPrepare, hguard, hpre, commitAllocate, hlock, commitWithoutLock, hname,
        hinactive, CommitState.log]
    refine ⟨hprepare, ?_⟩
    intro ctx st1 hinr
    rw [hprepare] at hinr
    obtain ⟨hc, hs⟩ := commitRename_inr fns answers _ ctx _ st1 hinr
    subst hc; subst hs
    simp [CommitState.log]

/-- Witness for C24: the block id `id1` already exists as part `all_3_3_0`, which is active
on this replica, and quorum is not enabled. -/
theorem C24_already_existing_part_witness :
    (commitPartIteration keeperErrorClasses (QuorumConfig.construct 0 false false)
      exampleStorage examplePartFunctions false (.single "id1") 1 false
      { exampleAnswers .ZOK 0 false with
        block_number_lock := .ok none, active_containing_part := true }
      (commitPartStart (exampleSink 3) examplePart)).state.part
      = { (commitPartStart (exampleSink 3) examplePart).part with is_duplicate := true } :=
  ((C24_already_existing_part keeperErrorClasses (QuorumConfig.construct 0 false false)
    exampleStorage examplePartFunctions false "id1" 1 false
    { exampleAnswers .ZOK 0 false with
      block_number_lock := .ok none, active_containing_part := true }
    (commitPartStart (exampleSink 3) examplePart) "all_3_3_0" rfl rfl rfl).1 rfl).2.1

/-! ## The flag `last_block_is_duplicate` -/

/-- When the loop over the queued partitions ends without exception, every partition was
committed and the flag is the disjunction of its value before and of the `is_duplicate`
flags of the parts. -/
theorem commitQueued_flag {β : Type} (cls : ErrorClasses) (s : QuorumConfig)
    (storage : StorageNames) (fns : PartFunctions) (is_attach : Bool) (replicas_num : Nat) :
    ∀ (partitions : List (QueuedPartition β))
      (answers : List (List CommitAnswers × List QuorumWaitAnswers))
      (members members1 : SinkMembers) (flag flag1 : Bool) (parts parts1 : List DataPart),
      commitQueued cls s storage fns is_attach replicas_num partitions answers
        (members, flag, parts) = some (none, members1, flag1, parts1) →
      ∃ committed : List DataPart,
        parts1 = parts ++ committed ∧ committed.length = partitions.length ∧
        flag1 = (flag || committed.any (fun part => part.is_duplicate)) := by
  intro partitions
  induction partitions with
  | nil =>
    intro answers members members1 flag flag1 parts parts1 h
    simp only [commitQueued, Option.some.injEq, Prod.mk.injEq, true_and] at h
    exact ⟨[], by simp [h.2.2], rfl, by simp [h.2.1]⟩
  | cons partition rest ih =>
    intro answers members members1 flag flag1 parts parts1 h
    rw [commitQueued] at h
    split at h
    · simp at h
    · simp at h
    · rename_i conflicts st hcommit
      obtain ⟨committed, h1, h2, h3⟩ := ih _ _ _ _ _ _ _ h
      refine ⟨st.part :: committed, by simp [h1], by simp [h2], ?_⟩
      rw [h3]
      simp [Bool.or_assoc]

/-- Counterexample to C21 as stated: a delayed chunk with two partitions; the block id of the
first already exists as a part that is active on this replica (duplicate), the second is
committed as a new part. The call completes, the last part committed is not a duplicate, and
`last_block_is_duplicate` is true. -/
theorem C21_counterexample_duplicate_before_last :
    (finishDelayedChunkSync keeperErrorClasses (QuorumConfig.construct 0 false false)
      exampleStorage examplePartFunctions false
      [([{ exampleAnswers .ZOK 0 false with
            block_number_lock := .ok none, active_containing_part := true }], []),
        ([exampleAnswers .ZOK 0 false], [])]
      { delayed_chunk := some ⟨1, [⟨examplePart, 1, .single "id1", ()⟩,
          ⟨examplePart, 1, .single "id2", ()⟩]⟩
        last_block_is_duplicate := false
        members := exampleSink 3 }).map
      (fun r => (r.1, r.2.1.last_block_is_duplicate,
        r.2.2.map (fun part => part.is_duplicate)))
      = some (none, true, [true, false]) := by
  decide

/-- C21 (amended): after the synchronous `finishDelayedChunk` completes without error on a
present delayed chunk, every partition of the chunk was committed, `delayed_chunk` is reset,
and `last_block_is_duplicate` is the disjunction of the `is_duplicate` flags of all the parts
committed by this call (true if any of them is a duplicate, false for a chunk without
partitions); with an absent delayed chunk the call returns at once and leaves the sink, and
so the flag, unchanged. -/
theorem C21_last_block_is_duplicate {β : Type} (cls : ErrorClasses) (s : QuorumConfig)
    (storage : StorageNames) (fns : PartFunctions) (is_attach : Bool)
    (answers : List (List CommitAnswers × List QuorumWaitAnswers)) (sink : SyncSink β) :
    (sink.delayed_chunk = none →
      finishDelayedChunkSync cls s storage fns is_attach answers sink
        = some (none, sink, [])) ∧
    (∀ (chunk : QueuedChunk β) (sink1 : SyncSink β) (parts : List DataPart),
      sink.delayed_chunk = some chunk →
      finishDelayedChunkSync cls s storage fns is_attach answers sink
        = some (none, sink1, parts) →
      parts.length = chunk.partitions.length ∧ sink1.delayed_chunk = none ∧
      sink1.last_block_is_duplicate = parts.any (fun part => part.is_duplicate)) := by
  refine ⟨?_, ?_⟩
  · intro hnone
    simp [finishDelayedChunkSync, hnone]
  · intro chunk sink1 parts hchunk hrun
    unfold finishDelayedChunkSync at hrun
    rw [hchunk] at hrun
    simp only at hrun
    split at hrun
    · simp at hrun
    · simp at hrun
    · rename_i members flag parts1 hloop
      obtain ⟨committed, h1, h2, h3⟩ := commitQueued_flag cls s storage fns is_attach
        chunk.replicas_num chunk.partitions answers _ _ _ _ _ _ hloop
      simp only [Option.some.injEq, Prod.mk.injEq, true_and] at hrun
      obtain ⟨hs, hp⟩ := hrun
      subst hs; subst hp
      simp only [List.nil_append] at h1
      subst h1
      exact ⟨h2, rfl, by simpa using h3⟩

/-- Witness for C21: a delayed chunk with one partition whose part is committed as new,
in a sink whose flag was true before. -/
theorem C21_last_block_is_duplicate_witness :
    ∃ (sink1 : SyncSink Unit) (parts : List DataPart),
      finishDelayedChunkSync keeperErrorClasses (QuorumConfig.construct 0 false false)
        exampleStorage examplePartFunctions false [([exampleAnswers .ZOK 0 false], [])]
        { delayed_chunk := some ⟨1, [⟨examplePart, 1, .single "id1", ()⟩]⟩
          last_block_is_duplicate := true
          members := exampleSink 3 } = some (none, sink1, parts) ∧
      sink1.last_block_is_duplicate = false ∧
      sink1.last_block_is_duplicate = parts.any (fun part => part.is_duplicate) :=
  ⟨_, _, rfl, rfl,
    ((C21_last_block_is_duplicate keeperErrorClasses (QuorumConfig.construct 0 false false)
      exampleStorage examplePartFunctions false [([exampleAnswers .ZOK 0 false], [])]
      { delayed_chunk := some ⟨1, [⟨examplePart, 1, .single "id1", ()⟩]⟩
        last_block_is_duplicate := true
        members := exampleSink 3 }).2 _ _ _ rfl rfl).2.2⟩

/-! ## Well-formedness is preserved by `filterBlockDuplicate` -/

theorem subBlockSizes_keptOffsets : ∀ (F : List Bool) (offs : List Nat) (start kept : Nat),
    subBlockSizes kept (keptOffsets F start kept offs) = keepBy F (subBlockSizes start offs) := by
  intro F
  induction F with
  | nil => intro offs start kept; simp [keptOffsets, keepBy, subBlockSizes]
  | cons f F ih =>
    intro offs start kept
    cases offs with
    | nil => simp [keptOffsets, keepBy, subBlockSizes]
    | cons off offs =>
      cases f
      · simp [keptOffsets, keepBy, subBlockSizes, ih]
      · simp [keptOffsets, keepBy, subBlockSizes, ih]

theorem subBlockSizes_sum : ∀ (offs : List Nat) (start : Nat),
    List.Chain (fun a b => a ≤ b) start offs →
    (subBlockSizes start offs).sum = offs.getLastD start - start := by
  intro offs
  induction offs with
  | nil => intro start _; simp [subBlockSizes]
  | cons off offs ih =>
    intro start hchain
    rw [List.chain_cons] at hchain
    have h1 := ih off hchain.2
    have h2 := chain_le_getLastD offs off hchain.2
    simp only [subBlockSizes, List.sum_cons, h1, List.getLastD_cons]
    omega

theorem subBlockSizes_length : ∀ (offs : List Nat) (start : Nat),
    (subBlockSizes start offs).length = offs.length := by
  intro offs
  induction offs with
  | nil => intro start; rfl
  | cons off offs ih => intro start; simp [subBlockSizes, ih]

theorem sum_keepBy_split : ∀ (F : List Bool) (xs : List Nat), F.length = xs.length →
    xs.sum = (keepBy F xs).sum + (keepBy (F.map (fun f => !f)) xs).sum := by
  intro F
  induction F with
  | nil =>
    intro xs h
    have : xs = [] := List.length_eq_zero.mp h.symm
    subst this
    simp [keepBy]
  | cons f F ih =>
    intro xs h
    cases xs with
    | nil => simp at h
    | cons x xs =>
      have h1 := ih xs (by simpa using h)
      cases f
      · simp only [keepBy, List.map_cons, Bool.not_false, Bool.false_eq_true, if_false,
          if_true, List.sum_cons]
        omega
      · simp only [keepBy, List.map_cons, Bool.not_true, Bool.false_eq_true, if_false,
          if_true, List.sum_cons]
        omega

/-- C27: for a partition whose `block_id_to_offset_idx` is the map built from its block ids
and which is well formed (one id per offset, non-decreasing offsets, the last offset equal
to the number of rows, columns of that size), and for conflict paths whose file names are
ids of the partition and pairwise different, `filterBlockDuplicate` (with `self_dedup` true
or false) returns a partition that is well formed again; the number of rows dropped is the
sum of the sizes of the removed sub-blocks, every surviving sub-block keeps its size and its
rows, and `block_id_to_offset_idx` maps each id exactly to the indexes at which it occurs in
the new `block_id`. -/
theorem C27_filterBlockDuplicate_preserves_wf {α : Type} (p : Partition α)
    (paths : List String) (self_dedup : Bool)
    (hmap : p.block_id_to_offset_idx = initBlockIDMapFrom p.block_id 0 [])
    (hwf : p.WellFormed)
    (hknown : ∀ path ∈ paths, filename path ∈ p.block_id)
    (hnodup : (paths.map filename).Nodup) :
    ∃ q : Partition α, p.filterBlockDuplicate paths self_dedup = .ok q ∧
      q.WellFormed ∧
      blockRows p.block_with_partition.block =
        blockRows q.block_with_partition.block +
          (keepBy ((removalFlags p.block_id paths self_dedup).map (fun f => !f))
            (subBlockSizes 0 p.block_with_partition.offsets)).sum ∧
      subBlockSizes 0 q.block_with_partition.offsets =
        keepBy (removalFlags p.block_id paths self_dedup)
          (subBlockSizes 0 p.block_with_partition.offsets) ∧
      q.subBlocks = keepBy (removalFlags p.block_id paths self_dedup) p.subBlocks ∧
      q.block_id = keepBy (removalFlags p.block_id paths self_dedup) p.block_id ∧
      (∀ id, q.block_id_to_offset_idx.find id =
        if id ∈ q.block_id then some (indexesFrom id q.block_id 0) else none) := by
  obtain ⟨q, hq, hids, hqmap, hqwf, hsub⟩ :=
    filterBlockDuplicate_wf p paths self_dedup hmap hwf hknown hnodup
  obtain ⟨q2, hq2, -, -, hrest⟩ :=
    filterBlockDuplicate_ok p paths self_dedup hmap hwf.1 hknown hnodup
  have hqq : q2 = q := by
    rw [hq] at hq2
    exact (Except.ok.inj hq2).symm
  subst hqq
  obtain ⟨hoffs, -⟩ := hrest hwf
  have hsizes : subBlockSizes 0 q2.block_with_partition.offsets =
      keepBy (removalFlags p.block_id paths self_dedup)
        (subBlockSizes 0 p.block_with_partition.offsets) := by
    rw [hoffs]
    exact subBlockSizes_keptOffsets _ _ 0 0
  refine ⟨q2, hq, hqwf, ?_, hsizes, hsub, hids, ?_⟩
  · obtain ⟨hlen, hchain, hlast, -, -⟩ := hwf
    obtain ⟨-, hqchain, hqlast, -, -⟩ := hqwf
    have hp := subBlockSizes_sum _ 0 hchain
    have hq3 := subBlockSizes_sum _ 0 hqchain
    have hsplit := sum_keepBy_split (removalFlags p.block_id paths self_dedup)
      (subBlockSizes 0 p.block_with_partition.offsets)
      (by rw [removalFlags_length, subBlockSizes_length, hlen])
    rw [← hsizes] at hsplit
    rw [← hlast, ← hqlast]
    omega
  · intro id
    rw [hqmap]
    exact find_initBlockIDMap _ _

/-- Witness for C27: ids `a`, `b`, `c` with two rows each, the conflict paths `.../c` and
`a`. -/
theorem C27_filterBlockDuplicate_preserves_wf_witness :
    ∃ q : Partition Int,
      (Partition.construct ["a", "b", "c"]
        { block := [[1, 2, 3, 4, 5, 6]], offsets := [2, 4, 6] } :
          Partition Int).filterBlockDuplicate ["/t/async_blocks/c", "a"] false = .ok q ∧
      q.WellFormed ∧ q.block_id = ["b"] ∧ q.subBlocks = [("b", [[3, 4]])] :=
  (C27_filterBlockDuplicate_preserves_wf
    (Partition.construct ["a", "b", "c"]
      { block := [[1, 2, 3, 4, 5, 6]], offsets := [2, 4, 6] } : Partition Int)
    ["/t/async_blocks/c", "a"] false rfl (by
      refine ⟨rfl, ?_, rfl, by decide, by decide⟩
      simp [Partition.construct, Partition.initBlockIDMap])
    (by decide) (by decide)).elim
    (fun q h => ⟨q, h.1, h.2.1, h.2.2.2.2.2.1.trans (by decide),
      h.2.2.2.2.1.trans (by decide)⟩)

/-! ## Termination of the conflict-resolution loop -/

theorem removedFlags_head : ∀ (n idx : Nat) (it : List Nat) (i : Nat),
    it.head? = some i → idx ≤ i → i < idx + n → true ∈ removedFlags n idx it := by
  intro n
  induction n with
  | zero => intro idx it i _ h1 h2; omega
  | succ n ih =>
    intro idx it i hhead h1 h2
    by_cases hi : i = idx
    · subst hi
      simp [removedFlags, hhead]
    · have hne : it.head? ≠ some idx := by
        rw [hhead]
        intro h
        exact hi (Option.some.inj h)
      simp only [removedFlags, hne, if_false, List.mem_cons, Bool.true_eq_false, false_or]
      exact ih (idx + 1) it i hhead (by omega) (by omega)

theorem keepBy_length_le {β : Type} : ∀ (F : List Bool) (xs : List β),
    (keepBy F xs).length ≤ xs.length := by
  intro F
  induction F with
  | nil => intro xs; simp [keepBy]
  | cons f F ih =>
    intro xs
    cases xs with
    | nil => simp [keepBy]
    | cons x xs =>
      have := ih xs
      cases f
      · simp [keepBy]; omega
      · simp [keepBy]; omega

theorem keepBy_length_lt {β : Type} : ∀ (F : List Bool) (xs : List β),
    F.length = xs.length → true ∈ F → (keepBy F xs).length < xs.length := by
  intro F
  induction F with
  | nil => intro xs _ h; simp at h
  | cons f F ih =>
    intro xs hlen hmem
    cases xs with
    | nil => simp at hlen
    | cons x xs =>
      cases f
      · have h1 : true ∈ F := by simpa using hmem
        have := ih xs (by simpa using hlen) h1
        simp [keepBy]; omega
      · have := keepBy_length_le F xs
        simp [keepBy]; omega

theorem foldl_filterStep_lengths (offsets : List Nat) (ids : List String) :
    ∀ (rem : List Nat) (st : FilterLoopState),
      st.new_offsets.length = st.new_block_ids.length →
      (rem.foldl (filterStep offsets ids) st).new_offsets.length =
        (rem.foldl (filterStep offsets ids) st).new_block_ids.length := by
  intro rem
  induction rem with
  | nil => intro st h; exact h
  | cons off rem ih =>
    intro st h
    rw [List.foldl_cons]
    apply ih
    unfold filterStep
    split
    · exact h
    · simp [h]

theorem indexesFrom_ne_nil (id : String) : ∀ (rest : List String) (k : Nat),
    id ∈ rest → indexesFrom id rest k ≠ [] := by
  intro rest
  induction rest with
  | nil => intro k h; simp at h
  | cons x rest ih =>
    intro k h
    by_cases hx : x = id
    · simp [indexesFrom, hx]
    · have : id ∈ rest := by
        rcases List.mem_cons.mp h with h1 | h1
        · exact absurd h1.symm hx
        · exact h1
      simp only [indexesFrom, hx, if_false]
      exact ih (k + 1) this

/-- A call `filterBlockDuplicate(conflicts, false)` with a non-empty list of conflict paths,
whatever they are, raises `LOGICAL_ERROR` or removes at least one sub-block; the new block ids
again come one per offset, with the map built from them. -/
theorem filterBlockDuplicate_decreases {α : Type} (p : Partition α)
    (hmap : p.block_id_to_offset_idx = initBlockIDMapFrom p.block_id 0 [])
    (hlen : p.block_id.length = p.block_with_partition.offsets.length)
    (conflicts : List String) (hne : conflicts ≠ []) :
    p.filterBlockDuplicate conflicts false = .error ErrorCode.LOGICAL_ERROR ∨
      ∃ q : Partition α, p.filterBlockDuplicate conflicts false = .ok q ∧
        q.block_id.length < p.block_id.length ∧
        q.block_id_to_offset_idx = initBlockIDMapFrom q.block_id 0 [] ∧
        q.block_id.length = q.block_with_partition.offsets.length := by
  by_cases hknown : ∀ path ∈ conflicts, filename path ∈ p.block_id
  · right
    unfold Partition.filterBlockDuplicate
    rw [hmap, collectOffsetIdx_conflictIdx p.block_id conflicts false hknown]
    simp only
    refine ⟨_, rfl, ?_, rfl, ?_⟩
    · simp only [Partition.initBlockIDMap]
      rw [foldl_filterStep_ids p.block_with_partition.offsets p.block_id
        p.block_with_partition.offsets p.block_id [] _ (by simp) rfl hlen]
      simp only [List.nil_append]
      apply keepBy_length_lt
      · rw [← hlen]
        clear hne hknown
        generalize (conflictIdx p.block_id conflicts false).insertionSort
          (fun a b => a ≤ b) = it
        generalize p.block_id.length = n
        generalize (0 : Nat) = idx
        induction n generalizing idx it with
        | zero => rfl
        | succ n ih =>
          simp only [removedFlags]
          split
          · simp [ih]
          · simp [ih]
      · obtain ⟨path, rest, hc⟩ := List.exists_cons_of_ne_nil hne
        have hpath : path ∈ conflicts := by rw [hc]; exact List.mem_cons_self _ _
        have hnonempty : conflictIdx p.block_id conflicts false ≠ [] := by
          intro hnil
          have hfirst := indexesFrom_ne_nil (filename path) p.block_id 0 (hknown path hpath)
          obtain ⟨i, l, hi⟩ := List.exists_cons_of_ne_nil hfirst
          have hmem : i ∈ conflictIdx p.block_id conflicts false := by
            rw [mem_conflictIdx]
            exact ⟨path, hpath, by simp [hi]⟩
          rw [hnil] at hmem
          simp at hmem
        have hperm := List.perm_insertionSort (fun a b : Nat => a ≤ b)
          (conflictIdx p.block_id conflicts false)
        have hsorted_ne : (conflictIdx p.block_id conflicts false).insertionSort
            (fun a b => a ≤ b) ≠ [] := by
          intro hnil
          rw [hnil] at hperm
          exact hnonempty (List.Perm.eq_nil hperm.symm)
        obtain ⟨i, l, hi⟩ := List.exists_cons_of_ne_nil hsorted_ne
        have hi_mem : i ∈ conflictIdx p.block_id conflicts false := by
          apply hperm.mem_iff.mp
          rw [hi]
          exact List.mem_cons_self _ _
        rw [mem_conflictIdx] at hi_mem
        obtain ⟨path2, _, hin⟩ := hi_mem
        simp only [Bool.false_eq_true, if_false, List.drop_zero, mem_indexesFrom,
          Nat.zero_le, Nat.sub_zero, true_and] at hin
        have hbound : i < p.block_id.length := by
          by_contra hcon
          rw [List.getElem?_eq_none (by omega)] at hin
          simp at hin
        apply removedFlags_head _ 0 _ i
        · rw [hi]; rfl
        · omega
        · rw [← hlen]; omega
    · simp only [Partition.initBlockIDMap]
      exact (foldl_filterStep_lengths _ _ _ _ rfl).symm
  · left
    have hex : ∃ path ∈ conflicts, p.block_id_to_offset_idx.find (filename path) = none := by
      by_contra hcon
      apply hknown
      intro path hpath
      by_contra hnot
      apply hcon
      refine ⟨path, hpath, ?_⟩
      rw [hmap, find_initBlockIDMap, if_neg hnot]
    unfold Partition.filterBlockDuplicate
    rw [collectOffsetIdx_error _ false conflicts [] hex]

theorem conflictLoop_fuel_succ {σ α : Type} (commitPart : CommitPart σ α) (r : Nat) :
    ∀ (fuel : Nat) (s : SinkState σ) (p : Partition α) (retry calls : Nat)
      (res : Except ErrorCode (SinkState σ × FinishedPartition α)),
      conflictLoop commitPart r fuel s p retry calls = some res →
      conflictLoop commitPart r (fuel + 1) s p retry calls = some res := by
  intro fuel
  induction fuel with
  | zero => intro s p retry calls res h; simp [conflictLoop] at h
  | succ fuel ih =>
    intro s p retry calls res h
    rw [conflictLoop] at h
    rw [conflictLoop]
    split
    · rename_i e hc
      simpa [hc] using h
    · rename_i conflicts s1 hc
      simp only [hc] at h
      split
      · rename_i he
        simpa [he] using h
      · rename_i he
        simp only [he, if_false] at h
        split
        · rename_i e hf
          simpa [hf] using h
        · rename_i q hf
          simp only [hf] at h
          split
          · rename_i hq
            simpa [hq] using h
          · rename_i hq
            simp only [hq, if_false] at h
            exact ih _ _ _ _ _ h

theorem conflictLoop_fuel_le {σ α : Type} (commitPart : CommitPart σ α) (r : Nat)
    (fuel fuel2 : Nat) (hle : fuel ≤ fuel2) (s : SinkState σ) (p : Partition α)
    (retry calls : Nat) (res : Except ErrorCode (SinkState σ × FinishedPartition α))
    (h : conflictLoop commitPart r fuel s p retry calls = some res) :
    conflictLoop commitPart r fuel2 s p retry calls = some res := by
  induction fuel2 with
  | zero =>
    have : fuel = 0 := by omega
    subst this
    exact h
  | succ n ih =>
    by_cases hn : fuel ≤ n
    · exact conflictLoop_fuel_succ commitPart r n s p retry calls res (ih hn)
    · have : fuel = n + 1 := by omega
      subst this
      exact h

/-- With `n + 1` iterations allowed, the loop over a partition of at most `n` sub-blocks
ends, whatever `commitPart` returns. -/
theorem conflictLoop_ends {σ α : Type} (commitPart : CommitPart σ α) (r : Nat) :
    ∀ (n : Nat) (s : SinkState σ) (p : Partition α) (retry calls : Nat),
      p.block_id_to_offset_idx = initBlockIDMapFrom p.block_id 0 [] →
      p.block_id.length = p.block_with_partition.offsets.length →
      p.block_id.length ≤ n →
      ∃ res, conflictLoop commitPart r (n + 1) s p retry calls = some res ∧
        ∀ s1 done, res = .ok (s1, done) → done.commit_calls ≤ calls + n + 1 := by
  intro n
  induction n with
  | zero =>
    intro s p retry calls hmap hlen hn
    rw [conflictLoop]
    rcases hc : commitPart s p r with e | ⟨conflicts, s1⟩
    · exact ⟨_, rfl, by intro s1 done h; cases h⟩
    · simp only
      by_cases he : conflicts.isEmpty = true
      · rw [if_pos he]
        refine ⟨_, rfl, ?_⟩
        intro s2 done h
        simp only [Except.ok.injEq, Prod.mk.injEq] at h
        rw [← h.2]
      · rw [if_neg he]
        have hne : conflicts ≠ [] := by
          intro h
          simp [h] at he
        rcases filterBlockDuplicate_decreases p hmap hlen conflicts hne with hf | ⟨q, hf, hlt, -, -⟩
        · rw [hf]
          exact ⟨_, rfl, by intro s1 done h; cases h⟩
        · omega
  | succ n ih =>
    intro s p retry calls hmap hlen hn
    rw [conflictLoop]
    rcases hc : commitPart s p r with e | ⟨conflicts, s1⟩
    · exact ⟨_, rfl, by intro s1 done h; cases h⟩
    · simp only
      by_cases he : conflicts.isEmpty = true
      · rw [if_pos he]
        refine ⟨_, rfl, ?_⟩
        intro s2 done h
        simp only [Except.ok.injEq, Prod.mk.injEq] at h
        rw [← h.2]
        simp only
        omega
      · rw [if_neg he]
        have hne : conflicts ≠ [] := by
          intro h
          simp [h] at he
        rcases filterBlockDuplicate_decreases p hmap hlen conflicts hne with
          hf | ⟨q, hf, hlt, hqmap, hqlen⟩
        · rw [hf]
          exact ⟨_, rfl, by intro s1 done h; cases h⟩
        · rw [hf]
          simp only
          by_cases hq : q.block_id.isEmpty = true
          · rw [if_pos hq]
            refine ⟨_, rfl, ?_⟩
            intro s2 done h
            simp only [Except.ok.injEq, Prod.mk.injEq] at h
            rw [← h.2]
            simp only
            omega
          · rw [if_neg hq]
            obtain ⟨res, hres, hcalls⟩ :=
              ih s1 q (retry + 1) (calls + 1) hqmap hqlen (by omega)
            refine ⟨res, hres, ?_⟩
            intro s2 done h
            have := hcalls s2 done h
            omega

/-- C28: for a partition of the asynchronous sink with one block id per offset and the map
built from its block ids, a call `filterBlockDuplicate(conflicts, false)` on a non-empty
conflict list raises `LOGICAL_ERROR` or strictly decreases the number of sub-blocks, whatever
the conflict paths are; so the conflict-resolution loop of `finishDelayedChunk` over a
partition with `n` sub-blocks ends within `n + 1` iterations, each of which calls
`commitPart` once, whatever `commitPart` returns, and more iterations allowed give the same
result. -/
theorem C28_conflict_loop_terminates {σ α : Type} (commitPart : CommitPart σ α)
    (replicas_num : Nat) (p : Partition α)
    (hmap : p.block_id_to_offset_idx = initBlockIDMapFrom p.block_id 0 [])
    (hlen : p.block_id.length = p.block_with_partition.offsets.length) :
    (∀ conflicts : List String, conflicts ≠ [] →
      p.filterBlockDuplicate conflicts false = .error ErrorCode.LOGICAL_ERROR ∨
      ∃ q : Partition α, p.filterBlockDuplicate conflicts false = .ok q ∧
        q.block_id.length < p.block_id.length) ∧
    (∀ (s : SinkState σ) (retry calls : Nat),
      ∃ res, conflictLoop commitPart replicas_num (p.block_id.length + 1) s p retry calls
          = some res ∧
        (∀ fuel, p.block_id.length < fuel →
          conflictLoop commitPart replicas_num fuel s p retry calls = some res) ∧
        (∀ s1 done, res = .ok (s1, done) →
          done.commit_calls ≤ calls + p.block_id.length + 1)) := by
  refine ⟨?_, ?_⟩
  · intro conflicts hne
    rcases filterBlockDuplicate_decreases p hmap hlen conflicts hne with h | ⟨q, h1, h2, -, -⟩
    · exact Or.inl h
    · exact Or.inr ⟨q, h1, h2⟩
  · intro s retry calls
    obtain ⟨res, hres, hcalls⟩ := conflictLoop_ends commitPart replicas_num p.block_id.length
      s p retry calls hmap hlen (le_refl _)
    refine ⟨res, hres, ?_, hcalls⟩
    intro fuel hfuel
    exact conflictLoop_fuel_le commitPart replicas_num _ fuel (by omega) s p retry calls res
      hres

/-- Witness for C28: the ids `a`, `b` and a `commitPart` that always reports the first
submitted id as a conflict; the loop ends within three iterations. -/
theorem C28_conflict_loop_terminates_witness :
    ∃ res, conflictLoop
        (fun (s : SinkState Unit) (q : Partition Int) _ => .ok (q.block_id.take 1, s)) 3
        (["a", "b"].length + 1) ⟨0, ()⟩
        (Partition.construct ["a", "b"] { block := [[10, 20]], offsets := [1, 2] } :
          Partition Int) 0 0 = some res :=
  ((C28_conflict_loop_terminates
    (fun (s : SinkState Unit) (q : Partition Int) _ => .ok (q.block_id.take 1, s)) 3
    (Partition.construct ["a", "b"] { block := [[10, 20]], offsets := [1, 2] } :
      Partition Int) rfl rfl).2 ⟨0, ()⟩ 0 0).elim (fun res h => ⟨res, h.1⟩)

/-! ## When `filterBlockDuplicate` raises -/

theorem filename_no_slash (raw_path : String) : '/' ∉ (filename raw_path).toList := by
  unfold filename
  intro h
  have h1 : '/' ∈ (raw_path.toList.reverse.takeWhile (fun c => c != '/')) := by
    simpa using h
  have h2 := List.mem_takeWhile_imp h1
  simp at h2

theorem filename_filename (raw_path : String) : filename (filename raw_path) = filename raw_path :=
  filename_eq_self _ (filename_no_slash raw_path)

theorem collectOffsetIdx_map_filename (m : BlockIdMap) (self_dedup : Bool) :
    ∀ (paths : List String) (acc : List Nat),
      collectOffsetIdx m self_dedup (paths.map filename) acc =
        collectOffsetIdx m self_dedup paths acc := by
  intro paths
  induction paths with
  | nil => intro acc; rfl
  | cons path paths ih =>
    intro acc
    rw [List.map_cons, collectOffsetIdx, collectOffsetIdx, filename_filename]
    cases m.find (filename path) with
    | none => rfl
    | some idxs => exact ih _

/-- C29: for a partition whose `block_id_to_offset_idx` is the map built from its block ids,
`filterBlockDuplicate` raises `LOGICAL_ERROR` if and only if the file name (the final path
component) of some conflict path is not an id of the partition, and it raises nothing else;
only the file names matter, so a full coordinator path and a bare id are treated alike; and
when it raises, the partition, with its block ids, offsets and rows, is left unchanged. -/
theorem C29_filterBlockDuplicate_raises {α : Type} (p : Partition α) (paths : List String)
    (self_dedup : Bool)
    (hmap : p.block_id_to_offset_idx = initBlockIDMapFrom p.block_id 0 []) :
    ((p.filterBlockDuplicateRun paths self_dedup).1 = some ErrorCode.LOGICAL_ERROR ↔
      ∃ path ∈ paths, filename path ∉ p.block_id) ∧
    ((p.filterBlockDuplicateRun paths self_dedup).1 = none ∨
      (p.filterBlockDuplicateRun paths self_dedup).1 = some ErrorCode.LOGICAL_ERROR) ∧
    p.filterBlockDuplicate (paths.map filename) self_dedup =
      p.filterBlockDuplicate paths self_dedup ∧
    ((p.filterBlockDuplicateRun paths self_dedup).1 ≠ none →
      (p.filterBlockDuplicateRun paths self_dedup).2.block_id = p.block_id ∧
      (p.filterBlockDuplicateRun paths self_dedup).2.block_with_partition.offsets =
        p.block_with_partition.offsets ∧
      (p.filterBlockDuplicateRun paths self_dedup).2.block_with_partition.block =
        p.block_with_partition.block) := by
  have hcases : (∃ path ∈ paths, filename path ∉ p.block_id) ∨
      ∀ path ∈ paths, filename path ∈ p.block_id := by
    by_cases h : ∀ path ∈ paths, filename path ∈ p.block_id
    · exact Or.inr h
    · left
      by_contra hcon
      apply h
      intro path hpath
      by_contra hnot
      exact hcon ⟨path, hpath, hnot⟩
  have hsame : p.filterBlockDuplicate (paths.map filename) self_dedup =
      p.filterBlockDuplicate paths self_dedup := by
    unfold Partition.filterBlockDuplicate
    rw [collectOffsetIdx_map_filename]
  rcases hcases with hunknown | hknown
  · have hex : ∃ path ∈ paths, p.block_id_to_offset_idx.find (filename path) = none := by
      obtain ⟨path, hpath, hnot⟩ := hunknown
      exact ⟨path, hpath, by rw [hmap, find_initBlockIDMap, if_neg hnot]⟩
    have herr : p.filterBlockDuplicate paths self_dedup = .error ErrorCode.LOGICAL_ERROR := by
      unfold Partition.filterBlockDuplicate
      rw [collectOffsetIdx_error _ self_dedup paths [] hex]
    have hrun : p.filterBlockDuplicateRun paths self_dedup
        = (some ErrorCode.LOGICAL_ERROR, p) := by
      unfold Partition.filterBlockDuplicateRun
      rw [herr]
    rw [hrun]
    exact ⟨⟨fun _ => hunknown, fun _ => rfl⟩, Or.inr rfl, hsame, fun _ => ⟨rfl, rfl, rfl⟩⟩
  · have hok : ∃ q, p.filterBlockDuplicate paths self_dedup = .ok q := by
      unfold Partition.filterBlockDuplicate
      rw [hmap, collectOffsetIdx_conflictIdx p.block_id paths self_dedup hknown]
      exact ⟨_, rfl⟩
    obtain ⟨q, hq⟩ := hok
    have hrun : p.filterBlockDuplicateRun paths self_dedup = (none, q) := by
      unfold Partition.filterBlockDuplicateRun
      rw [hq]
    rw [hrun]
    refine ⟨⟨fun h => by simp at h, ?_⟩, Or.inl rfl, hsame, fun h => absurd rfl h⟩
    rintro ⟨path, hpath, hnot⟩
    exact absurd (hknown path hpath) hnot

/-- Witness for C29: the ids `a`, `b` and the conflict path `/t/async_blocks/c`, whose file
name `c` is not an id of the partition. -/
theorem C29_filterBlockDuplicate_raises_witness :
    ((Partition.construct ["a", "b"] { block := [[10, 20]], offsets := [1, 2] } :
        Partition Int).filterBlockDuplicateRun ["/t/async_blocks/c"] false).1
      = some ErrorCode.LOGICAL_ERROR :=
  (C29_filterBlockDuplicate_raises
    (Partition.construct ["a", "b"] { block := [[10, 20]], offsets := [1, 2] } : Partition Int)
    ["/t/async_blocks/c"] false rfl).1.mpr ⟨"/t/async_blocks/c", by simp, by decide⟩

/-! ## Columns of a storage snapshot -/

theorem appendMissing_eq {τ : Type} (column_names : List String) :
    ∀ (entries : List (String × τ)) (all_columns : NamesAndTypesList τ),
      appendMissing column_names entries all_columns =
        all_columns ++ entries.filter (fun entry => !column_names.contains entry.1) := by
  intro entries
  induction entries with
  | nil => intro all_columns; simp [appendMissing]
  | cons entry entries ih =>
    intro all_columns
    have hstep : appendMissing column_names (entry :: entries) all_columns =
        appendMissing column_names entries
          (if column_names.contains entry.1 then all_columns else all_columns ++ [entry]) := rfl
    rw [hstep, ih]
    by_cases h : entry.1 ∈ column_names
    · simp [h, List.filter_cons]
    · simp [h, List.filter_cons]

/-- The ordinary columns, after `extendObjectColumns` when asked for, come first and in their
order; every column after them is a virtual or a system column whose name no ordinary column
has. -/
theorem getColumns_ordinary_first {τ : Type} (visit : List (String × τ) → List (String × τ))
    (hvisit : ∀ m, (visit m).Perm m) (snapshot : StorageSnapshot τ)
    (options : GetColumnsOptions) :
    ∃ added : NamesAndTypesList τ,
      snapshot.getColumns visit options =
        (if options.with_extended_objects then
          snapshot.extendObjectColumns (snapshot.columns_get options) options.with_subcolumns
        else snapshot.columns_get options) ++ added ∧
      ∀ column ∈ added,
        column.1 ∉ (if options.with_extended_objects then
            snapshot.extendObjectColumns (snapshot.columns_get options) options.with_subcolumns
          else snapshot.columns_get options).map Prod.fst ∧
        (column ∈ snapshot.virtual_columns ∨ column ∈ snapshot.system_columns) := by
  generalize hord : (if options.with_extended_objects then
      snapshot.extendObjectColumns (snapshot.columns_get options) options.with_subcolumns
    else snapshot.columns_get options) = ordinary
  have hv : ∀ c, c ∈ visit snapshot.virtual_columns ↔ c ∈ snapshot.virtual_columns :=
    fun c => (hvisit _).mem_iff
  have hs : ∀ c, c ∈ visit snapshot.system_columns ↔ c ∈ snapshot.system_columns :=
    fun c => (hvisit _).mem_iff
  unfold StorageSnapshot.getColumns
  simp only [hord, appendMissing_eq]
  by_cases h1 : (options.with_virtuals && !snapshot.virtual_columns.isEmpty) = true
  · by_cases h2 : options.with_system_columns = true
    · by_cases h3 : (!snapshot.system_columns.isEmpty &&
          (ordinary.map Prod.fst).isEmpty) = true
      · refine ⟨_, by simp only [h1, h2, h3, if_true, List.append_assoc]; rfl, ?_⟩
        intro c hc
        simp only [List.mem_append, List.mem_filter] at hc
        rcases hc with hc | hc
        · exact ⟨by simpa using hc.2, Or.inl ((hv c).mp hc.1)⟩
        · refine ⟨?_, Or.inr ((hs c).mp hc.1)⟩
          have := hc.2
          simp only [List.map_append, List.contains_eq_any_beq, Bool.not_eq_true',
            List.any_eq_false, beq_iff_eq, List.mem_append] at this
          intro hmem
          exact this c.1 (Or.inl hmem) rfl
      · refine ⟨_, by simp only [h1, h2, h3, if_true, List.append_assoc]; rfl, ?_⟩
        intro c hc
        simp only [List.mem_append, List.mem_filter] at hc
        rcases hc with hc | hc
        · exact ⟨by simpa using hc.2, Or.inl ((hv c).mp hc.1)⟩
        · exact ⟨by simpa using hc.2, Or.inr ((hs c).mp hc.1)⟩
    · refine ⟨_, by simp only [h1, h2, if_true]; rfl, ?_⟩
      intro c hc
      simp only [List.mem_filter] at hc
      exact ⟨by simpa using hc.2, Or.inl ((hv c).mp hc.1)⟩
  · by_cases h2 : options.with_system_columns = true
    · by_cases h3 : (!snapshot.system_columns.isEmpty) = true
      · refine ⟨_, by simp only [h1, h2, h3, if_true]; rfl, ?_⟩
        intro c hc
        simp only [List.mem_filter] at hc
        exact ⟨by simpa using hc.2, Or.inr ((hs c).mp hc.1)⟩
      · refine ⟨[], ?_, by simp⟩
        have hempty : snapshot.system_columns = [] := by simpa using h3
        have hvis : visit snapshot.system_columns = [] := by
          have := hvisit snapshot.system_columns
          rw [hempty] at this ⊢
          exact List.Perm.eq_nil this
        simp [h1, h2, hvis]
    · refine ⟨[], ?_, by simp⟩
      simp [h1, h2]

theorem exampleSnapshot_virtual_columns (ordinary : NamesAndTypesList String) :
    (exampleSnapshot ordinary).virtual_columns
      = [("_part", "String"), ("_row_exists", "UInt8")] := by
  simp [exampleSnapshot, StorageSnapshot.init, setColumn]

theorem exampleSnapshot_system_columns (ordinary : NamesAndTypesList String) :
    (exampleSnapshot ordinary).system_columns = [("_row_exists", "UInt8")] := by
  simp [exampleSnapshot, StorageSnapshot.init, setColumn]

/-- C30: a snapshot made by `init` for a storage that lists the mask column `_row_exists` among
its virtual columns and has a lightweight-delete mask. Asked for virtual and system columns,
`getColumns` returns the name `_row_exists` twice when the table has the one ordinary column
`a`, in whatever order the maps are iterated, although the ordinary names are pairwise
different; with no ordinary column the same name comes once. -/
theorem C30_getColumns_repeats_name
    (visit : List (String × String) → List (String × String))
    (hvisit : ∀ m, (visit m).Perm m) :
    ((((exampleSnapshot [("a", "UInt8")]).getColumns visit
        { kind := 0, with_subcolumns := false, with_virtuals := true,
          with_extended_objects := false, with_system_columns := true }).map
        Prod.fst).count "_row_exists" = 2) ∧
    ((((exampleSnapshot []).getColumns visit
        { kind := 0, with_subcolumns := false, with_virtuals := true,
          with_extended_objects := false, with_system_columns := true }).map
        Prod.fst).count "_row_exists" = 1) := by
  have hS : visit [("_row_exists", "UInt8")] = [("_row_exists", "UInt8")] :=
    List.perm_singleton.mp (hvisit _)
  have hV := hvisit [("_part", "String"), ("_row_exists", "UInt8")]
  have hget : ∀ ordinary options, (exampleSnapshot ordinary).columns_get options = ordinary :=
    fun _ _ => rfl
  constructor
  · simp [StorageSnapshot.getColumns, exampleSnapshot_virtual_columns,
      exampleSnapshot_system_columns, appendMissing_eq, hS, hget]
    rw [((hV.filter _).map _).count_eq]
    decide
  · simp [StorageSnapshot.getColumns, exampleSnapshot_virtual_columns,
      exampleSnapshot_system_columns, appendMissing_eq, hS, hget]
    have hmem : "_row_exists" ∈ List.map Prod.fst
        (visit [("_part", "String"), ("_row_exists", "UInt8")]) :=
      (hV.map Prod.fst).mem_iff.mpr (by decide)
    rw [(hV.map Prod.fst).count_eq]
    simp [List.filter_cons, hmem]

/-- Witness for C30: the maps are iterated in the order of their entries. -/
theorem C30_getColumns_repeats_name_witness :
    (((exampleSnapshot [("a", "UInt8")]).getColumns id
        { kind := 0, with_subcolumns := false, with_virtuals := true,
          with_extended_objects := false, with_system_columns := true }).map
        Prod.fst).count "_row_exists" = 2 :=
  (C30_getColumns_repeats_name id (fun _ => List.Perm.refl _)).1

/-! ## The loop of `consume` -/

theorem queuedStreams_append {β : Type} (xs ys : List (QueuedPartition β)) :
    queuedStreams (xs ++ ys) = queuedStreams xs + queuedStreams ys := by
  simp [queuedStreams]

/-- One iteration of the loop that ends without an exception keeps what is known of the
counter `streams` and of the queue. -/
theorem consumeStep_queue {β : Type} (deduplicate : Bool) (settings : InsertSettings)
    (default_streams : Nat) (writeTempPart : β → TemporaryPart)
    (getBlockID : DataPart → String → String)
    (finish : SyncSink β → Option Failure × SyncSink β) (replicas_num : Nat)
    (st st1 : ConsumeState β) (current_block : β)
    (hcap : 2 * settings.max_insert_delayed_streams_for_parallel_write < sizeModulus)
    (hblock : (writeTempPart current_block).streams
      ≤ settings.max_insert_delayed_streams_for_parallel_write)
    (hsup : st.support_parallel_write = false)
    (hstreams : st.streams ≤ settings.max_insert_delayed_streams_for_parallel_write)
    (hall : ∀ p ∈ st.partitions,
      p.streams ≤ settings.max_insert_delayed_streams_for_parallel_write)
    (htail : queuedStreams st.partitions.tail ≤ st.streams)
    (h : consumeStep deduplicate settings default_streams writeTempPart getBlockID finish
      replicas_num st current_block = (none, st1)) :
    st1.support_parallel_write = false ∧
    st1.streams ≤ settings.max_insert_delayed_streams_for_parallel_write ∧
    (∀ p ∈ st1.partitions,
      p.streams ≤ settings.max_insert_delayed_streams_for_parallel_write) ∧
    queuedStreams st1.partitions.tail ≤ st1.streams := by
  have hadd : sizeAdd st.streams (writeTempPart current_block).streams
      = st.streams + (writeTempPart current_block).streams := by
    unfold sizeAdd
    exact Nat.mod_eq_of_lt (by omega)
  unfold consumeStep at h
  cases hpart : (writeTempPart current_block).part with
  | none =>
    simp only [hpart, Prod.mk.injEq, true_and] at h
    subst h
    exact ⟨hsup, hstreams, hall, htail⟩
  | some part =>
    simp only [hpart, hsup, hadd, Bool.not_false, Bool.true_or, if_true] at h
    split at h
    · split at h
      · simp at h
      · split at h
        · simp at h
        · simp only [Prod.mk.injEq, true_and] at h
          subst h
          refine ⟨rfl, Nat.zero_le _, ?_, by simp [queuedStreams]⟩
          intro p hp
          simp only [List.mem_singleton] at hp
          subst hp
          exact hblock
    · rename_i hle
      simp only [Prod.mk.injEq, true_and] at h
      subst h
      refine ⟨rfl, by simpa using hle, ?_, ?_⟩
      · intro p hp
        simp only [List.mem_append, List.mem_singleton] at hp
        rcases hp with hp | hp
        · exact hall p hp
        · subst hp
          exact hblock
      · simp only
        cases hq : st.partitions with
        | nil => simp [queuedStreams]
        | cons q qs =>
          rw [hq] at htail
          simp only [List.tail_cons, List.cons_append] at htail ⊢
          rw [queuedStreams_append]
          simp only [queuedStreams, List.map_cons, List.map_nil, List.sum_cons, List.sum_nil,
            Nat.add_zero] at htail ⊢
          omega

/-- The loop of `consume`, when it ends without an exception, keeps what is known of the
counter `streams` and of the queue. -/
theorem consumeParts_queue {β : Type} (deduplicate : Bool) (settings : InsertSettings)
    (default_streams : Nat) (writeTempPart : β → TemporaryPart)
    (getBlockID : DataPart → String → String)
    (finish : SyncSink β → Option Failure × SyncSink β) (replicas_num : Nat)
    (hcap : 2 * settings.max_insert_delayed_streams_for_parallel_write < sizeModulus) :
    ∀ (blocks : List β) (st st1 : ConsumeState β),
      (∀ b ∈ blocks, (writeTempPart b).streams
        ≤ settings.max_insert_delayed_streams_for_parallel_write) →
      st.support_parallel_write = false →
      st.streams ≤ settings.max_insert_delayed_streams_for_parallel_write →
      (∀ p ∈ st.partitions,
        p.streams ≤ settings.max_insert_delayed_streams_for_parallel_write) →
      queuedStreams st.partitions.tail ≤ st.streams →
      consumeParts deduplicate settings default_streams writeTempPart getBlockID finish
        replicas_num blocks st = (none, st1) →
      st1.support_parallel_write = false ∧
      st1.streams ≤ settings.max_insert_delayed_streams_for_parallel_write ∧
      (∀ p ∈ st1.partitions,
        p.streams ≤ settings.max_insert_delayed_streams_for_parallel_write) ∧
      queuedStreams st1.partitions.tail ≤ st1.streams := by
  intro blocks
  induction blocks with
  | nil =>
    intro st st1 _ hsup hstreams hall htail h
    simp only [consumeParts, Prod.mk.injEq, true_and] at h
    subst h
    exact ⟨hsup, hstreams, hall, htail⟩
  | cons b rest ih =>
    intro st st1 hblocks hsup hstreams hall htail h
    unfold consumeParts at h
    cases hstep : consumeStep deduplicate settings default_streams writeTempPart getBlockID
        finish replicas_num st b with
    | mk f st2 =>
      cases f with
      | some f => simp [hstep] at h
      | none =>
        simp only [hstep] at h
        obtain ⟨h1, h2, h3, h4⟩ := consumeStep_queue deduplicate settings default_streams
          writeTempPart getBlockID finish replicas_num st st2 b hcap
          (hblocks b (List.mem_cons_self _ _)) hsup hstreams hall htail hstep
        exact ih st2 st1 (fun x hx => hblocks x (List.mem_cons_of_mem _ hx)) h1 h2 h3 h4 h

/-- C26 as stated fails: with the cap 10 and three blocks whose parts have 6 write streams
each, no part needs more streams than the cap, the second part flushes the queue and stays
queued with the counter reset to 0, and at the end of the third iteration the queue holds two
parts with 12 streams in all. -/
theorem C26_counterexample_queue_above_cap :
    (∀ b ∈ [6, 6, 6], (exampleWriteTempPart b).streams
      ≤ (exampleSettings "" 10).max_insert_delayed_streams_for_parallel_write) ∧
    (consumeParts false (exampleSettings "" 10) 1000 exampleWriteTempPart
      (getZeroLevelPartBlockID (fun part => part.checksum)) exampleFinish 1 [6, 6, 6]
      (consumeStart exampleSyncSink 0)).1 = none ∧
    queuedStreams (consumeParts false (exampleSettings "" 10) 1000 exampleWriteTempPart
      (getZeroLevelPartBlockID (fun part => part.checksum)) exampleFinish 1 [6, 6, 6]
      (consumeStart exampleSyncSink 0)).2.partitions = 12 ∧
    ¬ (queuedStreams (consumeParts false (exampleSettings "" 10) 1000 exampleWriteTempPart
      (getZeroLevelPartBlockID (fun part => part.checksum)) exampleFinish 1 [6, 6, 6]
      (consumeStart exampleSyncSink 0)).2.partitions
        ≤ (exampleSettings "" 10).max_insert_delayed_streams_for_parallel_write) := by
  refine ⟨by decide, by decide, by decide, by decide⟩

/-- C26, amended: provided no temp part of the blocks needs more write streams than the cap
`max_insert_delayed_streams_for_parallel_write` (and twice the cap is below `2^64`), at the
end of every iteration of the loop of `consume`, that is after any number `done` of the blocks
has been handled without an exception, the counter `streams` is at most the cap, and the
total number of write streams of the queued partitions is at most the streams of the first
queued partition plus the counter, hence at most twice the cap. -/
theorem C26_queued_streams_bound {β : Type} (deduplicate : Bool) (settings : InsertSettings)
    (default_streams : Nat) (writeTempPart : β → TemporaryPart)
    (getBlockID : DataPart → String → String)
    (finish : SyncSink β → Option Failure × SyncSink β) (replicas_num : Nat)
    (part_blocks done rest : List β) (sink : SyncSink β) (chunk_dedup_seqnum : Nat)
    (st : ConsumeState β)
    (hcap : 2 * settings.max_insert_delayed_streams_for_parallel_write < sizeModulus)
    (hparts : ∀ b ∈ part_blocks, (writeTempPart b).streams
      ≤ settings.max_insert_delayed_streams_for_parallel_write)
    (hsplit : part_blocks = done ++ rest)
    (hrun : consumeParts deduplicate settings default_streams writeTempPart getBlockID finish
      replicas_num done (consumeStart sink chunk_dedup_seqnum) = (none, st)) :
    st.streams ≤ settings.max_insert_delayed_streams_for_parallel_write ∧
    queuedStreams st.partitions
      ≤ ((st.partitions.head?.map (fun partition => partition.streams)).getD 0)
        + st.streams ∧
    queuedStreams st.partitions
      ≤ 2 * settings.max_insert_delayed_streams_for_parallel_write := by
  obtain ⟨_, h2, h3, h4⟩ := consumeParts_queue deduplicate settings default_streams
    writeTempPart getBlockID finish replicas_num hcap done (consumeStart sink chunk_dedup_seqnum)
    st (fun b hb => hparts b (by rw [hsplit]; exact List.mem_append_left _ hb)) rfl
    (Nat.zero_le _) (by simp [consumeStart]) (by simp [consumeStart, queuedStreams]) hrun
  cases hq : st.partitions with
  | nil => simp [queuedStreams]; exact h2
  | cons q qs =>
    rw [hq] at h3 h4
    have hq1 := h3 q (List.mem_cons_self _ _)
    simp only [List.tail_cons] at h4
    simp only [queuedStreams, List.map_cons, List.sum_cons, List.head?_cons, Option.map_some',
      Option.getD_some] at h4 ⊢
    refine ⟨h2, by omega, by omega⟩

/-- Witness for C26: the cap 10 and three blocks whose parts have 6 write streams each. -/
theorem C26_queued_streams_bound_witness :
    queuedStreams (consumeParts false (exampleSettings "" 10) 1000 exampleWriteTempPart
      (getZeroLevelPartBlockID (fun part => part.checksum)) exampleFinish 1 [6, 6, 6]
      (consumeStart exampleSyncSink 0)).2.partitions ≤ 2 * 10 :=
  (C26_queued_streams_bound false (exampleSettings "" 10) 1000 exampleWriteTempPart
    (getZeroLevelPartBlockID (fun part => part.checksum)) exampleFinish 1 [6, 6, 6] [6, 6, 6] []
    exampleSyncSink 0 _ (by decide) (by decide) rfl rfl).2.2

/-! ## Deduplication tokens in `consume` -/

theorem digitChar_value (k : Nat) (hk : k < 10) : (Nat.digitChar k).toNat - 48 = k := by
  interval_cases k <;> rfl

theorem toDigitsCore_value :
    ∀ (fuel n : Nat) (ds : List Char), n < fuel →
      (Nat.toDigitsCore 10 fuel n ds).foldl (fun value c => 10 * value + (c.toNat - 48)) 0
        = ds.foldl (fun value c => 10 * value + (c.toNat - 48)) n := by
  intro fuel
  induction fuel with
  | zero => intro n ds h; omega
  | succ fuel ih =>
    intro n ds h
    unfold Nat.toDigitsCore
    simp only
    split
    · rename_i hzero
      have hn : n < 10 := by omega
      simp only [List.foldl_cons, Nat.mul_zero, Nat.zero_add]
      rw [digitChar_value (n % 10) (Nat.mod_lt _ (by decide)), Nat.mod_eq_of_lt hn]
    · rename_i hpos
      rw [ih (n / 10) _ (by omega)]
      simp only [List.foldl_cons]
      rw [digitChar_value (n % 10) (Nat.mod_lt _ (by decide))]
      have : 10 * (n / 10) + n % 10 = n := Nat.div_add_mod n 10
      rw [this]

theorem repr_value (n : Nat) :
    (Nat.repr n).data.foldl (fun value c => 10 * value + (c.toNat - 48)) 0 = n := by
  have h := toDigitsCore_value (n + 1) n [] (Nat.lt_succ_self n)
  simpa [Nat.repr, Nat.toDigits, List.asString] using h

theorem toString_nat_inj (i j : Nat) (h : toString i = toString j) : i = j := by
  have h1 : Nat.repr i = Nat.repr j := h
  have h2 := repr_value i
  rw [h1, repr_value j] at h2
  exact h2.symm

theorem token_inj (token : String) (i j : Nat)
    (h : token ++ "_" ++ toString i = token ++ "_" ++ toString j) : i = j := by
  apply toString_nat_inj
  have h1 := congrArg String.data h
  simp only [String.data_append, List.append_cancel_left_eq] at h1
  exact String.ext h1

/-- With `deduplicate` and a non-empty `insert_deduplication_token`, one iteration of the loop
leaves `chunk_dedup_seqnum` as it is when no part was made, and otherwise increments it and,
unless an exception ends the iteration, queues the part last with the block id of the token
numbered by the old value. -/
theorem consumeStep_token {β : Type} (settings : InsertSettings)
    (default_streams : Nat) (writeTempPart : β → TemporaryPart)
    (getBlockID : DataPart → String → String)
    (finish : SyncSink β → Option Failure × SyncSink β) (replicas_num : Nat)
    (st : ConsumeState β) (current_block : β)
    (htoken : settings.insert_deduplication_token ≠ "") :
    ((writeTempPart current_block).part = none →
      consumeStep true settings default_streams writeTempPart getBlockID finish replicas_num
        st current_block = (none, st)) ∧
    (∀ part, (writeTempPart current_block).part = some part →
      (consumeStep true settings default_streams writeTempPart getBlockID finish replicas_num
        st current_block).2.chunk_dedup_seqnum = sizeAdd st.chunk_dedup_seqnum 1 ∧
      ((consumeStep true settings default_streams writeTempPart getBlockID finish replicas_num
        st current_block).1 = none →
        (consumeStep true settings default_streams writeTempPart getBlockID finish
          replicas_num st current_block).2.partitions.getLast?
          = some { part := part
                   streams := (writeTempPart current_block).streams
                   block_id := .single (getBlockID part
                     (settings.insert_deduplication_token ++ "_"
                       ++ toString st.chunk_dedup_seqnum))
                   block := current_block })) := by
  have hne : (settings.insert_deduplication_token != "") = true := by simpa using htoken
  constructor
  · intro hnone
    unfold consumeStep
    simp only [hnone]
  · intro part hpart
    unfold consumeStep
    simp only [hpart, consumeBlockId, hne, if_true]
    rcases hf1 : finish st.sink with ⟨_ | f, sink1⟩
    · dsimp only
      rcases hf2 : finish
          { delayed_chunk := some { replicas_num := replicas_num, partitions := st.partitions }
            last_block_is_duplicate := sink1.last_block_is_duplicate
            members := sink1.members } with ⟨_ | f, sink2⟩
      · split_ifs <;> simp
      · split_ifs <;> simp
    · split_ifs <;> simp

/-- With `deduplicate` and a non-empty token, a run of the loop without an exception adds the
number of parts made to `chunk_dedup_seqnum`, as long as the number stays below `2^64`. -/
theorem consumeParts_seqnum {β : Type} (settings : InsertSettings)
    (default_streams : Nat) (writeTempPart : β → TemporaryPart)
    (getBlockID : DataPart → String → String)
    (finish : SyncSink β → Option Failure × SyncSink β) (replicas_num : Nat)
    (htoken : settings.insert_deduplication_token ≠ "") :
    ∀ (blocks : List β) (st st1 : ConsumeState β),
      st.chunk_dedup_seqnum + (blocks.filterMap (fun b => (writeTempPart b).part)).length
        < sizeModulus →
      consumeParts true settings default_streams writeTempPart getBlockID finish replicas_num
        blocks st = (none, st1) →
      st1.chunk_dedup_seqnum
        = st.chunk_dedup_seqnum + (blocks.filterMap (fun b => (writeTempPart b).part)).length := by
  intro blocks
  induction blocks with
  | nil =>
    intro st st1 _ h
    simp only [consumeParts, Prod.mk.injEq, true_and] at h
    subst h
    simp
  | cons b rest ih =>
    intro st st1 hroom h
    obtain ⟨hnone, hsome⟩ := consumeStep_token settings default_streams writeTempPart
      getBlockID finish replicas_num st b htoken
    unfold consumeParts at h
    cases hpart : (writeTempPart b).part with
    | none =>
      rw [hnone hpart] at h
      simp only at h
      simp only [List.filterMap_cons, hpart] at hroom ⊢
      exact ih st st1 hroom h
    | some part =>
      simp only [List.filterMap_cons, hpart, List.length_cons] at hroom ⊢
      cases hstep : consumeStep true settings default_streams writeTempPart getBlockID finish
          replicas_num st b with
      | mk f st2 =>
        have hseq := (hsome part hpart).1
        rw [hstep] at hseq h
        cases f with
        | some f => simp at h
        | none =>
          simp only at h hseq
          have hadd : sizeAdd st.chunk_dedup_seqnum 1 = st.chunk_dedup_seqnum + 1 := by
            unfold sizeAdd
            exact Nat.mod_eq_of_lt (by omega)
          rw [hadd] at hseq
          have := ih st2 st1 (by rw [hseq]; omega) h
          rw [this, hseq]
          omega

/-- C22: in the synchronous sink with `deduplicate` and a non-empty
`insert_deduplication_token`, let `k` parts have been made from the blocks `done` of this call
of `consume`, which started with `chunk_dedup_seqnum = seq0` (parts skipped as empty are not
counted, and the numbers stay below `2^64`). Then `chunk_dedup_seqnum` is `seq0 + k`; the
iteration for the next block that gives a part sets it to `seq0 + k + 1` and, unless an
exception ends it, queues the part with the block id that `getZeroLevelPartBlockID` makes of
the token string `token + "_" + (seq0 + k)`; and token strings of different numbers are
different. With `seq0 = 0` at the first call, the `k`-th part of the sink gets the number `k`. -/
theorem C22_dedup_token_sequence {β : Type} (settings : InsertSettings)
    (default_streams : Nat) (writeTempPart : β → TemporaryPart)
    (getBlockID : DataPart → String → String)
    (finish : SyncSink β → Option Failure × SyncSink β) (replicas_num : Nat)
    (done : List β) (current_block : β) (part : DataPart) (sink : SyncSink β) (seq0 : Nat)
    (st : ConsumeState β)
    (htoken : settings.insert_deduplication_token ≠ "")
    (hroom : seq0 + (done.filterMap (fun b => (writeTempPart b).part)).length + 1
      < sizeModulus)
    (hdone : consumeParts true settings default_streams writeTempPart getBlockID finish
      replicas_num done (consumeStart sink seq0) = (none, st))
    (hpart : (writeTempPart current_block).part = some part) :
    st.chunk_dedup_seqnum
      = seq0 + (done.filterMap (fun b => (writeTempPart b).part)).length ∧
    (consumeStep true settings default_streams writeTempPart getBlockID finish replicas_num
      st current_block).2.chunk_dedup_seqnum
      = seq0 + (done.filterMap (fun b => (writeTempPart b).part)).length + 1 ∧
    ((consumeStep true settings default_streams writeTempPart getBlockID finish replicas_num
      st current_block).1 = none →
      (consumeStep true settings default_streams writeTempPart getBlockID finish
        replicas_num st current_block).2.partitions.getLast?
        = some { part := part
                 streams := (writeTempPart current_block).streams
                 block_id := .single (getBlockID part
                   (settings.insert_deduplication_token ++ "_" ++ toString
                     (seq0 + (done.filterMap (fun b => (writeTempPart b).part)).length)))
                 block := current_block }) ∧
    (∀ i j : Nat,
      settings.insert_deduplication_token ++ "_" ++ toString i
        = settings.insert_deduplication_token ++ "_" ++ toString j → i = j) := by
  have hseq : st.chunk_dedup_seqnum
      = seq0 + (done.filterMap (fun b => (writeTempPart b).part)).length :=
    consumeParts_seqnum settings default_streams writeTempPart getBlockID finish replicas_num
      htoken done (consumeStart sink seq0) st (by simp only [consumeStart]; omega) hdone
  obtain ⟨h1, h2⟩ := (consumeStep_token settings default_streams writeTempPart getBlockID
    finish replicas_num st current_block htoken).2 part hpart
  have hadd : sizeAdd st.chunk_dedup_seqnum 1 = st.chunk_dedup_seqnum + 1 := by
    unfold sizeAdd
    exact Nat.mod_eq_of_lt (by omega)
  refine ⟨hseq, by rw [h1, hadd, hseq], ?_, token_inj _⟩
  intro hok
  rw [← hseq]
  exact h2 hok

/-- Witness for C22: the token `tok` and the blocks 6, 0, 6 (the second gives no part), then a
block with a part: the third part made gets the token `tok_2`. -/
theorem C22_dedup_token_sequence_witness :
    (consumeStep true (exampleSettings "tok" 10) 1000 exampleWriteTempPart
      (fun _ token => token) exampleFinish 1
      (consumeParts true (exampleSettings "tok" 10) 1000 exampleWriteTempPart
        (fun _ token => token) exampleFinish 1 [6, 0, 6] (consumeStart exampleSyncSink 0)).2
      3).2.partitions.getLast?
      = some { part := examplePart, streams := 3, block_id := .single "tok_2", block := 3 } :=
  (C22_dedup_token_sequence (exampleSettings "tok" 10) 1000 exampleWriteTempPart
    (fun _ token => token) exampleFinish 1 [6, 0, 6] 3 examplePart exampleSyncSink 0 _
    (by decide) (by decide) rfl rfl).2.2.1 (by decide)

/-! ## The empty deduplication token -/

/-- An iteration of the loop of `consume` that makes a part and ends without an exception
queues the part last, with the block id that `consumeBlockId` gives. -/
theorem consumeStep_block_id {β : Type} (deduplicate : Bool) (settings : InsertSettings)
    (default_streams : Nat) (writeTempPart : β → TemporaryPart)
    (getBlockID : DataPart → String → String)
    (finish : SyncSink β → Option Failure × SyncSink β) (replicas_num : Nat)
    (st : ConsumeState β) (current_block : β) (part : DataPart)
    (hpart : (writeTempPart current_block).part = some part)
    (hok : (consumeStep deduplicate settings default_streams writeTempPart getBlockID finish
      replicas_num st current_block).1 = none) :
    (consumeStep deduplicate settings default_streams writeTempPart getBlockID finish
      replicas_num st current_block).2.partitions.getLast?
      = some { part := part
               streams := (writeTempPart current_block).streams
               block_id := .single (consumeBlockId deduplicate settings getBlockID part
                 st.chunk_dedup_seqnum).1
               block := current_block } := by
  revert hok
  unfold consumeStep
  simp only [hpart]
  rcases hf1 : finish st.sink with ⟨_ | f, sink1⟩
  · dsimp only
    rcases hf2 : finish
        { delayed_chunk := some { replicas_num := replicas_num, partitions := st.partitions }
          last_block_is_duplicate := sink1.last_block_is_duplicate
          members := sink1.members } with ⟨_ | f, sink2⟩
    · split_ifs <;> simp
    · split_ifs <;> simp
  · split_ifs <;> simp

theorem block_id_not_empty (partition_id hash : String) :
    (BlockIDsType.single (partition_id ++ "_" ++ hash)).empty = false := by
  have hne : partition_id ++ "_" ++ hash ≠ "" := by
    intro h
    have h1 := congrArg String.data h
    simp [String.data_append] at h1
  simpa [BlockIDsType.empty] using hne

/-- C23 as stated fails: with `deduplicate` set and the empty `insert_deduplication_token`,
the part of partition `all` made from a block is queued with the block id `all_c`, made of the
partition id and the hash of its rows; the id is not empty, `commitPart` builds the guard
path `/t/blocks/all_c` from it, and `deduplicate_block` is true. -/
theorem C23_counterexample_empty_token_deduplicates :
    (exampleSettings "" 10).insert_deduplication_token = "" ∧
    ((consumeStep true (exampleSettings "" 10) 1000 exampleWriteTempPart
      (getZeroLevelPartBlockID (fun part => part.checksum)) exampleFinish 1
      (consumeStart exampleSyncSink 0) 6).2.partitions.map (fun p => p.block_id))
      = [.single "all_c"] ∧
    (BlockIDsType.single "all_c").empty = false ∧
    (match commitPrepare (QuorumConfig.construct 0 false false) exampleStorage
        examplePartFunctions false (.single "all_c") 1 false (exampleAnswers .ZOK 0 false)
        (commitPartStart (exampleSink 0) examplePart) with
      | .inr (ctx, _) => (ctx.deduplicate_block, ctx.block_id_path)
      | .inl _ => (false, .single "")) = (true, .single "/t/blocks/all_c") := by
  refine ⟨rfl, by decide, by decide, by decide⟩

/-- C23, amended: in the synchronous sink an empty `insert_deduplication_token` does not
disable deduplication. With the flag `deduplicate` of the sink set, the part is queued with
the block id made of its partition id, `_` and the hash of its rows, `chunk_dedup_seqnum`
stays as it is, the id is not empty, `commitPart` builds the guard path
`<zookeeper_path>/blocks/<id>` from it and `deduplicate_block` is true. Deduplication is off
only when the flag `deduplicate` is off: then the block id handed to `commitPart` is empty, no
block-id guard path is built and `deduplicate_block` is false. -/
theorem C23_empty_token {β : Type} (H128 : DataPart → String) (settings : InsertSettings)
    (default_streams : Nat) (writeTempPart : β → TemporaryPart)
    (finish : SyncSink β → Option Failure × SyncSink β) (replicas_num : Nat)
    (st : ConsumeState β) (current_block : β) (part : DataPart) (deduplicate : Bool)
    (s : QuorumConfig) (storage : StorageNames) (fns : PartFunctions) (is_attach : Bool)
    (writing_existing_part : Bool) (answers : CommitAnswers) (cst cst1 : CommitState)
    (ctx : SubmitContext) (block_id : String)
    (htoken : settings.insert_deduplication_token = "")
    (hpart : (writeTempPart current_block).part = some part)
    (hok : (consumeStep deduplicate settings default_streams writeTempPart
      (getZeroLevelPartBlockID H128) finish replicas_num st current_block).1 = none)
    (hid : block_id = if deduplicate then part.info.partition_id ++ "_" ++ H128 part else "")
    (hprepare : commitPrepare s storage fns is_attach (.single block_id) replicas_num
      writing_existing_part answers cst = .inr (ctx, cst1)) :
    (consumeStep deduplicate settings default_streams writeTempPart
      (getZeroLevelPartBlockID H128) finish replicas_num st current_block).2.partitions.getLast?
      = some { part := part
               streams := (writeTempPart current_block).streams
               block_id := .single block_id
               block := current_block } ∧
    (consumeBlockId deduplicate settings (getZeroLevelPartBlockID H128) part
      st.chunk_dedup_seqnum).2 = st.chunk_dedup_seqnum ∧
    (BlockIDsType.single block_id).empty = !deduplicate ∧
    commitPrefilter storage (.single block_id) answers cst
      = .inr ((if deduplicate then .single (storage.zookeeper_path ++ "/blocks/" ++ block_id)
          else .single ""), cst) ∧
    ctx.deduplicate_block = deduplicate := by
  have hblock : (consumeBlockId deduplicate settings (getZeroLevelPartBlockID H128) part
      st.chunk_dedup_seqnum) = (block_id, st.chunk_dedup_seqnum) := by
    cases deduplicate <;> simp [consumeBlockId, getZeroLevelPartBlockID, htoken, hid]
  have hempty : (BlockIDsType.single block_id).empty = !deduplicate := by
    cases deduplicate
    · simp [hid, BlockIDsType.empty]
    · simp only [hid, if_true, Bool.not_true]
      exact block_id_not_empty _ _
  have hqueued := consumeStep_block_id deduplicate settings default_streams writeTempPart
    (getZeroLevelPartBlockID H128) finish replicas_num st current_block part hpart hok
  rw [hblock] at hqueued
  refine ⟨hqueued, by rw [hblock], hempty, ?_, ?_⟩
  · unfold commitPrefilter
    simp only [hempty]
    cases deduplicate <;> simp
  · rw [(commitPrepare_inr s storage fns is_attach (.single block_id) replicas_num
      writing_existing_part answers cst cst1 ctx hprepare).2.1, hempty]
    simp

/-- Witness for C23: the sink without `deduplicate`, the empty token and a block whose part
has 6 write streams; the part is queued with the empty block id. -/
theorem C23_empty_token_witness :
    (consumeStep false (exampleSettings "" 10) 1000 exampleWriteTempPart
      (getZeroLevelPartBlockID (fun part => part.checksum)) exampleFinish 1
      (consumeStart exampleSyncSink 0) 6).2.partitions.getLast?
      = some { part := examplePart, streams := 6, block_id := .single "", block := 6 } :=
  (C23_empty_token (fun part => part.checksum) (exampleSettings "" 10) 1000
    exampleWriteTempPart exampleFinish 1 (consumeStart exampleSyncSink 0) 6 examplePart false
    (QuorumConfig.construct 0 false false) exampleStorage examplePartFunctions false false
    (exampleAnswers .ZOK 0 false) (commitPartStart (exampleSink 0) examplePart) _ _ ""
    rfl rfl (by decide) rfl rfl).1

end DB
